import Mathlib

/-!
# COSEC virtual file system: a shallow embedding of `src/fs/vfs.c`

The kernel heap is one list of typed cells.  A pointer is a natural number:
`0` is `NULL`, and address `a + 1` denotes cell `a` of the list.  A function
that dereferences `NULL`, a freed cell, a cell of the wrong type or an array
slot out of bounds has no defined result: it returns `none`.

`size_t`, `inode_t` and `index_t` are 32 bits wide (the kernel targets i386),
so every `size_t` product and sum is reduced modulo `2 ^ 32`; an `int` is the
signed reading of the same 32 bits.

`kmalloc` always succeeds and returns a fresh address.
-/

namespace Cosec

/-! ## Machine integers -/

/-- The number of values of a `size_t`. -/
def SIZE_MOD : Nat := 4294967296

/-- Reduction of a natural number to a `size_t`. -/
def wrap (n : Nat) : Nat := n % SIZE_MOD

/-- The `int` a `size_t` value converts to. -/
def toInt (n : Nat) : Int :=
  if wrap n < 2147483648 then (wrap n : Int) else (wrap n : Int) - 4294967296

/-! ## Heap objects -/

/-- The `struct inode`; the device member of the union `as` is kept, the
other members are never read or written by this file. -/
structure inode where
  i_no : Nat
  i_mode : Nat
  i_nlinks : Nat
  i_size : Nat
  i_data : Nat
  dev_maj : Nat
  dev_min : Nat
deriving DecidableEq, Repr

/-- The `struct btree_node`; `bt_children` has `bt_fanout` slots. -/
structure btree_node where
  bt_level : Nat
  bt_fanout : Nat
  bt_used : Nat
  bt_children : List Nat
deriving DecidableEq, Repr

/-- The `struct ramfs_direntry` without its `htnext` link: a collision chain
is the list of its entries, head first. -/
structure ramfs_direntry where
  de_hash : Nat
  de_name : List Char
  de_ino : Nat
deriving DecidableEq, Repr

/-- The `struct ramfs_directory`; `ht` has `htcap` chains. -/
structure ramfs_directory where
  size : Nat
  htcap : Nat
  ht : List (List ramfs_direntry)
deriving DecidableEq, Repr

/-- One cell of the kernel heap; `rdata` is a `struct ramfs_data`, which has
the one member `inodes_btree`. -/
inductive Obj where
  | freed : Obj
  | ino : inode → Obj
  | bnode : btree_node → Obj
  | dir : ramfs_directory → Obj
  | rdata : Nat → Obj
deriving DecidableEq, Repr

/-- The kernel heap. -/
abbrev Heap := List Obj

/-- The cell at address `p`, if `p` is the address of a cell. -/
def Heap.cell (h : Heap) (p : Nat) : Option Obj :=
  match p with
  | 0 => none
  | a + 1 => h.get? a

/-- Dereference of `p` as a `struct btree_node *`. -/
def Heap.node (h : Heap) (p : Nat) : Option btree_node :=
  match h.cell p with
  | some (Obj.bnode b) => some b
  | _ => none

/-- Dereference of `p` as a `struct inode *`. -/
def Heap.inode (h : Heap) (p : Nat) : Option inode :=
  match h.cell p with
  | some (Obj.ino i) => some i
  | _ => none

/-- Dereference of `p` as a `struct ramfs_directory *`. -/
def Heap.directory (h : Heap) (p : Nat) : Option ramfs_directory :=
  match h.cell p with
  | some (Obj.dir d) => some d
  | _ => none

/-- Dereference of `p` as a `struct ramfs_data *`: its `inodes_btree`. -/
def Heap.ramfs_data (h : Heap) (p : Nat) : Option Nat :=
  match h.cell p with
  | some (Obj.rdata r) => some r
  | _ => none

/-- Store `o` at address `p`. -/
def Heap.store (h : Heap) (p : Nat) (o : Obj) : Heap :=
  match p with
  | 0 => h
  | a + 1 => h.set a o

/-- The allocator `kmalloc`: a fresh cell holding `o`, and its address. -/
def kmalloc (h : Heap) (o : Obj) : Heap × Nat :=
  (h ++ [o], h.length + 1)

/-- The address of the global `invalid_inode`. -/
def invalid_inode : Nat := 1

/-- An inode whose bytes are all zero. -/
def inode_zero : inode :=
  { i_no := 0, i_mode := 0, i_nlinks := 0, i_size := 0, i_data := 0,
    dev_maj := 0, dev_min := 0 }

/-- The heap at boot: the global `invalid_inode` alone. -/
def heap_init : Heap := [Obj.ino inode_zero]

/-! ## The inode index -/

/-- The function `btree_new`: a node of level 0 with `fanout` empty slots. -/
def btree_new (h : Heap) (fanout : Nat) : Heap × Nat :=
  kmalloc h (Obj.bnode
    { bt_level := 0, bt_fanout := fanout, bt_used := 0,
      bt_children := List.replicate fanout 0 })

/-- The loop `for (i = 0; i < btree_lvl; ++i) btsize *= fanout;`. -/
def btree_size (fanout : Nat) : Nat → Nat → Nat
  | 0, btsize => btsize
  | lvl + 1, btsize => btree_size fanout lvl (wrap (btsize * fanout))

/-- The loop `while (btree_lvl-- > 0)` of `btree_get_index` and its final
`return bnode->bt_children[index]`. -/
def btree_descend (h : Heap) (fanout : Nat) :
    Nat → Nat → Nat → Nat → Option Nat
  | 0, bnode, _, index => do
      let b ← h.node bnode
      b.bt_children.get? index
  | lvl + 1, bnode, btsize, index => do
      if fanout = 0 then none else
      let btsize1 := btsize / fanout
      if btsize1 = 0 then none else
      let this_node_index := index / btsize1
      let index1 := index % btsize1
      let b ← h.node bnode
      let subnode ← b.bt_children.get? this_node_index
      if subnode = 0 then some 0
      else btree_descend h fanout lvl subnode btsize1 index1

/-- The function `btree_get_index`: the leaf at `index`, or `NULL`. -/
def btree_get_index (h : Heap) (bnode : Nat) (index : Nat) : Option Nat := do
  let b ← h.node bnode
  let btsize := btree_size b.bt_fanout b.bt_level b.bt_fanout
  if btsize ≤ index then some 0
  else btree_descend h b.bt_fanout b.bt_level bnode btsize index

/-- The first `i` with `i < fanout`, counted from `i`, whose slot is `NULL`;
`none` inside is the loop running to its end, `none` outside a read past the
array. -/
def first_null (children : List Nat) : Nat → Nat → Option (Option Nat)
  | 0, _ => some none
  | n + 1, i =>
      match children.get? i with
      | none => none
      | some c => if c = 0 then some (some i) else first_null children n (i + 1)

/-- The loop `while (j-- > 0) index_offset *= fanout;`. -/
def index_offset (fanout : Nat) : Nat → Nat
  | 0 => 1
  | j + 1 => wrap (index_offset fanout j * fanout)

/-- The loop `for (i = 0; i < fanout; ++i)` over the subnodes in
`btree_set_leaf`; `n` iterations are left, the next one is `i`, and `call` is
the recursive call `btree_set_leaf(bchild, idata)`. -/
def btree_set_leaf_loop (call : Heap → Nat → Option (Heap × Nat))
    (bnode fanout : Nat) : Nat → Nat → Heap → Option (Heap × Nat)
  | 0, _, h => some (h, 0)
  | n + 1, i, h => do
      let b ← h.node bnode
      let bchild ← b.bt_children.get? i
      if bchild = 0 then btree_set_leaf_loop call bnode fanout n (i + 1) h
      else
        let (h1, res) ← call h bchild
        if 0 < toInt res then
          let b1 ← h1.node bnode
          some (h1, wrap (res + i * index_offset fanout b1.bt_level))
        else btree_set_leaf_loop call bnode fanout n (i + 1) h1

/-- The function `btree_set_leaf`; `fuel` bounds the depth of the recursion
through child pointers. -/
def btree_set_leaf_aux (idata : Nat) : Nat → Heap → Nat → Option (Heap × Nat)
  | 0, _, _ => none
  | fuel + 1, h, bnode => do
      let b ← h.node bnode
      let fanout := b.bt_fanout
      if b.bt_level = 0 then
        if b.bt_used < fanout then
          match ← first_null b.bt_children fanout 0 with
          | some i =>
              some (h.store bnode (Obj.bnode
                { b with bt_used := wrap (b.bt_used + 1),
                         bt_children := b.bt_children.set i idata }), i)
          | none => some (h, 0)
        else some (h, 0)
      else btree_set_leaf_loop (btree_set_leaf_aux idata fuel) bnode fanout fanout 0 h

/-- The function `btree_set_leaf`.  A chain of child pointers that does not
come back to a node it left is shorter than the heap has cells, so that many
levels of recursion are all a terminating call can use. -/
def btree_set_leaf (h : Heap) (bnode idata : Nat) : Option (Heap × Nat) :=
  btree_set_leaf_aux idata (h.length + 1) h bnode

/-- The loop `while (lvl-- > 0)` of `btree_new_leaf`; `old_root` is `NULL`
in the first iteration. -/
def btree_grow_down (fanout new_root : Nat) :
    Nat → Heap → Nat → Nat → Option (Heap × Nat)
  | 0, h, _, res => some (h, res)
  | lvl + 1, h, old_root, res => do
      let (h1, new_node) := btree_new h fanout
      if old_root ≠ 0 then
        let o ← h1.node old_root
        if o.bt_children.length < 1 then none else
        let h2 := h1.store old_root (Obj.bnode
          { o with bt_children := o.bt_children.set 0 new_node,
                   bt_used := wrap (o.bt_used + 1) })
        btree_grow_down fanout new_root lvl h2 new_node (wrap (res * fanout))
      else
        let r ← h1.node new_root
        if r.bt_children.length < 2 then none else
        let h2 := h1.store new_root (Obj.bnode
          { r with bt_children := r.bt_children.set 1 new_node,
                   bt_used := wrap (r.bt_used + 1) })
        btree_grow_down fanout new_root lvl h2 new_node (wrap (res * fanout))

/-- The function `btree_new_leaf`: the heap, the new `*btree_root` and the
returned index. -/
def btree_new_leaf (h : Heap) (btree_root idata : Nat) :
    Option (Heap × Nat × Nat) := do
  let (h1, res) ← btree_set_leaf h btree_root idata
  if 0 < toInt res then some (h1, btree_root, res)
  else
    let old_root ← h1.node btree_root
    let lvl := old_root.bt_level + 1
    let fanout := old_root.bt_fanout
    let (h2, new_root) := btree_new h1 fanout
    let r ← h2.node new_root
    if r.bt_children.length < 1 then none else
    let h3 := h2.store new_root (Obj.bnode
      { r with bt_level := old_root.bt_level + 1,
               bt_children := r.bt_children.set 0 btree_root,
               bt_used := wrap (r.bt_used + 1) })
    let (h4, res1) ← btree_grow_down fanout new_root lvl h3 0 1
    some (h4, new_root, res1)

/-- Repeated `btree_new_leaf` with fresh zeroed inodes: the heap, the root
and, latest first, each record with the index returned for it. -/
def btree_insert_many : Nat → Heap → Nat → List (Nat × Nat) →
    Option (Heap × Nat × List (Nat × Nat))
  | 0, h, root, acc => some (h, root, acc)
  | n + 1, h, root, acc => do
      let (h1, idata) := kmalloc h (Obj.ino inode_zero)
      let (h2, root1, res) ← btree_new_leaf h1 root idata
      btree_insert_many n h2 root1 ((idata, res) :: acc)

/-- A tree of level 0 with the sentinel in slot 0. -/
def btree_seed (fanout : Nat) : Option (Heap × Nat) := do
  let (h, root) := btree_new heap_init fanout
  let (h1, _) ← btree_set_leaf h root invalid_inode
  some (h1, root)


/-! ## Strings (`std/stdlib.c`)

A `char *` is the list of the bytes from the pointer onwards; the byte after
the last one of the list is the terminating NUL. -/

/-- The NUL byte. -/
def NUL : Char := Char.ofNat 0

/-- The path separator `FS_SEP`. -/
def FS_SEP : Char := '/'

/-- The byte `s[i]`. -/
def cget (s : List Char) (i : Nat) : Char := s.getD i NUL

/-- The function `strlen`. -/
def strlen : List Char → Nat
  | [] => 0
  | c :: cs => if c = NUL then 0 else strlen cs + 1

/-- The C string a buffer holds: its bytes before the first NUL. -/
def cstr (s : List Char) : List Char := s.take (strlen s)

/-- The constant `MAX_UINT`. -/
def MAX_UINT : Nat := 4294967295

/-- The constant `MAX_INT`. -/
def MAX_INT : Nat := 2147483647

/-- The constant `SIZE_MAX`. -/
def SIZE_MAX : Nat := 4294967295

/-- The function `strncmp` of `std/stdlib.c`; its first line, which returns 0
for equal pointers, returns what the loop returns for them. -/
def strncmp : List Char → List Char → Nat → Int
  | _, _, 0 => 0
  | s1, s2, n + 1 =>
      if s1.headD NUL ≠ s2.headD NUL then
        ((s2.headD NUL).toNat : Int) - ((s1.headD NUL).toNat : Int)
      else if s1.headD NUL = NUL then 0
      else strncmp s1.tail s2.tail n

/-- The function `strcmp`. -/
def strcmp (s1 s2 : List Char) : Int := strncmp s1 s2 MAX_UINT

/-- The loop of `strnrchr`: `cur` is at offset `pos`, `n` more bytes may be
read and `last` is the latest match. -/
def strnrchr_loop (c : Char) : List Char → Nat → Nat → Option Nat → Option Nat
  | [], _, _, last => last
  | x :: xs, n, pos, last =>
      if x = NUL ∨ n = 0 then last
      else strnrchr_loop c xs (n - 1) (pos + 1) (if c = x then some pos else last)

/-- The function `strnrchr`: the offset of the last `c`, or `none` for null. -/
def strnrchr (s : List Char) (n : Nat) (c : Char) : Option Nat :=
  strnrchr_loop c s n 0 none

/-- The function `strrchr`. -/
def strrchr (s : List Char) (c : Char) : Option Nat := strnrchr s MAX_INT c

/-- The function `strdup`.  The source allocates one byte more than the string has and
copies with `strncpy`, which writes no terminator; the byte after the copy is taken to be
NUL here. -/
def strdup (s : List Char) : List Char := cstr s

/-- The bytes `strncpy(dest, src, n)` writes.  The source writes no terminator and no
padding; the byte after the copied ones, which is what `dest` held before, is taken to be
NUL here. -/
def strncpy (src : List Char) (n : Nat) : List Char := (cstr src).take n

/-! ## Constants of headers that are not among the sources -/

/-- Modelled from the spec: `sys/stat.h` is not among the sources; mode bits
follow POSIX, the top nibble of the 16-bit mode word is the type. -/
def S_IFMT : Nat := 61440
/-- Modelled from the spec: the POSIX type code of a directory. -/
def S_IFDIR : Nat := 16384
/-- Modelled from the spec: the POSIX type code of a character device. -/
def S_IFCHR : Nat := 8192
/-- Modelled from the spec: the POSIX type code of a block device. -/
def S_IFBLK : Nat := 24576
/-- Modelled from the spec: the POSIX type code of a regular file. -/
def S_IFREG : Nat := 32768
/-- Modelled from the spec: the POSIX type code of a symbolic link. -/
def S_IFLNK : Nat := 40960
/-- Modelled from the spec: the POSIX type code of a socket. -/
def S_IFSOCK : Nat := 49152
/-- Modelled from the spec: the POSIX type code of a fifo. -/
def S_IFIFO : Nat := 4096

/-- The macro `S_ISDIR`. -/
def S_ISDIR (mode : Nat) : Bool := mode &&& S_IFMT == S_IFDIR
/-- The macro `S_ISLNK`. -/
def S_ISLNK (mode : Nat) : Bool := mode &&& S_IFMT == S_IFLNK
/-- The macro `S_ISCHR`. -/
def S_ISCHR (mode : Nat) : Bool := mode &&& S_IFMT == S_IFCHR
/-- The macro `S_ISBLK`. -/
def S_ISBLK (mode : Nat) : Bool := mode &&& S_IFMT == S_IFBLK

/-- Modelled from the spec: `sys/errno.h` is not among the sources; the error
kinds of the spec with their POSIX numbers. -/
def ENOENT : Int := 2
/-- Modelled from the spec: the code of a bad descriptor. -/
def EBADF : Int := 9
/-- Modelled from the spec: the code of `NoMemory`. -/
def ENOMEM : Int := 12
/-- Modelled from the spec: the code of `AlreadyExists`. -/
def EEXIST : Int := 17
/-- Modelled from the spec: the code of `NotADir`. -/
def ENOTDIR : Int := 20
/-- Modelled from the spec: the code of `IsDir`. -/
def EISDIR : Int := 21
/-- Modelled from the spec: the code of `InvalidArg`. -/
def EINVAL : Int := 22
/-- Modelled from the spec: the code of `NotSupported`. -/
def ENOSYS : Int := 38
/-- Modelled from the spec: the code of `BadFs`, a non-zero code of the
kernel's own. -/
def EKERN : Int := 256
/-- Modelled from the spec: the code of `NotImplemented`, a non-zero code of
the kernel's own. -/
def ETODO : Int := 257

/-- Modelled from the spec: `dev/devices.h` is not among the sources; the
major number occupies the high byte pair of a device identifier. -/
def gnu_dev_major (dev : Nat) : Nat := (dev / 65536) % 65536
/-- Modelled from the spec: the minor number occupies the low byte pair. -/
def gnu_dev_minor (dev : Nat) : Nat := dev % 65536
/-- Modelled from the spec: the device identifier of a major and a minor
number. -/
def gnu_dev_makedev (maj min : Nat) : Nat := (maj % 65536) * 65536 + min % 65536

/-- The constant `UCHAR_MAX`. -/
def UCHAR_MAX : Nat := 255

/-- The constant `PAGE_SIZE` of the i386 kernel. -/
def PAGE_SIZE : Nat := 4096

/-! ## The directory table -/

/-- The call `strhash(key, len)` for a hash function `strhash` on byte
strings; the result is a `uint32_t`. -/
def hash32 (strhash : List Char → Nat) (key : List Char) (len : Nat) : Nat :=
  strhash (key.take len) % 4294967296

/-- The function `ramfs_directory_new`. -/
def ramfs_directory_new (h : Heap) : Heap × Nat :=
  kmalloc h (Obj.dir { size := 0, htcap := 8, ht := List.replicate 8 [] })

/-- The walk of `ramfs_directory_insert` along one collision chain: the
chain with `de` linked after its last entry, or `none` for `EEXIST`. -/
def chain_insert (de : ramfs_direntry) :
    List ramfs_direntry → Option (List ramfs_direntry)
  | [] => some [de]
  | bucket :: rest =>
      if bucket.de_hash = de.de_hash ∧ strcmp bucket.de_name de.de_name = 0 then none
      else (chain_insert de rest).map (fun r => bucket :: r)

/-- The function `ramfs_directory_insert`. -/
def ramfs_directory_insert (dir : ramfs_directory) (de : ramfs_direntry) :
    Option (ramfs_directory × Int) :=
  if dir.htcap = 0 then none else
  match dir.ht.get? (de.de_hash % dir.htcap) with
  | none => none
  | some bucket =>
      match chain_insert de bucket with
      | none => some (dir, EEXIST)
      | some bucket1 =>
          some ({ dir with ht := dir.ht.set (de.de_hash % dir.htcap) bucket1,
                           size := wrap (dir.size + 1) }, 0)

/-- The function `ramfs_directory_new_entry`. -/
def ramfs_directory_new_entry (strhash : List Char → Nat) (h : Heap)
    (dir : Nat) (name : List Char) (idata : Nat) : Option (Heap × Int) := do
  let i ← h.inode idata
  let d ← h.directory dir
  let de : ramfs_direntry :=
    { de_name := strdup name, de_hash := hash32 strhash name (strlen name),
      de_ino := i.i_no }
  let (d1, ret) ← ramfs_directory_insert d de
  if ret ≠ 0 then some (h, ret)
  else
    let h1 := h.store dir (Obj.dir d1)
    let i1 ← h1.inode idata
    some (h1.store idata (Obj.ino { i1 with i_nlinks := i1.i_nlinks + 1 }), 0)

/-- The function `ramfs_directory_free`. -/
def ramfs_directory_free (h : Heap) (dir : Nat) : Option Heap := do
  let _ ← h.directory dir
  some (h.store dir Obj.freed)

/-- The first entry of a chain with hash `hash` whose name agrees with
`basename` on `basename_len` bytes. -/
def chain_find (hash : Nat) (basename : List Char) (basename_len : Nat) :
    List ramfs_direntry → Option ramfs_direntry
  | [] => none
  | de :: rest =>
      if de.de_hash = hash ∧ strncmp basename de.de_name basename_len = 0 then some de
      else chain_find hash basename basename_len rest

/-- The function `ramfs_get_inode_by_basename`: the code and `*ino`. -/
def ramfs_get_inode_by_basename (strhash : List Char → Nat)
    (dir : ramfs_directory) (basename : List Char) (basename_len : Nat) :
    Option (Int × Nat) :=
  if dir.htcap = 0 then none else
  match dir.ht.get? (hash32 strhash basename basename_len % dir.htcap) with
  | none => none
  | some chain =>
      match chain_find (hash32 strhash basename basename_len) basename basename_len chain with
      | some de => some (0, de.de_ino)
      | none => some (ENOENT, 0)

/-! ## The ramfs driver -/

/-- The `struct superblock`; a pointer to a driver or to a superblock is an
address in the table of its kind. -/
structure superblock where
  sb_dev : Nat
  sb_fs : Nat
  sb_blksz : Nat
  sb_root_ino : Nat
  sb_data : Nat
  sb_mntpath : List Char
  sb_mntpath_hash : Nat
  sb_brother : Nat
  sb_parent : Nat
  sb_children : Nat
deriving DecidableEq, Repr

/-- The address of the global `ramfs_driver`. -/
def ramfs_driver_addr : Nat := 1

/-- The function `ramfs_data_new`: the heap and the new `sb->sb_data`. -/
def ramfs_data_new (h : Heap) : Option (Heap × Nat) := do
  let (h1, data) := kmalloc h (Obj.rdata 0)
  let (h2, bnode) := btree_new h1 64
  let inv ← h2.inode invalid_inode
  let h3 := h2.store invalid_inode (Obj.ino { inv with i_no := 0 })
  let (h4, _) ← btree_set_leaf h3 bnode invalid_inode
  some (h4.store data (Obj.rdata bnode), data)

/-- The function `ramfs_inode_new`: the heap and `*iref`. -/
def ramfs_inode_new (h : Heap) (sb : superblock) (mode : Nat) :
    Option (Heap × Nat) := do
  let root ← h.ramfs_data sb.sb_data
  let (h1, idata) := kmalloc h (Obj.ino inode_zero)
  let (h2, root1, res) ← btree_new_leaf h1 root idata
  let _ ← h2.ramfs_data sb.sb_data
  let h3 := h2.store sb.sb_data (Obj.rdata root1)
  let i ← h3.inode idata
  some (h3.store idata (Obj.ino { i with i_no := res, i_mode := mode }), idata)

/-- The function `ramfs_inode_free`. -/
def ramfs_inode_free (h : Heap) (idata : Nat) : Option Heap := do
  let i ← h.inode idata
  if S_ISDIR i.i_mode ∧ i.i_data ≠ 0 then
    let h1 ← ramfs_directory_free h i.i_data
    some (h1.store idata Obj.freed)
  else some (h.store idata Obj.freed)

/-- The function `ramfs_idata_by_inode`. -/
def ramfs_idata_by_inode (h : Heap) (sb : superblock) (ino : Nat) : Option Nat := do
  let root ← h.ramfs_data sb.sb_data
  btree_get_index h root ino

/-- The function `ramfs_inode_data`: the code and the record copied into
`inobuf`, if one was copied. -/
def ramfs_inode_data (h : Heap) (sb : superblock) (ino : Nat) :
    Option (Int × Option inode) := do
  let idata ← ramfs_idata_by_inode h sb ino
  if idata = 0 then some (ENOENT, none)
  else
    let i ← h.inode idata
    some (0, some i)

/-- The last lookup of `ramfs_lookup_inode`, of the name between `basename`
and `basename_end`. -/
def ramfs_lookup_last (strhash : List Char → Nat) (h : Heap) (path : List Char)
    (dir boff e : Nat) : Option (Int × Option Nat) := do
  let d ← h.directory dir
  let (ret, ino) ← ramfs_get_inode_by_basename strhash d (path.drop boff) (e - boff)
  some (ret, some (if ret ≠ 0 then 0 else ino))

/-- The loops of `ramfs_lookup_inode`, one byte a step.  The list is the path
from `basename_end` onwards, `e` is `basename_end - path`, `boff` is
`basename - path`, `dir` is the current directory table and `skipping` holds
inside `while (*++basename_end == FS_SEP);`, whose exit sets `basename`.  The
result is the code and `*result`, if it was written. -/
def ramfs_lookup_walk (strhash : List Char → Nat) (h : Heap) (sb : superblock)
    (path : List Char) (pathlen : Nat) :
    List Char → Nat → Nat → Nat → Bool → Option (Int × Option Nat)
  | [], e, boff, dir, skipping =>
      ramfs_lookup_last strhash h path dir (if skipping then e else boff) e
  | c :: cs, e, boff, dir, skipping =>
      if skipping ∧ c = FS_SEP then
        ramfs_lookup_walk strhash h sb path pathlen cs (e + 1) boff dir true
      else if pathlen ≤ e ∨ c = NUL then
        ramfs_lookup_last strhash h path dir (if skipping then e else boff) e
      else if c = FS_SEP then do
        let d ← h.directory dir
        let (ret, ino) ← ramfs_get_inode_by_basename strhash d
          (path.drop (if skipping then e else boff)) (e - (if skipping then e else boff))
        if ret ≠ 0 then some (ret, some 0)
        else if cs.headD NUL = NUL then some (0, some ino)
        else
          let idata ← ramfs_idata_by_inode h sb ino
          if idata = 0 then some (EKERN, none)
          else
            let i ← h.inode idata
            if ¬ S_ISDIR i.i_mode then some (ENOTDIR, none)
            else ramfs_lookup_walk strhash h sb path pathlen cs (e + 1) boff i.i_data true
      else
        ramfs_lookup_walk strhash h sb path pathlen cs (e + 1)
          (if skipping then e else boff) dir false

/-- The function `ramfs_lookup_inode`: the code and `*result`, if it was
written. -/
def ramfs_lookup_inode (strhash : List Char → Nat) (h : Heap) (sb : superblock)
    (path : List Char) (pathlen : Nat) : Option (Int × Option Nat) := do
  if cget path 0 = NUL ∨ pathlen = 0 then some (0, some sb.sb_root_ino)
  else
    let root_idata ← ramfs_idata_by_inode h sb sb.sb_root_ino
    if root_idata = 0 then some (EKERN, none)
    else
      let r ← h.inode root_idata
      if ¬ S_ISDIR r.i_mode then some (EKERN, none)
      else ramfs_lookup_walk strhash h sb path pathlen path 0 0 r.i_data false

/-- The function `ramfs_link_inode`.  The buffer `buf` has `UCHAR_MAX` bytes. -/
def ramfs_link_inode (strhash : List Char → Nat) (h : Heap) (sb : superblock)
    (ino dirino : Nat) (name : List Char) (namelen : Nat) : Option (Heap × Int) := do
  if UCHAR_MAX ≤ (strncpy name namelen).length then none else
  let dir_idata ← ramfs_idata_by_inode h sb dirino
  if dir_idata = 0 then some (h, EKERN) else
  let di ← h.inode dir_idata
  if ¬ S_ISDIR di.i_mode then some (h, ENOTDIR) else
  if di.i_data = 0 then some (h, EKERN) else
  let idata ← ramfs_idata_by_inode h sb ino
  if idata = 0 then some (h, ENOENT) else
  let (h1, ret) ← ramfs_directory_new_entry strhash h di.i_data (strncpy name namelen) idata
  if ret ≠ 0 then some (h1, ret) else
  let i ← h1.inode idata
  some (h1.store idata (Obj.ino { i with i_nlinks := i.i_nlinks + 1 }), 0)

/-- The label `error_exit` of `ramfs_make_directory`. -/
def ramfs_make_directory_error_exit (h : Heap) (dir idata : Nat) (ret : Int) :
    Option (Heap × Int × Nat) := do
  let h1 ← if dir ≠ 0 then ramfs_directory_free h dir else some h
  let h2 ← if idata ≠ 0 then ramfs_inode_free h1 idata else some h1
  some (h2, ret, 0)

/-- The loop `while (*basename == FS_SEP) ++basename;`. -/
def skip_sep : List Char → List Char
  | [] => []
  | c :: cs => if c = FS_SEP then skip_sep cs else c :: cs

/-- The function `ramfs_make_directory`: the heap, the code and `*ino`. -/
def ramfs_make_directory (strhash : List Char → Nat) (h : Heap) (sb : superblock)
    (path : List Char) (mode : Nat) : Option (Heap × Int × Nat) := do
  let basename := strrchr path FS_SEP
  let (h1, idata) ← ramfs_inode_new h sb (S_IFDIR ||| mode)
  let (h2, dir) := ramfs_directory_new h1
  if cget path 0 = NUL then
    if sb.sb_parent = 0 then
      let (h3, ret) ← ramfs_directory_new_entry strhash h2 dir ['.', '.'] idata
      if ret ≠ 0 then ramfs_make_directory_error_exit h3 dir idata ret
      else
        let (h4, ret1) ← ramfs_directory_new_entry strhash h3 dir ['.'] idata
        if ret1 ≠ 0 then ramfs_make_directory_error_exit h4 dir idata ret1
        else
          let i ← h4.inode idata
          let h5 := h4.store idata (Obj.ino { i with i_data := dir })
          let i5 ← h5.inode idata
          some (h5, 0, i5.i_no)
    else
      let (h4, ret1) ← ramfs_directory_new_entry strhash h2 dir ['.'] idata
      if ret1 ≠ 0 then ramfs_make_directory_error_exit h4 dir idata ret1
      else
        let i ← h4.inode idata
        let h5 := h4.store idata (Obj.ino { i with i_data := dir })
        let i5 ← h5.inode idata
        some (h5, 0, i5.i_no)
  else
    let boff := basename.getD 0
    let (ret, parino) ← ramfs_lookup_inode strhash h2 sb path boff
    if ret ≠ 0 then ramfs_make_directory_error_exit h2 dir idata ret
    else
      let par_idata ← ramfs_idata_by_inode h2 sb (parino.getD 0)
      if par_idata = 0 then ramfs_make_directory_error_exit h2 dir idata ret
      else
        let pi ← h2.inode par_idata
        if ¬ S_ISDIR pi.i_mode then ramfs_make_directory_error_exit h2 dir idata ENOTDIR
        else
          let (h3, _) ← ramfs_directory_new_entry strhash h2 pi.i_data
            (skip_sep (path.drop boff)) idata
          let (h4, ret1) ← ramfs_directory_new_entry strhash h3 dir ['.'] idata
          if ret1 ≠ 0 then ramfs_make_directory_error_exit h4 dir idata ret1
          else
            let i ← h4.inode idata
            let h5 := h4.store idata (Obj.ino { i with i_data := dir })
            let i5 ← h5.inode idata
            some (h5, 0, i5.i_no)

/-- The function `ramfs_make_node`: the heap, the code and `*ino`. -/
def ramfs_make_node (h : Heap) (sb : superblock) (mode info : Nat) :
    Option (Heap × Int × Nat) := do
  let (h1, idata) ← ramfs_inode_new h sb mode
  let i ← h1.inode idata
  if S_ISCHR mode ∨ S_ISBLK mode then
    some (h1.store idata (Obj.ino
      { i with dev_maj := gnu_dev_major info, dev_min := gnu_dev_minor info }), 0, i.i_no)
  else some (h1, 0, i.i_no)

/-- The function `btree_free_leaf`, which is a stub. -/
def btree_free_leaf (_h : Heap) (_bnode _index : Nat) : Int := ETODO

/-- The function `ramfs_free_inode`. -/
def ramfs_free_inode (h : Heap) (sb : superblock) (ino : Nat) : Option (Heap × Int) := do
  let root ← h.ramfs_data sb.sb_data
  let idata ← ramfs_idata_by_inode h sb ino
  if idata = 0 then some (h, ENOENT) else
  let h1 ← ramfs_inode_free h idata
  let _ := btree_free_leaf h1 root ino
  some (h1, 0)

/-- The loop of `btree_free` over the slots of a node of level 0. -/
def btree_free_leaves : List Nat → Heap → Option Heap
  | [], h => some h
  | idata :: rest, h =>
      if idata ≠ 0 ∧ idata ≠ invalid_inode then do
        let h1 ← ramfs_inode_free h idata
        btree_free_leaves rest h1
      else btree_free_leaves rest h

/-- The loop of `btree_free` over the slots of a node of a higher level;
`call` is the recursive call. -/
def btree_free_children (call : Heap → Nat → Option Heap) : List Nat → Heap → Option Heap
  | [], h => some h
  | bchild :: rest, h =>
      if bchild ≠ 0 then do
        let h1 ← call h bchild
        btree_free_children call rest h1
      else btree_free_children call rest h

/-- The function `btree_free`; `fuel` bounds the depth of the recursion. -/
def btree_free_aux : Nat → Heap → Nat → Option Heap
  | 0, _, _ => none
  | fuel + 1, h, bnode => do
      let b ← h.node bnode
      if b.bt_level = 0 then btree_free_leaves (b.bt_children.take b.bt_fanout) h
      else btree_free_children (btree_free_aux fuel) (b.bt_children.take b.bt_fanout) h

/-- The function `btree_free`. -/
def btree_free (h : Heap) (bnode : Nat) : Option Heap :=
  btree_free_aux (h.length + 1) h bnode

/-- The function `ramfs_data_free`: the heap and the new `sb->sb_data`. -/
def ramfs_data_free (h : Heap) (sb : superblock) : Option (Heap × Nat) := do
  let root ← h.ramfs_data sb.sb_data
  let h1 ← btree_free h root
  some (h1.store sb.sb_data Obj.freed, 0)

/-- The function `ramfs_read_superblock`: the heap, the superblock and the
code. -/
def ramfs_read_superblock (strhash : List Char → Nat) (h : Heap) (sb : superblock) :
    Option (Heap × superblock × Int) := do
  let sb1 := { sb with sb_blksz := PAGE_SIZE, sb_fs := ramfs_driver_addr }
  let (h1, data) ← ramfs_data_new h
  let sb2 := { sb1 with sb_data := data }
  let (h2, ret, root_ino) ← ramfs_make_directory strhash h1 sb2 [] (S_IFDIR ||| 493)
  if ret ≠ 0 then
    let (h3, data1) ← ramfs_data_free h2 sb2
    some (h3, { sb2 with sb_data := data1 }, ret)
  else some (h2, { sb2 with sb_root_ino := root_ino }, 0)

/-! ## Directory iteration -/

/-- The members of `struct dirent` that `ramfs_get_direntry` derives from
the sources; `d_reclen` depends on `sizeof(struct dirent)`, which they do not
give. -/
structure dirent where
  d_ino : Nat
  d_namlen : Nat
  d_type : Nat
  d_name : List Char
deriving DecidableEq, Repr

/-- Modelled from the spec: `sys/dirent.h` is not among the sources; the
POSIX file type codes of a directory entry. -/
def DT_UNKNOWN : Nat := 0
/-- Modelled from the spec: the entry type of a fifo. -/
def DT_FIFO : Nat := 1
/-- Modelled from the spec: the entry type of a character device. -/
def DT_CHR : Nat := 2
/-- Modelled from the spec: the entry type of a directory. -/
def DT_DIR : Nat := 4
/-- Modelled from the spec: the entry type of a block device. -/
def DT_BLK : Nat := 6
/-- Modelled from the spec: the entry type of a regular file. -/
def DT_REG : Nat := 8
/-- Modelled from the spec: the entry type of a symbolic link. -/
def DT_LNK : Nat := 10
/-- Modelled from the spec: the entry type of a socket. -/
def DT_SOCK : Nat := 12

/-- The `switch` of `ramfs_get_direntry` on the type bits of a mode. -/
def dirent_type (mode : Nat) : Nat :=
  if mode &&& S_IFMT = S_IFREG then DT_REG
  else if mode &&& S_IFMT = S_IFDIR then DT_DIR
  else if mode &&& S_IFMT = S_IFLNK then DT_LNK
  else if mode &&& S_IFMT = S_IFCHR then DT_CHR
  else if mode &&& S_IFMT = S_IFBLK then DT_BLK
  else if mode &&& S_IFMT = S_IFSOCK then DT_SOCK
  else if mode &&& S_IFMT = S_IFIFO then DT_FIFO
  else DT_UNKNOWN

/-- The loop `while (de->de_hash != hash)`: the chain from the entry found,
`some none` for `EKERN`, `none` when `de` is `NULL` at the start. -/
def chain_seek (hash : Nat) : List ramfs_direntry → Option (Option (List ramfs_direntry))
  | [] => none
  | de :: rest =>
      if de.de_hash = hash then some (some (de :: rest))
      else match rest with
        | [] => some none
        | r :: rs => chain_seek hash (r :: rs)

/-- The loop `while (!(de = dir->ht[htindex])) ++htindex;`: the first
non-empty chain at or after `htindex` and its index; `none` when the loop
leaves the array. -/
def bucket_first : List (List ramfs_direntry) → Nat →
    Option (Nat × List ramfs_direntry)
  | [], _ => none
  | [] :: bs, i => bucket_first bs (i + 1)
  | (de :: rest) :: _, i => some (i, de :: rest)

/-- The loop `while (++htindex < dir->htcap)`: the head of the next non-empty
chain, the list being the table from `htindex` on. -/
def bucket_next (htcap : Nat) : List (List ramfs_direntry) → Nat →
    Option (Option ramfs_direntry)
  | [], i => if htcap ≤ i then some none else none
  | [] :: bs, i => if htcap ≤ i then some none else bucket_next htcap bs (i + 1)
  | (de :: _) :: _, i => if htcap ≤ i then some none else some (some de)

/-- The function `ramfs_get_direntry`: the code, `*iter` and `*dirent`. -/
def ramfs_get_direntry (h : Heap) (sb : superblock) (dirnode : Nat)
    (iter : Nat) (dir_out : dirent) : Option (Int × Nat × dirent) := do
  let dir_idata ← ramfs_idata_by_inode h sb dirnode
  if dir_idata = 0 then some (EKERN, iter, dir_out) else
  let di ← h.inode dir_idata
  if ¬ S_ISDIR di.i_mode then some (ENOTDIR, iter, dir_out) else
  let dir ← h.directory di.i_data
  let hash := iter % 4294967296
  if dir.htcap = 0 then none else
  let chain ← dir.ht.get? (hash % dir.htcap)
  let found ← (if hash ≠ 0 then
      match chain_seek hash chain with
      | none => none
      | some none => some none
      | some (some c) => some (some (hash % dir.htcap, c))
    else (bucket_first dir.ht 0).map some)
  match found with
  | none => some (EKERN, iter, dir_out)
  | some (_, []) => none
  | some (htindex, de :: rest) =>
      let idata ← ramfs_idata_by_inode h sb de.de_ino
      let ty ← (if idata = 0 then some dir_out.d_type
                else (h.inode idata).map (fun i => dirent_type i.i_mode))
      let out : dirent :=
        { d_ino := de.de_ino, d_namlen := strlen de.de_name, d_type := ty,
          d_name := strncpy de.de_name UCHAR_MAX }
      match rest with
      | nx :: _ => some (0, nx.de_hash, out)
      | [] =>
          match ← bucket_next dir.htcap (dir.ht.drop (htindex + 1)) (htindex + 1) with
          | some nx => some (0, nx.de_hash, out)
          | none => some (0, 0, out)

/-! ## The driver registry and the mount tree -/

/-- The `struct fs_ops`; an absent operation is `none`.  An operation takes
the heap and the superblock its `sb` argument points to, and returns `none`
when its behaviour is undefined. -/
structure fs_ops where
  read_superblock : Option (Heap → superblock → Option (Heap × superblock × Int))
  make_directory : Option (Heap → superblock → List Char → Nat → Option (Heap × Int × Nat))
  make_inode : Option (Heap → superblock → Nat → Nat → Option (Heap × Int × Nat))
  free_inode : Option (Heap → superblock → Nat → Option (Heap × Int))
  inode_data : Option (Heap → superblock → Nat → Option (Int × Option inode))
  read_inode : Option (Heap → superblock → Nat → Nat → Nat → Option (Int × List Char))
  write_inode : Option (Heap → superblock → Nat → Nat → List Char → Option (Heap × Int × Nat))
  get_direntry : Option (Heap → superblock → Nat → Nat → dirent → Option (Int × Nat × dirent))
  lookup_inode : Option (Heap → superblock → List Char → Nat → Option (Int × Option Nat))
  link_inode : Option (Heap → superblock → Nat → Nat → List Char → Nat → Option (Heap × Int))
  unlink_inode : Option (Heap → superblock → List Char → Nat → Option (Heap × Int))

/-- The `struct fsdriver`, with the `struct fs_ops` its `ops` points to. -/
structure fsdriver where
  name : List Char
  fs_id : Nat
  ops : fs_ops
  lst_prev : Nat
  lst_next : Nat

/-- The constant `RAMFS_ID`. -/
def RAMFS_ID : Nat := 5062994

/-- The global `ramfs_fsops`. -/
def ramfs_fsops (strhash : List Char → Nat) : fs_ops :=
  { read_superblock := some (ramfs_read_superblock strhash),
    lookup_inode := some (ramfs_lookup_inode strhash),
    make_directory := some (ramfs_make_directory strhash),
    get_direntry := some ramfs_get_direntry,
    make_inode := some ramfs_make_node,
    link_inode := some (ramfs_link_inode strhash),
    inode_data := some ramfs_inode_data,
    read_inode := none,
    write_inode := none,
    free_inode := none,
    unlink_inode := none }

/-- The global `ramfs_driver`. -/
def ramfs_driver (strhash : List Char → Nat) : fsdriver :=
  { name := ['r', 'a', 'm', 'f', 's'], fs_id := RAMFS_ID, ops := ramfs_fsops strhash,
    lst_prev := 0, lst_next := 0 }

/-- The memory of the VFS: the kernel heap, the driver records, the
superblocks and the globals `theFileSystems` and `theRootMnt`. -/
structure Vfs where
  heap : Heap
  drivers : List fsdriver
  mounts : List superblock
  theFileSystems : Nat
  theRootMnt : Nat

/-- Dereference of `p` as a `fsdriver *`. -/
def Vfs.driver (s : Vfs) (p : Nat) : Option fsdriver :=
  match p with
  | 0 => none
  | a + 1 => s.drivers.get? a

/-- Dereference of `p` as a `mountnode *`. -/
def Vfs.mount (s : Vfs) (p : Nat) : Option superblock :=
  match p with
  | 0 => none
  | a + 1 => s.mounts.get? a

/-- Store a driver record at address `p`. -/
def Vfs.set_driver (s : Vfs) (p : Nat) (d : fsdriver) : Vfs :=
  match p with
  | 0 => s
  | a + 1 => { s with drivers := s.drivers.set a d }

/-- Store a superblock at address `p`. -/
def Vfs.set_mount (s : Vfs) (p : Nat) (sb : superblock) : Vfs :=
  match p with
  | 0 => s
  | a + 1 => { s with mounts := s.mounts.set a sb }

/-- The memory at boot: `ramfs_driver` is the one driver record, nothing is
registered or mounted. -/
def vfs_boot (strhash : List Char → Nat) : Vfs :=
  { heap := heap_init, drivers := [ramfs_driver strhash], mounts := [],
    theFileSystems := 0, theRootMnt := 0 }

/-- The function `vfs_register_filesystem`. -/
def vfs_register_filesystem (s : Vfs) (fs : Nat) : Option Vfs := do
  if s.theFileSystems = 0 then
    let d ← s.driver fs
    some { (s.set_driver fs { d with lst_next := fs, lst_prev := fs }) with
           theFileSystems := fs }
  else
    let head ← s.driver s.theFileSystems
    let lastfs := head.lst_prev
    let d ← s.driver fs
    let s1 := s.set_driver fs { d with lst_next := s.theFileSystems, lst_prev := lastfs }
    let l ← s1.driver lastfs
    let s2 := s1.set_driver lastfs { l with lst_next := fs }
    let hd ← s2.driver s2.theFileSystems
    some (s2.set_driver s2.theFileSystems { hd with lst_prev := fs })

/-- The loop `do ... while ((fs = fs->lst.next) != theFileSystems)` of
`vfs_fs_by_id`; `fuel` bounds the number of iterations. -/
def vfs_fs_by_id_loop (s : Vfs) (fs_id : Nat) : Nat → Nat → Option Nat
  | 0, _ => none
  | fuel + 1, fs => do
      let d ← s.driver fs
      if d.fs_id = fs_id then some fs
      else if d.lst_next = s.theFileSystems then some 0
      else vfs_fs_by_id_loop s fs_id fuel d.lst_next

/-- The function `vfs_fs_by_id`.  A list that closes on its head is walked
in at most as many steps as there are driver records. -/
def vfs_fs_by_id (s : Vfs) (fs_id : Nat) : Option Nat :=
  if s.theFileSystems = 0 then some 0
  else vfs_fs_by_id_loop s fs_id (s.drivers.length + 1) s.theFileSystems

/-- The loop `while (child_mnt)` of `vfs_match_mountpath`; `path` is the
buffer from the current position on.  The result is `*match_mnt` and the
number of bytes `nextpath` is ahead of `path`, if `nextpath` is not null. -/
def vfs_match_mountpath_loop (s : Vfs) (parent_mnt : Nat) (path : List Char) :
    Nat → Nat → Option (Nat × Option Nat)
  | 0, _ => none
  | fuel + 1, child_mnt =>
      if child_mnt = 0 then some (parent_mnt, none)
      else do
        let c ← s.mount child_mnt
        let mountpath_len := strlen c.sb_mntpath
        if strncmp path c.sb_mntpath mountpath_len = 0 then
          if cget path mountpath_len = NUL then some (parent_mnt, none)
          else
            some (child_mnt, some (mountpath_len +
              ((path.drop mountpath_len).length - (skip_sep (path.drop mountpath_len)).length)))
        else vfs_match_mountpath_loop s parent_mnt path fuel c.sb_brother

/-- The function `vfs_match_mountpath`. -/
def vfs_match_mountpath (s : Vfs) (parent_mnt : Nat) (path : List Char) :
    Option (Nat × Option Nat) := do
  let p ← s.mount parent_mnt
  vfs_match_mountpath_loop s parent_mnt path (s.mounts.length + 1) p.sb_children

/-- The loop `while (true)` of `vfs_mountnode_by_path`; `off` is the offset
of `path` in the buffer `buf`. -/
def vfs_mountnode_by_path_loop (s : Vfs) (buf : List Char) :
    Nat → Nat → Nat → Option (Nat × Nat)
  | 0, _, _ => none
  | fuel + 1, mnt, off => do
      let (chld, nextpath) ← vfs_match_mountpath s mnt (buf.drop off)
      match nextpath with
      | none => some (mnt, off)
      | some d => vfs_mountnode_by_path_loop s buf fuel chld (off + d)

/-- The function `vfs_mountnode_by_path`: the code, and on success
`*mntnode` and the offset of `*relpath` in `path`.  A null `path` is `none`. -/
def vfs_mountnode_by_path (s : Vfs) (path : Option (List Char)) :
    Option (Int × Option (Nat × Nat)) :=
  if s.theRootMnt = 0 then some (EBADF, none) else
  match path with
  | none => some (EINVAL, none)
  | some buf =>
      if cget buf 0 = NUL then some (EINVAL, none)
      else if cget buf 0 ≠ FS_SEP then some (EINVAL, none)
      else
        (vfs_mountnode_by_path_loop s buf (buf.length + s.mounts.length + 1)
          s.theRootMnt 1).map (fun r => (0, some r))

/-- The loop `while (last_sep[-1] == FS_SEP) --last_sep;` of
`vfs_path_dirname_len`; `last_sep` is an offset in the buffer `buf`, and a
read before the buffer has no defined result. -/
def dirname_back (buf : List Char) : Nat → Option Nat
  | 0 => none
  | last_sep + 1 =>
      if cget buf last_sep = FS_SEP then dirname_back buf last_sep
      else some (last_sep + 1)

/-- The function `vfs_path_dirname_len` for the path at offset `off` of the
buffer `buf`. -/
def vfs_path_dirname_len (buf : List Char) (off : Nat) : Option Int :=
  match strrchr (buf.drop off) FS_SEP with
  | none => some 0
  | some k => (dirname_back buf (off + k)).map (fun l => (l : Int) - (off : Int))

/-! ## VFS operations -/

/-- The superblock `vfs_mount` allocates and passes to `read_superblock`;
the members it does not set are zero. -/
def vfs_mount_sb (source fs : Nat) : superblock :=
  { sb_dev := source, sb_fs := fs, sb_blksz := 0, sb_root_ino := 0, sb_data := 0,
    sb_mntpath := [], sb_mntpath_hash := 0, sb_brother := 0, sb_parent := 0,
    sb_children := 0 }

/-- The function `vfs_mount`; `fs_id` is `opts->fs_id`. -/
def vfs_mount (s : Vfs) (source : Nat) (target : List Char) (fs_id : Nat) :
    Option (Vfs × Int) := do
  if s.theRootMnt = 0 then
    if cget target 0 ≠ FS_SEP ∨ cget target 1 ≠ NUL then some (s, -1) else
    let fs ← vfs_fs_by_id s fs_id
    if fs = 0 then some (s, -2) else
    let d ← s.driver fs
    let read_superblock ← d.ops.read_superblock
    let (h1, sb1, ret) ← read_superblock s.heap (vfs_mount_sb source fs)
    if ret ≠ 0 then
      some ({ s with heap := h1, mounts := s.mounts ++ [sb1] }, -4)
    else
      some ({ s with heap := h1, mounts := s.mounts ++ [sb1],
                     theRootMnt := s.mounts.length + 1 }, 0)
  else some (s, ETODO)

/-- The function `vfs_mkdir`. -/
def vfs_mkdir (s : Vfs) (path : Option (List Char)) (mode : Nat) : Option (Vfs × Int) := do
  let mode1 := (mode ^^^ (mode &&& S_IFMT)) ||| S_IFDIR
  let (ret, r) ← vfs_mountnode_by_path s path
  if ret ≠ 0 then some (s, ENOENT) else
  let (sbp, off) ← r
  let buf ← path
  let sb ← s.mount sbp
  let d ← s.driver sb.sb_fs
  match d.ops.make_directory with
  | none => some (s, EBADF)
  | some make_directory =>
      let (h1, ret1, _) ← make_directory s.heap sb (buf.drop off) mode1
      some ({ s with heap := h1 }, ret1)

/-- The function `vfs_inode_get`: the code and the record written to
`idata`, if one was written. -/
def vfs_inode_get (s : Vfs) (sbp ino : Nat) : Option (Int × Option inode) := do
  let sb ← s.mount sbp
  let d ← s.driver sb.sb_fs
  match d.ops.inode_data with
  | none => some (ENOSYS, none)
  | some inode_data =>
      let (ret, i) ← inode_data s.heap sb ino
      if ret ≠ 0 then some (ret, none) else some (0, i)

/-- The conversion of an `int` to a `size_t`. -/
def ofInt (i : Int) : Nat := (i % 4294967296).toNat

/-- The end of `vfs_mknod`, from the comment `insert the inode` on: the
inode `ino` is linked into the directory `dirino` under the name at
`fspath + dirnamelen`. -/
def vfs_mknod_insert (s : Vfs) (d : fsdriver) (sb : superblock) (buf : List Char)
    (off : Nat) (dirnamelen : Int) (dirino ino : Nat)
    (link_inode : Heap → superblock → Nat → Nat → List Char → Nat → Option (Heap × Int)) :
    Option (Vfs × Int) :=
  if (off : Int) + dirnamelen < 0 then none else
  match link_inode s.heap sb ino dirino
      (skip_sep (buf.drop ((off : Int) + dirnamelen).toNat)) SIZE_MAX with
  | none => none
  | some (h2, ret3) =>
      if ret3 ≠ 0 then
        match d.ops.free_inode with
        | some free_inode =>
            match free_inode h2 sb ino with
            | none => none
            | some (h3, _) => some ({ s with heap := h3 }, ret3)
        | none => some ({ s with heap := h2 }, ret3)
      else some ({ s with heap := h2 }, 0)

/-- The middle of `vfs_mknod`, from the comment `get dirino` on. -/
def vfs_mknod_create (strhash : List Char → Nat) (s : Vfs) (d : fsdriver)
    (sbp : Nat) (sb : superblock) (buf : List Char) (off mode dev : Nat)
    (make_inode : Heap → superblock → Nat → Nat → Option (Heap × Int × Nat))
    (link_inode : Heap → superblock → Nat → Nat → List Char → Nat → Option (Heap × Int)) :
    Option (Vfs × Int) := do
  let dirnamelen ← vfs_path_dirname_len buf off
  let (ret1, dirino) ← ramfs_lookup_inode strhash s.heap sb (buf.drop off) (ofInt dirnamelen)
  if ret1 ≠ 0 then some (s, ret1) else
  let (_, idata) ← vfs_inode_get s sbp (dirino.getD 0)
  let i ← idata
  if ¬ S_ISDIR i.i_mode then some (s, ENOTDIR) else
  let (h1, ret2, ino) ← make_inode s.heap sb mode
    (if S_ISCHR mode ∨ S_ISBLK mode then wrap dev else 0)
  if ret2 ≠ 0 then some ({ s with heap := h1 }, ret2) else
  vfs_mknod_insert { s with heap := h1 } d sb buf off dirnamelen (dirino.getD 0) ino link_inode

/-- The function `vfs_mknod`.  The local `idata` is not initialised, so a
failed `vfs_inode_get` leaves the test of its mode without a defined
result. -/
def vfs_mknod (strhash : List Char → Nat) (s : Vfs) (path : Option (List Char))
    (mode dev : Nat) : Option (Vfs × Int) := do
  if S_ISDIR mode then some (s, EINVAL) else
  if S_ISLNK mode then some (s, EINVAL) else
  let (ret, r) ← vfs_mountnode_by_path s path
  if ret ≠ 0 then some (s, ret) else
  let (sbp, off) ← r
  let buf ← path
  let sb ← s.mount sbp
  let d ← s.driver sb.sb_fs
  match d.ops.make_inode with
  | none => some (s, ENOSYS)
  | some make_inode =>
      match d.ops.link_inode with
      | none => some (s, ENOSYS)
      | some link_inode =>
          vfs_mknod_create strhash s d sbp sb buf off
            (if S_IFMT &&& mode = 0 then mode ||| S_IFREG else mode) dev make_inode link_inode

/-- The function `vfs_inode_read`: the code and the bytes read; `buf` is
`none` for a null buffer. -/
def vfs_inode_read (s : Vfs) (sbp ino pos : Nat) (buf : Option Unit) (buflen : Nat) :
    Option (Int × List Char) := do
  if buf = none then some (EINVAL, []) else
  let sb ← s.mount sbp
  let d ← s.driver sb.sb_fs
  match d.ops.inode_data, d.ops.read_inode with
  | none, _ => some (ENOSYS, [])
  | some _, none => some (ENOSYS, [])
  | some inode_data, some read_inode =>
      let (ret, idata) ← inode_data s.heap sb ino
      if ret ≠ 0 then some (ret, []) else
      let i ← idata
      if S_ISDIR i.i_mode then some (EISDIR, []) else
      if i.i_size ≤ pos then some (0, [])
      else read_inode s.heap sb ino pos buflen

/-- The function `vfs_inode_write`: the memory, the code and `*written`;
`buf` is `none` for a null buffer. -/
def vfs_inode_write (s : Vfs) (sbp ino pos : Nat) (buf : Option (List Char)) :
    Option (Vfs × Int × Nat) := do
  match buf with
  | none => some (s, EINVAL, 0)
  | some bytes =>
      let sb ← s.mount sbp
      let d ← s.driver sb.sb_fs
      match d.ops.inode_data, d.ops.write_inode with
      | none, _ => some (s, ENOSYS, 0)
      | some _, none => some (s, ENOSYS, 0)
      | some inode_data, some write_inode =>
          let (ret, idata) ← inode_data s.heap sb ino
          if ret ≠ 0 then some (s, ret, 0) else
          let i ← idata
          if S_ISDIR i.i_mode then some (s, EISDIR, 0) else
          let (h1, ret1, written) ← write_inode s.heap sb ino pos bytes
          some ({ s with heap := h1 }, ret1, written)

/-- The members of `struct stat` that `vfs_inode_stat` sets to a value other
than zero. -/
structure stat where
  st_dev : Nat
  st_ino : Nat
  st_mode : Nat
  st_nlink : Nat
  st_rdev : Nat
  st_size : Nat
deriving DecidableEq, Repr

/-- The function `vfs_inode_stat`: the code and `*stat`, if it was written. -/
def vfs_inode_stat (s : Vfs) (sbp ino : Nat) : Option (Int × Option stat) := do
  let sb ← s.mount sbp
  let d ← s.driver sb.sb_fs
  match d.ops.inode_data with
  | none => some (ENOSYS, none)
  | some inode_data =>
      let (ret, idata) ← inode_data s.heap sb ino
      if ret ≠ 0 then some (ret, none) else
      let i ← idata
      some (0, some
        { st_dev := sb.sb_dev, st_ino := ino, st_mode := i.i_mode, st_nlink := i.i_nlinks,
          st_rdev := if S_ISCHR i.i_mode ∨ S_ISBLK i.i_mode
                     then gnu_dev_makedev i.dev_maj i.dev_min else 0,
          st_size := i.i_size })

/-- The function `vfs_stat`: the code and `*stat`, if it was written. -/
def vfs_stat (s : Vfs) (path : Option (List Char)) : Option (Int × Option stat) := do
  let (ret, r) ← vfs_mountnode_by_path s path
  if ret ≠ 0 then some (ret, none) else
  let (sbp, off) ← r
  let buf ← path
  let sb ← s.mount sbp
  let d ← s.driver sb.sb_fs
  match d.ops.lookup_inode with
  | none => some (ENOSYS, none)
  | some lookup_inode =>
      let (ret1, ino) ← lookup_inode s.heap sb (buf.drop off) SIZE_MAX
      if ret1 ≠ 0 then some (ret1, none)
      else vfs_inode_stat s sbp (ino.getD 0)

/-- The function `vfs_setup`: `ramfs_driver` is registered and mounted on
`/`; the device is `gnu_dev_makedev(CHR_VIRT, CHR0_UNSPECIFIED)`, whose
numbers are parameters. -/
def vfs_setup (strhash : List Char → Nat) (chr_virt chr0 : Nat) : Option (Vfs × Int) := do
  let s ← vfs_register_filesystem (vfs_boot strhash) ramfs_driver_addr
  vfs_mount s (gnu_dev_makedev chr_virt chr0) ['/'] RAMFS_ID

/-- The heap `h1` grows out of `h`: no cell is lost, a cell that is not a
B-tree node is unchanged, and a B-tree node keeps its level, its fanout and
every child slot that is not `NULL`. -/
def Heap.grows (h h1 : Heap) : Prop :=
  h.length ≤ h1.length ∧
  (∀ p o, h.cell p = some o → (∀ b, o ≠ Obj.bnode b) → h1.cell p = some o) ∧
  (∀ p b, h.node p = some b → ∃ b1, h1.node p = some b1 ∧ b1.bt_level = b.bt_level ∧
      b1.bt_fanout = b.bt_fanout ∧ b1.bt_children.length = b.bt_children.length ∧
      ∀ (k c : Nat), b.bt_children[k]? = some c → c ≠ 0 → b1.bt_children[k]? = some c)

/-! ## Worked examples -/

/-- A sample hash function for the worked examples: Bernstein's hash. -/
def djb2 (s : List Char) : Nat :=
  s.foldl (fun a c => (a * 33 + c.toNat) % 4294967296) 5381

/-- A sample hash function that maps every name to 0. -/
def hash_zero (_s : List Char) : Nat := 0

/-- The root superblock of a memory. -/
def Vfs.root (s : Vfs) : Option superblock := s.mount s.theRootMnt

/-- The memory after `vfs_setup`, with the hash function `strhash`. -/
def vfs_ready (strhash : List Char → Nat) : Option Vfs :=
  (vfs_setup strhash 0 0).map (fun r => r.1)

/-- A sequence of `vfs_mkdir` calls with mode 0755: the memory and the codes
returned, latest first. -/
def mkdir_all : List (List Char) → Vfs → List Int → Option (Vfs × List Int)
  | [], s, acc => some (s, acc)
  | p :: ps, s, acc =>
      match vfs_mkdir s (some p) 493 with
      | none => none
      | some (s1, ret) => mkdir_all ps s1 (ret :: acc)

/-- The result of `ramfs_lookup_inode` on the root superblock of a memory. -/
def lookup_root (strhash : List Char → Nat) (s : Vfs) (path : List Char) (pathlen : Nat) :
    Option (Int × Option Nat) :=
  match s.root with
  | none => none
  | some sb => ramfs_lookup_inode strhash s.heap sb path pathlen

/-- The memory after `vfs_setup`, `vfs_mkdir("/a", 0755)` and
`vfs_mkdir("/a/b", 0755)`. -/
def vfs_ab : Option Vfs :=
  match vfs_ready djb2 with
  | none => none
  | some s => (mkdir_all ["/a".toList, "/a/b".toList] s []).map (fun r => r.1)

/-- A superblock whose members are all zero. -/
def superblock_zero : superblock :=
  { sb_dev := 0, sb_fs := 0, sb_blksz := 0, sb_root_ino := 0, sb_data := 0,
    sb_mntpath := [], sb_mntpath_hash := 0, sb_brother := 0, sb_parent := 0,
    sb_children := 0 }

/-- The heap of `vfs_ab`. -/
def heap_ab : Heap := (vfs_ab.map (fun s => s.heap)).getD []

/-- The root superblock of `vfs_ab`. -/
def sb_ab : superblock := (vfs_ab.bind (fun s => s.root)).getD superblock_zero

/-- A fresh directory table. -/
def dir_fresh : ramfs_directory := { size := 0, htcap := 8, ht := List.replicate 8 [] }

/-- The memory after `vfs_register_filesystem(&ramfs_driver)`. -/
def vfs_registered : Vfs :=
  (vfs_register_filesystem (vfs_boot djb2) ramfs_driver_addr).getD (vfs_boot djb2)

/-- The memory after `vfs_setup` and `vfs_mkdir("/a", 0755)`. -/
def vfs_a : Vfs :=
  ((vfs_ready djb2).bind (fun s => (mkdir_all ["/a".toList] s []).map (fun r => r.1))).getD
    (vfs_boot djb2)

/-- The tree of fanout `fanout` after `n` inserts into the seeded tree: the
heap, the root and, latest first, each record with its index. -/
def btree_filled (fanout n : Nat) : Option (Heap × Nat × List (Nat × Nat)) :=
  (btree_seed fanout).bind (fun x => btree_insert_many n x.1 x.2 [])

/-- The lookups of the indices returned for the records of `btree_filled`,
each with the record it should find. -/
def btree_lookups (fanout n : Nat) : Option (List (Nat × Option Nat)) :=
  (btree_filled fanout n).map
    (fun x => x.2.2.map (fun e => (e.1, btree_get_index x.1 x.2.1 e.2)))

/-- The walk of `print_ls` over a directory: `ramfs_get_direntry` is called
with `*iter` zero at first and then until it leaves `*iter` zero; the
entries are listed in the order of the calls, and `fuel` bounds their
number. -/
def direntry_walk (h : Heap) (sb : superblock) (dirnode : Nat) :
    Nat → Nat → List dirent → Option (List dirent)
  | 0, _, _ => none
  | fuel + 1, iter, acc =>
      match ramfs_get_direntry h sb dirnode iter ⟨0, 0, 0, []⟩ with
      | none => none
      | some (ret, iter1, de) =>
          if ret ≠ 0 then none
          else if iter1 = 0 then some (acc ++ [de])
          else direntry_walk h sb dirnode fuel iter1 (acc ++ [de])

/-- A sequence of VFS calls from the memory after `vfs_setup`: the memory
and the codes returned, latest first. -/
def vfs_run_from : List (Vfs → Option (Vfs × Int)) → Vfs → List Int → Option (Vfs × List Int)
  | [], s, acc => some (s, acc)
  | op :: ops, s, acc =>
      match op s with
      | none => none
      | some (s1, ret) => vfs_run_from ops s1 (ret :: acc)

/-- A sequence of VFS calls after `vfs_setup` with the hash function
`strhash`. -/
def vfs_run (strhash : List Char → Nat) (ops : List (Vfs → Option (Vfs × Int))) :
    Option (Vfs × List Int) :=
  (vfs_ready strhash).bind (fun s => vfs_run_from ops s [])

/-- The result of `vfs_stat` after a sequence of calls. -/
def stat_after (r : Option (Vfs × List Int)) (path : List Char) : Option (Int × Option stat) :=
  r.bind (fun x => vfs_stat x.1 (some path))

/-- The result of `ramfs_lookup_inode` on the root superblock after a
sequence of calls. -/
def lookup_after (strhash : List Char → Nat) (r : Option (Vfs × List Int)) (path : List Char) :
    Option (Int × Option Nat) :=
  r.bind (fun x => lookup_root strhash x.1 path SIZE_MAX)

/-- The names and inode numbers a directory walk lists after a sequence of
calls. -/
def walk_after (r : Option (Vfs × List Int)) (dirnode : Nat) : Option (List (List Char × Nat)) :=
  r.bind (fun x => x.1.root.bind (fun sb =>
    (direntry_walk x.1.heap sb dirnode 16 0 []).map (fun l => l.map (fun d => (d.d_name, d.d_ino)))))

/-- The number of directory entries, over all directory tables of a heap,
whose `de_ino` is `ino`. -/
def count_links (h : Heap) (ino : Nat) : Nat :=
  (h.map (fun o => match o with
    | Obj.dir d => (d.ht.map (fun chain => (chain.filter (fun de => de.de_ino = ino)).length)).sum
    | _ => 0)).sum

/-- The calls `vfs_mkdir("/dev", 0755)` and
`vfs_mknod("/dev/tty0", S_IFCHR | 0600, makedev(4, 0))` after `vfs_setup`. -/
def run_tty (strhash : List Char → Nat) : Option (Vfs × List Int) :=
  vfs_run strhash [fun s => vfs_mkdir s (some "/dev".toList) 493,
    fun s => vfs_mknod strhash s (some "/dev/tty0".toList) (S_IFCHR ||| 384) (gnu_dev_makedev 4 0)]

/-- The calls `vfs_mkdir("/x", 0755)`, twice, after `vfs_setup`. -/
def run_mkdir_twice : Option (Vfs × List Int) :=
  vfs_run djb2 [fun s => vfs_mkdir s (some "/x".toList) 493,
    fun s => vfs_mkdir s (some "/x".toList) 493]

/-- The calls `vfs_mknod("/x", S_IFCHR | 0600, 7)` and `vfs_mkdir("/x", 0755)`
after `vfs_setup`. -/
def run_mknod_mkdir : Option (Vfs × List Int) :=
  vfs_run djb2 [fun s => vfs_mknod djb2 s (some "/x".toList) (S_IFCHR ||| 384) 7,
    fun s => vfs_mkdir s (some "/x".toList) 493]

/-- The calls `vfs_mknod("/tty0x", 0, 0)` and
`vfs_mknod("/tty0", S_IFCHR | 0600, makedev(4, 0))` after `vfs_setup`, with a
hash function under which the two names collide. -/
def run_collide : Option (Vfs × List Int) :=
  vfs_run hash_zero [fun s => vfs_mknod hash_zero s (some "/tty0x".toList) 0 0,
    fun s => vfs_mknod hash_zero s (some "/tty0".toList) (S_IFCHR ||| 384) (gnu_dev_makedev 4 0)]

/-- The calls `vfs_mkdir("/a", 0755)` and `vfs_mkdir("/a/b", 0755)` after
`vfs_setup`. -/
def run_ab : Option (Vfs × List Int) :=
  vfs_run djb2 [fun s => vfs_mkdir s (some "/a".toList) 493,
    fun s => vfs_mkdir s (some "/a/b".toList) 493]

/-- The call `vfs_mknod("/f", 0, 0)` after `vfs_setup`. -/
def run_mknod : Option (Vfs × List Int) :=
  vfs_run djb2 [fun s => vfs_mknod djb2 s (some "/f".toList) 0 0]

/-- A directory table with one entry, made by `ramfs_directory_new_entry`
with the hash function `strhash` for an inode whose number is 5. -/
def dir_single (strhash : List Char → Nat) (name : List Char) : Option ramfs_directory :=
  let (h, idata) := kmalloc heap_init (Obj.ino { inode_zero with i_no := 5 })
  let (h1, dir) := ramfs_directory_new h
  (ramfs_directory_new_entry strhash h1 dir name idata).bind (fun r => r.1.directory dir)

/-- The buffer `foo\0bar`. -/
def foo_nul_bar : List Char := "foo".toList ++ [NUL] ++ "bar".toList

/-- Repeated `ramfs_make_node` with mode `S_IFREG`. -/
def make_nodes : Nat → Heap → superblock → Option Heap
  | 0, h, _ => some h
  | n + 1, h, sb =>
      match ramfs_make_node h sb S_IFREG 0 with
      | none => none
      | some (h1, _, _) => make_nodes n h1 sb

/-- After `vfs_setup`: 63 calls of `ramfs_make_node`, then
`ramfs_make_directory` on `x` and on `x/y`; the code and `*ino` of each of the
two. -/
def run_mkdir_grown : Option ((Int × Nat) × (Int × Nat)) :=
  (vfs_ready djb2).bind (fun s => s.root.bind (fun sb =>
    (make_nodes 63 s.heap sb).bind (fun h1 =>
      (ramfs_make_directory djb2 h1 sb "x".toList 493).bind (fun r1 =>
        (ramfs_make_directory djb2 r1.1 sb "x/y".toList 493).map (fun r2 =>
          ((r1.2.1, r1.2.2), (r2.2.1, r2.2.2)))))))

/-- The nodes above the leaf of `btree_path`: the node of level `k + 1` is at
address `4 + k` and has the node below it in slot 0. -/
def btree_path_nodes : Nat → List Obj
  | 0 => []
  | k + 1 => btree_path_nodes k ++
      [Obj.bnode { bt_level := k + 1, bt_fanout := 2, bt_used := 1, bt_children := [3 + k, 0] }]

/-- A tree of fanout 2 and level `lvl` with one full leaf: the sentinel is at
index 0 and the record at address 2 at index 1; the root is at address
`3 + lvl`. -/
def btree_path (lvl : Nat) : Heap :=
  [Obj.ino inode_zero, Obj.ino inode_zero,
   Obj.bnode { bt_level := 0, bt_fanout := 2, bt_used := 2, bt_children := [1, 2] }]
  ++ btree_path_nodes lvl

/-- The lookup of index 1 in `btree_path 30` before and after a call of
`btree_new_leaf` with a fresh record. -/
def btree_path_lookups : Option Nat × Option (Option Nat) :=
  (btree_get_index (btree_path 30) 33 1,
   (btree_new_leaf (kmalloc (btree_path 30) (Obj.ino inode_zero)).1 33
      (kmalloc (btree_path 30) (Obj.ino inode_zero)).2).map
     (fun r => btree_get_index r.1 r.2.1 1))

/-- The index returned by the first and by the last of `n` inserts into the
seeded tree of fanout 64. -/
def btree_first_last (n : Nat) : Option (Option Nat × Option Nat) :=
  (btree_filled 64 n).map (fun x => (x.2.2.getLast?.map Prod.snd, x.2.2.head?.map Prod.snd))

/-- A driver whose one operation is a `read_superblock` that returns 0. -/
def bare_driver : fsdriver :=
  { name := "bare".toList, fs_id := 7,
    ops := { read_superblock := some (fun h sb => some (h, sb, 0)), make_directory := none,
             make_inode := none, free_inode := none, inode_data := none, read_inode := none,
             write_inode := none, get_direntry := none, lookup_inode := none,
             link_inode := none, unlink_inode := none },
    lst_prev := 0, lst_next := 0 }

/-- The memory after the registration of `bare_driver` and its mount on `/`. -/
def vfs_bare : Option Vfs :=
  (vfs_register_filesystem
    { heap := heap_init, drivers := [bare_driver], mounts := [], theFileSystems := 0,
      theRootMnt := 0 } 1).bind (fun s => (vfs_mount s 0 ['/'] 7).map (fun r => r.1))

/-- The calls `vfs_mkdir("/a", 0755)`, `vfs_mkdir("/a/n/", 0755)` and
`vfs_mkdir("/a/", 0755)` after `vfs_setup`. -/
def run_trailing : Option (Vfs × List Int) :=
  vfs_run djb2 [fun s => vfs_mkdir s (some "/a".toList) 493,
    fun s => vfs_mkdir s (some "/a/n/".toList) 493,
    fun s => vfs_mkdir s (some "/a/".toList) 493]

/-- The indices returned by `n` inserts into the seeded tree of fanout
`fanout`, latest first, the level of the root after them and the lookup of
`index`. -/
def btree_indices (fanout n index : Nat) : Option (List Nat × Option Nat × Option Nat) :=
  (btree_filled fanout n).map (fun x =>
    (x.2.2.map Prod.snd, (x.1.node x.2.1).map (fun b => b.bt_level),
     btree_get_index x.1 x.2.1 index))

/-- After `vfs_setup`: `ramfs_make_node`, then `ramfs_free_inode` of the new
inode.  The inode number, the code of `ramfs_free_inode`, the results of
`ramfs_idata_by_inode` before and after it, the heap cell of the inode after
it and the result of `ramfs_inode_data` after it. -/
def run_free_inode :
    Option (Nat × Int × Option Nat × Option Nat × Option Obj × Option (Int × Option inode)) :=
  (vfs_ready djb2).bind (fun s => s.root.bind (fun sb =>
    (ramfs_make_node s.heap sb S_IFREG 0).bind (fun r =>
      (ramfs_free_inode r.1 sb r.2.2).map (fun f =>
        (r.2.2, f.2, ramfs_idata_by_inode r.1 sb r.2.2, ramfs_idata_by_inode f.1 sb r.2.2,
         (ramfs_idata_by_inode f.1 sb r.2.2).bind (fun p => f.1.cell p),
         ramfs_inode_data f.1 sb r.2.2)))))

/-- The child-slot subscripts `btree_get_index` computes for an index that
is below `btsize`, when no child it meets is `NULL`. -/
def btree_subscripts (fanout : Nat) : Nat → Nat → Nat → List Nat
  | 0, _, index => [index]
  | lvl + 1, btsize, index =>
      (index / (btsize / fanout)) ::
        btree_subscripts fanout lvl (btsize / fanout) (index % (btsize / fanout))

/-- An empty tree of fanout 3 and level 20: its root, at address 1. -/
def heap_level20 : Heap :=
  [Obj.bnode { bt_level := 20, bt_fanout := 3, bt_used := 0, bt_children := [0, 0, 0] }]

/-- After `vfs_setup`: `ramfs_make_directory` on `d` with the mode
`S_IFCHR | 0755`.  The code, the inode number and the mode of the new inode. -/
def run_mkdir_chr : Option (Int × Nat × Option Nat) :=
  (vfs_ready djb2).bind (fun s => s.root.bind (fun sb =>
    (ramfs_make_directory djb2 s.heap sb "d".toList (S_IFCHR ||| 493)).bind (fun r =>
      (ramfs_inode_data r.1 sb r.2.2).map (fun i =>
        (r.2.1, r.2.2, i.2.map (fun x => x.i_mode))))))

/-- The table `dir_single` makes for the name `ab` with the hash `djb2`. -/
def dir_ab : ramfs_directory := (dir_single djb2 "ab".toList).getD dir_fresh

/-- The calls `vfs_register_filesystem(fs)` for the records `fss`, in order. -/
def vfs_register_all : List Nat → Vfs → Option Vfs
  | [], s => some s
  | fs :: rest, s => (vfs_register_filesystem s fs).bind (vfs_register_all rest)

/-- The position after `i` on a ring of `n` positions. -/
def ring_next (n i : Nat) : Nat := if i + 1 = n then 0 else i + 1

/-- The position before `i` on a ring of `n` positions. -/
def ring_prev (n i : Nat) : Nat := if i = 0 then n - 1 else i - 1

/-- The first record of `fss` whose `fs_id` is `fs_id`, or `NULL`. -/
def earliest_with_id (s : Vfs) (fss : List Nat) (fs_id : Nat) : Nat :=
  (fss.find? (fun a => decide ((s.driver a).map (fun d => d.fs_id) = some fs_id))).getD 0

/-- The registry of `s` is the ring of the records `l`, in this order from
the head on, and the memory is otherwise that of `s0`. -/
def registry_ring (s0 s : Vfs) (l : List Nat) : Prop :=
  s.drivers.length = s0.drivers.length ∧ s.theFileSystems = l.headD 0 ∧
  (∀ a, a ∉ l → s.driver a = s0.driver a) ∧
  (∀ i, i < l.length → ∃ d0, s0.driver (l.getD i 0) = some d0 ∧
    s.driver (l.getD i 0) = some { d0 with lst_next := l.getD (ring_next l.length i) 0,
                                           lst_prev := l.getD (ring_prev l.length i) 0 })

/-- A memory with three driver records and an empty registry: `bare_driver`
at address 1, `ramfs_driver` at 2 and a second record with the identifier of
`bare_driver` at 3. -/
def vfs_three : Vfs :=
  { heap := heap_init, drivers := [bare_driver, ramfs_driver djb2, bare_driver], mounts := [],
    theFileSystems := 0, theRootMnt := 0 }

/-- After `vfs_setup`: `ramfs_make_directory` on `nodir/x`, whose parent does
not exist, then `ramfs_make_node`.  The code and `*ino` of the first call,
`btree_get_index` of the index 2 before and after it, the heap cell that
index points to after it, and the inode number `ramfs_make_node` gets. -/
def run_mkdir_fail :
    Option ((Int × Nat) × (Option Nat × Option Nat) × Option Obj × Nat) :=
  (vfs_ready djb2).bind (fun s => s.root.bind (fun sb =>
    (ramfs_make_directory djb2 s.heap sb "nodir/x".toList 493).bind (fun r =>
      (ramfs_make_node r.1 sb S_IFREG 0).map (fun m =>
        ((r.2.1, r.2.2),
         (ramfs_idata_by_inode s.heap sb 2, ramfs_idata_by_inode r.1 sb 2),
         (ramfs_idata_by_inode r.1 sb 2).bind (fun p => r.1.cell p),
         m.2.2)))))

/-- Well-formedness of a directory table: the capacity is 8, there are
eight chains, `size` is the number of entries of all chains, every entry of
chain `i` has `de_hash % htcap = i`, and no chain holds two entries with the
same hash and the same name. -/
def dir_wf (d : ramfs_directory) : Prop :=
  d.htcap = 8 ∧ d.ht.length = 8 ∧
  d.size = (d.ht.map List.length).sum ∧
  (∀ (i : Nat) (chain : List ramfs_direntry), d.ht[i]? = some chain →
    ∀ b ∈ chain, b.de_hash % d.htcap = i) ∧
  (∀ chain ∈ d.ht,
    chain.Pairwise (fun a b => ¬ (a.de_hash = b.de_hash ∧ a.de_name = b.de_name)))

/-- The memories reachable from the memory at boot through
`vfs_register_filesystem` and `vfs_mount` calls that return. -/
inductive vfs_reachable (strhash : List Char → Nat) : Vfs → Prop where
  | boot : vfs_reachable strhash (vfs_boot strhash)
  | register (s s1 : Vfs) (fs : Nat) : vfs_reachable strhash s →
      vfs_register_filesystem s fs = some s1 → vfs_reachable strhash s1
  | mount (s s1 : Vfs) (source : Nat) (target : List Char) (fs_id : Nat) (ret : Int) :
      vfs_reachable strhash s → vfs_mount s source target fs_id = some (s1, ret) →
      vfs_reachable strhash s1

/-- The invariant of the reachable memories: every driver record has the
`read_superblock` of ramfs, and the root superblock, when there is one, has
no parent, no brother and no children. -/
def mount_inv (strhash : List Char → Nat) (s : Vfs) : Prop :=
  (∀ p d, s.driver p = some d →
    d.ops.read_superblock = some (ramfs_read_superblock strhash)) ∧
  (s.theRootMnt ≠ 0 → ∃ sb, s.mount s.theRootMnt = some sb ∧
    sb.sb_parent = 0 ∧ sb.sb_brother = 0 ∧ sb.sb_children = 0)

/-- The heap after `vfs_setup` and `vfs_mkdir("/a", 0755)`. -/
def heap_a : Heap := vfs_a.heap

/-- The root superblock after `vfs_setup` and `vfs_mkdir("/a", 0755)`. -/
def sb_a : superblock := vfs_a.root.getD superblock_zero

/-- The inode record of the root directory in `heap_a`, at address 4. -/
def root_inode_a : inode := (heap_a.inode 4).getD inode_zero

/-- The table of the root directory in `heap_a`, at address 5. -/
def root_dir_a : ramfs_directory := (heap_a.directory 5).getD dir_fresh

/-- The heap after `ramfs_data_new` on the heap at boot. -/
def heap_seeded : Heap :=
  [Obj.ino inode_zero, Obj.rdata 3,
   Obj.bnode { bt_level := 0, bt_fanout := 64, bt_used := 1,
               bt_children := 1 :: List.replicate 63 0 }]

/-- The heap during `ramfs_make_directory` for the root directory of the
first mount: the root inode, at address 4, has `nlinks` links and the payload
`i_data`, and `cells` are the cells after it. -/
def heap_mounting (nlinks i_data : Nat) (cells : List Obj) : Heap :=
  [Obj.ino inode_zero, Obj.rdata 3,
   Obj.bnode { bt_level := 0, bt_fanout := 64, bt_used := 2,
               bt_children := 1 :: 4 :: List.replicate 62 0 },
   Obj.ino { inode_zero with i_no := 1, i_mode := S_IFDIR ||| 493, i_nlinks := nlinks,
                             i_data := i_data }] ++ cells

/-- The heap after `ramfs_read_superblock` on the heap at boot, as a function
of the table `d` of the root directory. -/
def heap_root (d : ramfs_directory) : Heap := heap_mounting 2 5 [Obj.dir d]

/-- The superblock `ramfs_read_superblock` passes to `ramfs_make_directory`
at the first mount, of the device `dev`. -/
def sb_seeded (dev : Nat) : superblock :=
  { vfs_mount_sb dev ramfs_driver_addr with
    sb_blksz := PAGE_SIZE, sb_fs := ramfs_driver_addr, sb_data := 2 }

/-- The root superblock after `vfs_mount` of ramfs on the device `dev`. -/
def sb_root (dev : Nat) : superblock := { sb_seeded dev with sb_root_ino := 1 }

/-- The memory after `vfs_setup`, as a function of the table `d` of the
root directory. -/
def vfs_mounted (strhash : List Char → Nat) (dev : Nat) (d : ramfs_directory) : Vfs :=
  { heap := heap_root d,
    drivers := [{ ramfs_driver strhash with lst_prev := 1, lst_next := 1 }],
    mounts := [sb_root dev], theFileSystems := 1, theRootMnt := 1 }

/-- The memory after `vfs_register_filesystem(&ramfs_driver)` at boot, with
the hash function `strhash`. -/
def vfs_registered_for (strhash : List Char → Nat) : Vfs :=
  { heap := heap_init, drivers := [{ ramfs_driver strhash with lst_prev := 1, lst_next := 1 }],
    mounts := [], theFileSystems := 1, theRootMnt := 0 }

/-- After `vfs_setup` and `vfs_mkdir("/a", 0755)` (the directory `a` is inode
2): `ramfs_make_node` with mode `S_IFREG`, `ramfs_link_inode` of the new inode
into `a` under `name`, then `ramfs_lookup_inode` on `path`.  The inode number
of the node, the code of the link and the result of the lookup. -/
def run_link (strhash : List Char → Nat) (name path : List Char) :
    Option (Nat × Int × Int × Option Nat) :=
  ((vfs_ready strhash).bind (fun s => (mkdir_all ["/a".toList] s []).map (fun r => r.1))).bind
    (fun s => s.root.bind (fun sb =>
      (ramfs_make_node s.heap sb S_IFREG 0).bind (fun m =>
        (ramfs_link_inode strhash m.1 sb m.2.2 2 name SIZE_MAX).bind (fun l =>
          (ramfs_lookup_inode strhash l.1 sb path SIZE_MAX).map (fun r =>
            (m.2.2, l.2, r.1, r.2))))))

/-- As `run_link`, with an older node linked into `a` under `name0` before
the node that is linked under `name`. -/
def run_link_after (strhash : List Char → Nat) (name0 name path : List Char) :
    Option (Nat × Int × Int × Option Nat) :=
  ((vfs_ready strhash).bind (fun s => (mkdir_all ["/a".toList] s []).map (fun r => r.1))).bind
    (fun s => s.root.bind (fun sb =>
      (ramfs_make_node s.heap sb S_IFREG 0).bind (fun m0 =>
        (ramfs_link_inode strhash m0.1 sb m0.2.2 2 name0 SIZE_MAX).bind (fun l0 =>
          (ramfs_make_node l0.1 sb S_IFREG 0).bind (fun m =>
            (ramfs_link_inode strhash m.1 sb m.2.2 2 name SIZE_MAX).bind (fun l =>
              (ramfs_lookup_inode strhash l.1 sb path SIZE_MAX).map (fun r =>
                (m.2.2, l.2, r.1, r.2))))))))

/-- The heap of the seeded tree of fanout 64 after 0 inserts. -/
def btree_heap_0 : Heap :=
  [Obj.ino inode_zero] ++
  [Obj.bnode ⟨0, 64, 1, [1] ++ List.replicate 63 0⟩]

/-- The root of the tree after 0 inserts. -/
def btree_root_0 : Nat := 2

/-- Repeated `btree_new_leaf` with the one record `idata`: the heap, the root and, latest
first, the index returned by each call. -/
def btree_insert_same (idata : Nat) : Nat → Heap → Nat → List Nat →
    Option (Heap × Nat × List Nat)
  | 0, h, root, acc => some (h, root, acc)
  | n + 1, h, root, acc => do
      let (h2, root1, res) ← btree_new_leaf h root idata
      btree_insert_same idata n h2 root1 (res :: acc)

/-- The tree seeded as in `ramfs_data_new` after `n` calls of `btree_new_leaf` with the
record of the sentinel, at address 1. -/
def btree_filled_same (fanout n : Nat) : Option (Heap × Nat × List Nat) :=
  (btree_seed fanout).bind (fun x => btree_insert_same invalid_inode n x.1 x.2 [])

/-- The heap after 64 calls of `btree_new_leaf` with the record at address 1 on the
seeded tree of fanout 64. -/
def btree_same_heap_64 : Heap :=
  [Obj.ino inode_zero,
   Obj.bnode ⟨0, 64, 64, [1, 1, 1, 1, 1, 1, 1, 1, 1, 1, 1, 1, 1, 1, 1, 1, 1, 1, 1, 1, 1, 1, 1, 1,
     1, 1, 1, 1, 1, 1, 1, 1, 1, 1, 1, 1, 1, 1, 1, 1, 1, 1, 1, 1, 1, 1, 1, 1, 1, 1, 1, 1, 1, 1, 1, 1,
     1, 1, 1, 1, 1, 1, 1, 1]⟩,
   Obj.bnode ⟨1, 64, 2, [2, 4] ++ List.replicate 62 0⟩,
   Obj.bnode ⟨0, 64, 0, List.replicate 64 0⟩]

/-- The root of the tree after 64 of these calls. -/
def btree_same_root_64 : Nat := 3

/-- The indices returned by the calls 1 to 64, latest first. -/
def btree_same_chunk_64 : List Nat :=
  [64, 63, 62, 61, 60, 59, 58, 57, 56, 55, 54, 53, 52, 51, 50, 49, 48, 47, 46, 45, 44, 43, 42, 41,
   40, 39, 38, 37, 36, 35, 34, 33, 32, 31, 30, 29, 28, 27, 26, 25, 24, 23, 22, 21, 20, 19, 18, 17,
   16, 15, 14, 13, 12, 11, 10, 9, 8, 7, 6, 5, 4, 3, 2, 1]

/-- The heap after 128 calls of `btree_new_leaf` with the record at address 1 on the
seeded tree of fanout 64. -/
def btree_same_heap_128 : Heap :=
  [Obj.ino inode_zero,
   Obj.bnode ⟨0, 64, 64, [1, 1, 1, 1, 1, 1, 1, 1, 1, 1, 1, 1, 1, 1, 1, 1, 1, 1, 1, 1, 1, 1, 1, 1,
     1, 1, 1, 1, 1, 1, 1, 1, 1, 1, 1, 1, 1, 1, 1, 1, 1, 1, 1, 1, 1, 1, 1, 1, 1, 1, 1, 1, 1, 1, 1, 1,
     1, 1, 1, 1, 1, 1, 1, 1]⟩,
   Obj.bnode ⟨1, 64, 2, [2, 4] ++ List.replicate 62 0⟩,
   Obj.bnode ⟨0, 64, 64, [1, 1, 1, 1, 1, 1, 1, 1, 1, 1, 1, 1, 1, 1, 1, 1, 1, 1, 1, 1, 1, 1, 1, 1,
     1, 1, 1, 1, 1, 1, 1, 1, 1, 1, 1, 1, 1, 1, 1, 1, 1, 1, 1, 1, 1, 1, 1, 1, 1, 1, 1, 1, 1, 1, 1, 1,
     1, 1, 1, 1, 1, 1, 1, 1]⟩,
   Obj.bnode ⟨2, 64, 2, [3, 6] ++ List.replicate 62 0⟩,
   Obj.bnode ⟨0, 64, 1, [7] ++ List.replicate 63 0⟩,
   Obj.bnode ⟨0, 64, 0, List.replicate 64 0⟩]

/-- The root of the tree after 128 of these calls. -/
def btree_same_root_128 : Nat := 5

/-- The indices returned by the calls 65 to 128, latest first. -/
def btree_same_chunk_128 : List Nat :=
  [127, 126, 125, 124, 123, 122, 121, 120, 119, 118, 117, 116, 115, 114, 113, 112, 111, 110, 109,
   108, 107, 106, 105, 104, 103, 102, 101, 100, 99, 98, 97, 96, 95, 94, 93, 92, 91, 90, 89, 88, 87,
   86, 85, 84, 83, 82, 81, 80, 79, 78, 77, 76, 75, 74, 73, 72, 71, 70, 69, 68, 67, 66, 65, 4096]

/-- The heap after 192 calls of `btree_new_leaf` with the record at address 1 on the
seeded tree of fanout 64. -/
def btree_same_heap_192 : Heap :=
  [Obj.ino inode_zero,
   Obj.bnode ⟨0, 64, 64, [1, 1, 1, 1, 1, 1, 1, 1, 1, 1, 1, 1, 1, 1, 1, 1, 1, 1, 1, 1, 1, 1, 1, 1,
     1, 1, 1, 1, 1, 1, 1, 1, 1, 1, 1, 1, 1, 1, 1, 1, 1, 1, 1, 1, 1, 1, 1, 1, 1, 1, 1, 1, 1, 1, 1, 1,
     1, 1, 1, 1, 1, 1, 1, 1]⟩,
   Obj.bnode ⟨1, 64, 2, [2, 4] ++ List.replicate 62 0⟩,
   Obj.bnode ⟨0, 64, 64, [1, 1, 1, 1, 1, 1, 1, 1, 1, 1, 1, 1, 1, 1, 1, 1, 1, 1, 1, 1, 1, 1, 1, 1,
     1, 1, 1, 1, 1, 1, 1, 1, 1, 1, 1, 1, 1, 1, 1, 1, 1, 1, 1, 1, 1, 1, 1, 1, 1, 1, 1, 1, 1, 1, 1, 1,
     1, 1, 1, 1, 1, 1, 1, 1]⟩,
   Obj.bnode ⟨2, 64, 2, [3, 6] ++ List.replicate 62 0⟩,
   Obj.bnode ⟨0, 64, 64, [7, 1, 1, 1, 1, 1, 1, 1, 1, 1, 1, 1, 1, 1, 1, 1, 1, 1, 1, 1, 1, 1, 1, 1,
     1, 1, 1, 1, 1, 1, 1, 1, 1, 1, 1, 1, 1, 1, 1, 1, 1, 1, 1, 1, 1, 1, 1, 1, 1, 1, 1, 1, 1, 1, 1, 1,
     1, 1, 1, 1, 1, 1, 1, 1]⟩,
   Obj.bnode ⟨0, 64, 0, List.replicate 64 0⟩,
   Obj.bnode ⟨3, 64, 2, [5, 9] ++ List.replicate 62 0⟩,
   Obj.bnode ⟨0, 64, 1, [10] ++ List.replicate 63 0⟩,
   Obj.bnode ⟨0, 64, 1, [11] ++ List.replicate 63 0⟩,
   Obj.bnode ⟨0, 64, 0, List.replicate 64 0⟩]

/-- The root of the tree after 192 of these calls. -/
def btree_same_root_192 : Nat := 8

/-- The indices returned by the calls 129 to 192, latest first. -/
def btree_same_chunk_192 : List Nat :=
  [262144, 4159, 4158, 4157, 4156, 4155, 4154, 4153, 4152, 4151, 4150, 4149, 4148, 4147, 4146,
   4145, 4144, 4143, 4142, 4141, 4140, 4139, 4138, 4137, 4136, 4135, 4134, 4133, 4132, 4131, 4130,
   4129, 4128, 4127, 4126, 4125, 4124, 4123, 4122, 4121, 4120, 4119, 4118, 4117, 4116, 4115, 4114,
   4113, 4112, 4111, 4110, 4109, 4108, 4107, 4106, 4105, 4104, 4103, 4102, 4101, 4100, 4099, 4098,
   4097]

/-- The heap after 256 calls of `btree_new_leaf` with the record at address 1 on the
seeded tree of fanout 64. -/
def btree_same_heap_256 : Heap :=
  [Obj.ino inode_zero,
   Obj.bnode ⟨0, 64, 64, [1, 1, 1, 1, 1, 1, 1, 1, 1, 1, 1, 1, 1, 1, 1, 1, 1, 1, 1, 1, 1, 1, 1, 1,
     1, 1, 1, 1, 1, 1, 1, 1, 1, 1, 1, 1, 1, 1, 1, 1, 1, 1, 1, 1, 1, 1, 1, 1, 1, 1, 1, 1, 1, 1, 1, 1,
     1, 1, 1, 1, 1, 1, 1, 1]⟩,
   Obj.bnode ⟨1, 64, 2, [2, 4] ++ List.replicate 62 0⟩,
   Obj.bnode ⟨0, 64, 64, [1, 1, 1, 1, 1, 1, 1, 1, 1, 1, 1, 1, 1, 1, 1, 1, 1, 1, 1, 1, 1, 1, 1, 1,
     1, 1, 1, 1, 1, 1, 1, 1, 1, 1, 1, 1, 1, 1, 1, 1, 1, 1, 1, 1, 1, 1, 1, 1, 1, 1, 1, 1, 1, 1, 1, 1,
     1, 1, 1, 1, 1, 1, 1, 1]⟩,
   Obj.bnode ⟨2, 64, 2, [3, 6] ++ List.replicate 62 0⟩,
   Obj.bnode ⟨0, 64, 64, [7, 1, 1, 1, 1, 1, 1, 1, 1, 1, 1, 1, 1, 1, 1, 1, 1, 1, 1, 1, 1, 1, 1, 1,
     1, 1, 1, 1, 1, 1, 1, 1, 1, 1, 1, 1, 1, 1, 1, 1, 1, 1, 1, 1, 1, 1, 1, 1, 1, 1, 1, 1, 1, 1, 1, 1,
     1, 1, 1, 1, 1, 1, 1, 1]⟩,
   Obj.bnode ⟨0, 64, 0, List.replicate 64 0⟩,
   Obj.bnode ⟨3, 64, 2, [5, 9] ++ List.replicate 62 0⟩,
   Obj.bnode ⟨0, 64, 64, [10, 1, 1, 1, 1, 1, 1, 1, 1, 1, 1, 1, 1, 1, 1, 1, 1, 1, 1, 1, 1, 1, 1, 1,
     1, 1, 1, 1, 1, 1, 1, 1, 1, 1, 1, 1, 1, 1, 1, 1, 1, 1, 1, 1, 1, 1, 1, 1, 1, 1, 1, 1, 1, 1, 1, 1,
     1, 1, 1, 1, 1, 1, 1, 1]⟩,
   Obj.bnode ⟨0, 64, 1, [11] ++ List.replicate 63 0⟩,
   Obj.bnode ⟨0, 64, 0, List.replicate 64 0⟩,
   Obj.bnode ⟨4, 64, 2, [8, 13] ++ List.replicate 62 0⟩,
   Obj.bnode ⟨0, 64, 1, [14] ++ List.replicate 63 0⟩,
   Obj.bnode ⟨0, 64, 1, [15] ++ List.replicate 63 0⟩,
   Obj.bnode ⟨0, 64, 1, [16] ++ List.replicate 63 0⟩,
   Obj.bnode ⟨0, 64, 0, List.replicate 64 0⟩]

/-- The root of the tree after 256 of these calls. -/
def btree_same_root_256 : Nat := 12

/-- The indices returned by the calls 193 to 256, latest first. -/
def btree_same_chunk_256 : List Nat :=
  [16777216, 262207, 262206, 262205, 262204, 262203, 262202, 262201, 262200, 262199, 262198,
   262197, 262196, 262195, 262194, 262193, 262192, 262191, 262190, 262189, 262188, 262187, 262186,
   262185, 262184, 262183, 262182, 262181, 262180, 262179, 262178, 262177, 262176, 262175, 262174,
   262173, 262172, 262171, 262170, 262169, 262168, 262167, 262166, 262165, 262164, 262163, 262162,
   262161, 262160, 262159, 262158, 262157, 262156, 262155, 262154, 262153, 262152, 262151, 262150,
   262149, 262148, 262147, 262146, 262145]

/-- The heap after 319 calls of `btree_new_leaf` with the record at address 1 on the
seeded tree of fanout 64. -/
def btree_same_heap_319 : Heap :=
  [Obj.ino inode_zero,
   Obj.bnode ⟨0, 64, 64, [1, 1, 1, 1, 1, 1, 1, 1, 1, 1, 1, 1, 1, 1, 1, 1, 1, 1, 1, 1, 1, 1, 1, 1,
     1, 1, 1, 1, 1, 1, 1, 1, 1, 1, 1, 1, 1, 1, 1, 1, 1, 1, 1, 1, 1, 1, 1, 1, 1, 1, 1, 1, 1, 1, 1, 1,
     1, 1, 1, 1, 1, 1, 1, 1]⟩,
   Obj.bnode ⟨1, 64, 2, [2, 4] ++ List.replicate 62 0⟩,
   Obj.bnode ⟨0, 64, 64, [1, 1, 1, 1, 1, 1, 1, 1, 1, 1, 1, 1, 1, 1, 1, 1, 1, 1, 1, 1, 1, 1, 1, 1,
     1, 1, 1, 1, 1, 1, 1, 1, 1, 1, 1, 1, 1, 1, 1, 1, 1, 1, 1, 1, 1, 1, 1, 1, 1, 1, 1, 1, 1, 1, 1, 1,
     1, 1, 1, 1, 1, 1, 1, 1]⟩,
   Obj.bnode ⟨2, 64, 2, [3, 6] ++ List.replicate 62 0⟩,
   Obj.bnode ⟨0, 64, 64, [7, 1, 1, 1, 1, 1, 1, 1, 1, 1, 1, 1, 1, 1, 1, 1, 1, 1, 1, 1, 1, 1, 1, 1,
     1, 1, 1, 1, 1, 1, 1, 1, 1, 1, 1, 1, 1, 1, 1, 1, 1, 1, 1, 1, 1, 1, 1, 1, 1, 1, 1, 1, 1, 1, 1, 1,
     1, 1, 1, 1, 1, 1, 1, 1]⟩,
   Obj.bnode ⟨0, 64, 0, List.replicate 64 0⟩,
   Obj.bnode ⟨3, 64, 2, [5, 9] ++ List.replicate 62 0⟩,
   Obj.bnode ⟨0, 64, 64, [10, 1, 1, 1, 1, 1, 1, 1, 1, 1, 1, 1, 1, 1, 1, 1, 1, 1, 1, 1, 1, 1, 1, 1,
     1, 1, 1, 1, 1, 1, 1, 1, 1, 1, 1, 1, 1, 1, 1, 1, 1, 1, 1, 1, 1, 1, 1, 1, 1, 1, 1, 1, 1, 1, 1, 1,
     1, 1, 1, 1, 1, 1, 1, 1]⟩,
   Obj.bnode ⟨0, 64, 1, [11] ++ List.replicate 63 0⟩,
   Obj.bnode ⟨0, 64, 0, List.replicate 64 0⟩,
   Obj.bnode ⟨4, 64, 2, [8, 13] ++ List.replicate 62 0⟩,
   Obj.bnode ⟨0, 64, 64, [14, 1, 1, 1, 1, 1, 1, 1, 1, 1, 1, 1, 1, 1, 1, 1, 1, 1, 1, 1, 1, 1, 1, 1,
     1, 1, 1, 1, 1, 1, 1, 1, 1, 1, 1, 1, 1, 1, 1, 1, 1, 1, 1, 1, 1, 1, 1, 1, 1, 1, 1, 1, 1, 1, 1, 1,
     1, 1, 1, 1, 1, 1, 1, 1]⟩,
   Obj.bnode ⟨0, 64, 1, [15] ++ List.replicate 63 0⟩,
   Obj.bnode ⟨0, 64, 1, [16] ++ List.replicate 63 0⟩,
   Obj.bnode ⟨0, 64, 0, List.replicate 64 0⟩]

/-- The root of the tree after 319 of these calls. -/
def btree_same_root_319 : Nat := 12

/-- The indices returned by the calls 257 to 319, latest first. -/
def btree_same_chunk_319 : List Nat :=
  [16777279, 16777278, 16777277, 16777276, 16777275, 16777274, 16777273, 16777272, 16777271,
   16777270, 16777269, 16777268, 16777267, 16777266, 16777265, 16777264, 16777263, 16777262,
   16777261, 16777260, 16777259, 16777258, 16777257, 16777256, 16777255, 16777254, 16777253,
   16777252, 16777251, 16777250, 16777249, 16777248, 16777247, 16777246, 16777245, 16777244,
   16777243, 16777242, 16777241, 16777240, 16777239, 16777238, 16777237, 16777236, 16777235,
   16777234, 16777233, 16777232, 16777231, 16777230, 16777229, 16777228, 16777227, 16777226,
   16777225, 16777224, 16777223, 16777222, 16777221, 16777220, 16777219, 16777218, 16777217]

/-- The heap after 320 calls of `btree_new_leaf` with the record at address 1 on the
seeded tree of fanout 64. -/
def btree_same_heap_320 : Heap :=
  [Obj.ino inode_zero,
   Obj.bnode ⟨0, 64, 64, [1, 1, 1, 1, 1, 1, 1, 1, 1, 1, 1, 1, 1, 1, 1, 1, 1, 1, 1, 1, 1, 1, 1, 1,
     1, 1, 1, 1, 1, 1, 1, 1, 1, 1, 1, 1, 1, 1, 1, 1, 1, 1, 1, 1, 1, 1, 1, 1, 1, 1, 1, 1, 1, 1, 1, 1,
     1, 1, 1, 1, 1, 1, 1, 1]⟩,
   Obj.bnode ⟨1, 64, 2, [2, 4] ++ List.replicate 62 0⟩,
   Obj.bnode ⟨0, 64, 64, [1, 1, 1, 1, 1, 1, 1, 1, 1, 1, 1, 1, 1, 1, 1, 1, 1, 1, 1, 1, 1, 1, 1, 1,
     1, 1, 1, 1, 1, 1, 1, 1, 1, 1, 1, 1, 1, 1, 1, 1, 1, 1, 1, 1, 1, 1, 1, 1, 1, 1, 1, 1, 1, 1, 1, 1,
     1, 1, 1, 1, 1, 1, 1, 1]⟩,
   Obj.bnode ⟨2, 64, 2, [3, 6] ++ List.replicate 62 0⟩,
   Obj.bnode ⟨0, 64, 64, [7, 1, 1, 1, 1, 1, 1, 1, 1, 1, 1, 1, 1, 1, 1, 1, 1, 1, 1, 1, 1, 1, 1, 1,
     1, 1, 1, 1, 1, 1, 1, 1, 1, 1, 1, 1, 1, 1, 1, 1, 1, 1, 1, 1, 1, 1, 1, 1, 1, 1, 1, 1, 1, 1, 1, 1,
     1, 1, 1, 1, 1, 1, 1, 1]⟩,
   Obj.bnode ⟨0, 64, 0, List.replicate 64 0⟩,
   Obj.bnode ⟨3, 64, 2, [5, 9] ++ List.replicate 62 0⟩,
   Obj.bnode ⟨0, 64, 64, [10, 1, 1, 1, 1, 1, 1, 1, 1, 1, 1, 1, 1, 1, 1, 1, 1, 1, 1, 1, 1, 1, 1, 1,
     1, 1, 1, 1, 1, 1, 1, 1, 1, 1, 1, 1, 1, 1, 1, 1, 1, 1, 1, 1, 1, 1, 1, 1, 1, 1, 1, 1, 1, 1, 1, 1,
     1, 1, 1, 1, 1, 1, 1, 1]⟩,
   Obj.bnode ⟨0, 64, 1, [11] ++ List.replicate 63 0⟩,
   Obj.bnode ⟨0, 64, 0, List.replicate 64 0⟩,
   Obj.bnode ⟨4, 64, 2, [8, 13] ++ List.replicate 62 0⟩,
   Obj.bnode ⟨0, 64, 64, [14, 1, 1, 1, 1, 1, 1, 1, 1, 1, 1, 1, 1, 1, 1, 1, 1, 1, 1, 1, 1, 1, 1, 1,
     1, 1, 1, 1, 1, 1, 1, 1, 1, 1, 1, 1, 1, 1, 1, 1, 1, 1, 1, 1, 1, 1, 1, 1, 1, 1, 1, 1, 1, 1, 1, 1,
     1, 1, 1, 1, 1, 1, 1, 1]⟩,
   Obj.bnode ⟨0, 64, 1, [15] ++ List.replicate 63 0⟩,
   Obj.bnode ⟨0, 64, 1, [16] ++ List.replicate 63 0⟩,
   Obj.bnode ⟨0, 64, 0, List.replicate 64 0⟩,
   Obj.bnode ⟨5, 64, 2, [12, 18] ++ List.replicate 62 0⟩,
   Obj.bnode ⟨0, 64, 1, [19] ++ List.replicate 63 0⟩,
   Obj.bnode ⟨0, 64, 1, [20] ++ List.replicate 63 0⟩,
   Obj.bnode ⟨0, 64, 1, [21] ++ List.replicate 63 0⟩,
   Obj.bnode ⟨0, 64, 1, [22] ++ List.replicate 63 0⟩,
   Obj.bnode ⟨0, 64, 0, List.replicate 64 0⟩]

/-- The root of the tree after 320 of these calls. -/
def btree_same_root_320 : Nat := 17

/-- The index returned by the call 320. -/
def btree_same_chunk_320 : List Nat :=
  [1073741824]

/-- The heap after 384 calls of `btree_new_leaf` with the record at address 1 on the
seeded tree of fanout 64. -/
def btree_same_heap_384 : Heap :=
  [Obj.ino inode_zero,
   Obj.bnode ⟨0, 64, 64, [1, 1, 1, 1, 1, 1, 1, 1, 1, 1, 1, 1, 1, 1, 1, 1, 1, 1, 1, 1, 1, 1, 1, 1,
     1, 1, 1, 1, 1, 1, 1, 1, 1, 1, 1, 1, 1, 1, 1, 1, 1, 1, 1, 1, 1, 1, 1, 1, 1, 1, 1, 1, 1, 1, 1, 1,
     1, 1, 1, 1, 1, 1, 1, 1]⟩,
   Obj.bnode ⟨1, 64, 2, [2, 4] ++ List.replicate 62 0⟩,
   Obj.bnode ⟨0, 64, 64, [1, 1, 1, 1, 1, 1, 1, 1, 1, 1, 1, 1, 1, 1, 1, 1, 1, 1, 1, 1, 1, 1, 1, 1,
     1, 1, 1, 1, 1, 1, 1, 1, 1, 1, 1, 1, 1, 1, 1, 1, 1, 1, 1, 1, 1, 1, 1, 1, 1, 1, 1, 1, 1, 1, 1, 1,
     1, 1, 1, 1, 1, 1, 1, 1]⟩,
   Obj.bnode ⟨2, 64, 2, [3, 6] ++ List.replicate 62 0⟩,
   Obj.bnode ⟨0, 64, 64, [7, 1, 1, 1, 1, 1, 1, 1, 1, 1, 1, 1, 1, 1, 1, 1, 1, 1, 1, 1, 1, 1, 1, 1,
     1, 1, 1, 1, 1, 1, 1, 1, 1, 1, 1, 1, 1, 1, 1, 1, 1, 1, 1, 1, 1, 1, 1, 1, 1, 1, 1, 1, 1, 1, 1, 1,
     1, 1, 1, 1, 1, 1, 1, 1]⟩,
   Obj.bnode ⟨0, 64, 0, List.replicate 64 0⟩,
   Obj.bnode ⟨3, 64, 2, [5, 9] ++ List.replicate 62 0⟩,
   Obj.bnode ⟨0, 64, 64, [10, 1, 1, 1, 1, 1, 1, 1, 1, 1, 1, 1, 1, 1, 1, 1, 1, 1, 1, 1, 1, 1, 1, 1,
     1, 1, 1, 1, 1, 1, 1, 1, 1, 1, 1, 1, 1, 1, 1, 1, 1, 1, 1, 1, 1, 1, 1, 1, 1, 1, 1, 1, 1, 1, 1, 1,
     1, 1, 1, 1, 1, 1, 1, 1]⟩,
   Obj.bnode ⟨0, 64, 1, [11] ++ List.replicate 63 0⟩,
   Obj.bnode ⟨0, 64, 0, List.replicate 64 0⟩,
   Obj.bnode ⟨4, 64, 2, [8, 13] ++ List.replicate 62 0⟩,
   Obj.bnode ⟨0, 64, 64, [14, 1, 1, 1, 1, 1, 1, 1, 1, 1, 1, 1, 1, 1, 1, 1, 1, 1, 1, 1, 1, 1, 1, 1,
     1, 1, 1, 1, 1, 1, 1, 1, 1, 1, 1, 1, 1, 1, 1, 1, 1, 1, 1, 1, 1, 1, 1, 1, 1, 1, 1, 1, 1, 1, 1, 1,
     1, 1, 1, 1, 1, 1, 1, 1]⟩,
   Obj.bnode ⟨0, 64, 1, [15] ++ List.replicate 63 0⟩,
   Obj.bnode ⟨0, 64, 1, [16] ++ List.replicate 63 0⟩,
   Obj.bnode ⟨0, 64, 0, List.replicate 64 0⟩,
   Obj.bnode ⟨5, 64, 2, [12, 18] ++ List.replicate 62 0⟩,
   Obj.bnode ⟨0, 64, 64, [19, 1, 1, 1, 1, 1, 1, 1, 1, 1, 1, 1, 1, 1, 1, 1, 1, 1, 1, 1, 1, 1, 1, 1,
     1, 1, 1, 1, 1, 1, 1, 1, 1, 1, 1, 1, 1, 1, 1, 1, 1, 1, 1, 1, 1, 1, 1, 1, 1, 1, 1, 1, 1, 1, 1, 1,
     1, 1, 1, 1, 1, 1, 1, 1]⟩,
   Obj.bnode ⟨0, 64, 1, [20] ++ List.replicate 63 0⟩,
   Obj.bnode ⟨0, 64, 1, [21] ++ List.replicate 63 0⟩,
   Obj.bnode ⟨0, 64, 1, [22] ++ List.replicate 63 0⟩,
   Obj.bnode ⟨0, 64, 0, List.replicate 64 0⟩,
   Obj.bnode ⟨6, 64, 2, [17, 24] ++ List.replicate 62 0⟩,
   Obj.bnode ⟨0, 64, 1, [25] ++ List.replicate 63 0⟩,
   Obj.bnode ⟨0, 64, 1, [26] ++ List.replicate 63 0⟩,
   Obj.bnode ⟨0, 64, 1, [27] ++ List.replicate 63 0⟩,
   Obj.bnode ⟨0, 64, 1, [28] ++ List.replicate 63 0⟩,
   Obj.bnode ⟨0, 64, 1, [29] ++ List.replicate 63 0⟩,
   Obj.bnode ⟨0, 64, 0, List.replicate 64 0⟩]

/-- The root of the tree after 384 of these calls. -/
def btree_same_root_384 : Nat := 23

/-- The indices returned by the calls 321 to 384, latest first. -/
def btree_same_chunk_384 : List Nat :=
  [0, 1073741887, 1073741886, 1073741885, 1073741884, 1073741883, 1073741882, 1073741881,
   1073741880, 1073741879, 1073741878, 1073741877, 1073741876, 1073741875, 1073741874, 1073741873,
   1073741872, 1073741871, 1073741870, 1073741869, 1073741868, 1073741867, 1073741866, 1073741865,
   1073741864, 1073741863, 1073741862, 1073741861, 1073741860, 1073741859, 1073741858, 1073741857,
   1073741856, 1073741855, 1073741854, 1073741853, 1073741852, 1073741851, 1073741850, 1073741849,
   1073741848, 1073741847, 1073741846, 1073741845, 1073741844, 1073741843, 1073741842, 1073741841,
   1073741840, 1073741839, 1073741838, 1073741837, 1073741836, 1073741835, 1073741834, 1073741833,
   1073741832, 1073741831, 1073741830, 1073741829, 1073741828, 1073741827, 1073741826, 1073741825]

/-- The heap after 385 calls of `btree_new_leaf` with the record at address 1 on the
seeded tree of fanout 64. -/
def btree_same_heap_385 : Heap :=
  [Obj.ino inode_zero,
   Obj.bnode ⟨0, 64, 64, [1, 1, 1, 1, 1, 1, 1, 1, 1, 1, 1, 1, 1, 1, 1, 1, 1, 1, 1, 1, 1, 1, 1, 1,
     1, 1, 1, 1, 1, 1, 1, 1, 1, 1, 1, 1, 1, 1, 1, 1, 1, 1, 1, 1, 1, 1, 1, 1, 1, 1, 1, 1, 1, 1, 1, 1,
     1, 1, 1, 1, 1, 1, 1, 1]⟩,
   Obj.bnode ⟨1, 64, 2, [2, 4] ++ List.replicate 62 0⟩,
   Obj.bnode ⟨0, 64, 64, [1, 1, 1, 1, 1, 1, 1, 1, 1, 1, 1, 1, 1, 1, 1, 1, 1, 1, 1, 1, 1, 1, 1, 1,
     1, 1, 1, 1, 1, 1, 1, 1, 1, 1, 1, 1, 1, 1, 1, 1, 1, 1, 1, 1, 1, 1, 1, 1, 1, 1, 1, 1, 1, 1, 1, 1,
     1, 1, 1, 1, 1, 1, 1, 1]⟩,
   Obj.bnode ⟨2, 64, 2, [3, 6] ++ List.replicate 62 0⟩,
   Obj.bnode ⟨0, 64, 64, [7, 1, 1, 1, 1, 1, 1, 1, 1, 1, 1, 1, 1, 1, 1, 1, 1, 1, 1, 1, 1, 1, 1, 1,
     1, 1, 1, 1, 1, 1, 1, 1, 1, 1, 1, 1, 1, 1, 1, 1, 1, 1, 1, 1, 1, 1, 1, 1, 1, 1, 1, 1, 1, 1, 1, 1,
     1, 1, 1, 1, 1, 1, 1, 1]⟩,
   Obj.bnode ⟨0, 64, 0, List.replicate 64 0⟩,
   Obj.bnode ⟨3, 64, 2, [5, 9] ++ List.replicate 62 0⟩,
   Obj.bnode ⟨0, 64, 64, [10, 1, 1, 1, 1, 1, 1, 1, 1, 1, 1, 1, 1, 1, 1, 1, 1, 1, 1, 1, 1, 1, 1, 1,
     1, 1, 1, 1, 1, 1, 1, 1, 1, 1, 1, 1, 1, 1, 1, 1, 1, 1, 1, 1, 1, 1, 1, 1, 1, 1, 1, 1, 1, 1, 1, 1,
     1, 1, 1, 1, 1, 1, 1, 1]⟩,
   Obj.bnode ⟨0, 64, 1, [11] ++ List.replicate 63 0⟩,
   Obj.bnode ⟨0, 64, 0, List.replicate 64 0⟩,
   Obj.bnode ⟨4, 64, 2, [8, 13] ++ List.replicate 62 0⟩,
   Obj.bnode ⟨0, 64, 64, [14, 1, 1, 1, 1, 1, 1, 1, 1, 1, 1, 1, 1, 1, 1, 1, 1, 1, 1, 1, 1, 1, 1, 1,
     1, 1, 1, 1, 1, 1, 1, 1, 1, 1, 1, 1, 1, 1, 1, 1, 1, 1, 1, 1, 1, 1, 1, 1, 1, 1, 1, 1, 1, 1, 1, 1,
     1, 1, 1, 1, 1, 1, 1, 1]⟩,
   Obj.bnode ⟨0, 64, 1, [15] ++ List.replicate 63 0⟩,
   Obj.bnode ⟨0, 64, 1, [16] ++ List.replicate 63 0⟩,
   Obj.bnode ⟨0, 64, 0, List.replicate 64 0⟩,
   Obj.bnode ⟨5, 64, 2, [12, 18] ++ List.replicate 62 0⟩,
   Obj.bnode ⟨0, 64, 64, [19, 1, 1, 1, 1, 1, 1, 1, 1, 1, 1, 1, 1, 1, 1, 1, 1, 1, 1, 1, 1, 1, 1, 1,
     1, 1, 1, 1, 1, 1, 1, 1, 1, 1, 1, 1, 1, 1, 1, 1, 1, 1, 1, 1, 1, 1, 1, 1, 1, 1, 1, 1, 1, 1, 1, 1,
     1, 1, 1, 1, 1, 1, 1, 1]⟩,
   Obj.bnode ⟨0, 64, 1, [20] ++ List.replicate 63 0⟩,
   Obj.bnode ⟨0, 64, 1, [21] ++ List.replicate 63 0⟩,
   Obj.bnode ⟨0, 64, 1, [22] ++ List.replicate 63 0⟩,
   Obj.bnode ⟨0, 64, 0, List.replicate 64 0⟩,
   Obj.bnode ⟨6, 64, 2, [17, 24] ++ List.replicate 62 0⟩,
   Obj.bnode ⟨0, 64, 2, [25, 1] ++ List.replicate 62 0⟩,
   Obj.bnode ⟨0, 64, 1, [26] ++ List.replicate 63 0⟩,
   Obj.bnode ⟨0, 64, 1, [27] ++ List.replicate 63 0⟩,
   Obj.bnode ⟨0, 64, 1, [28] ++ List.replicate 63 0⟩,
   Obj.bnode ⟨0, 64, 1, [29] ++ List.replicate 63 0⟩,
   Obj.bnode ⟨0, 64, 0, List.replicate 64 0⟩]

/-- The root of the tree after 385 of these calls. -/
def btree_same_root_385 : Nat := 23

/-- The indices returned by the calls 385 to 385, latest first. -/
def btree_same_chunk_385 : List Nat :=
  [1]

/-- The table of the root directory after `vfs_setup` and
`vfs_mknod("/tty0", S_IFCHR | 0600, makedev(4, 0))` with the hash function `hash_zero`. -/
def root_dir_tty : ramfs_directory :=
  { size := 3, htcap := 8,
    ht := [{ de_hash := 0, de_name := ['.', '.'], de_ino := 1 },
           { de_hash := 0, de_name := ['.'], de_ino := 1 },
           { de_hash := 0, de_name := ['t', 't', 'y', '0'], de_ino := 2 }] ::
          List.replicate 7 [] }

/-- The heap after `vfs_setup` and `vfs_mknod("/tty0", S_IFCHR | 0600, makedev(4, 0))`
with the hash function `hash_zero`: the device node is inode 2, at address 6. -/
def heap_tty : Heap :=
  [Obj.ino inode_zero, Obj.rdata 3,
   Obj.bnode { bt_level := 0, bt_fanout := 64, bt_used := 3,
               bt_children := 1 :: 4 :: 6 :: List.replicate 61 0 },
   Obj.ino { inode_zero with i_no := 1, i_mode := S_IFDIR ||| 493, i_nlinks := 2, i_data := 5 },
   Obj.dir root_dir_tty,
   Obj.ino { inode_zero with i_no := 2, i_mode := S_IFCHR ||| 384, i_nlinks := 2, dev_maj := 4 }]

/-- The memory after `vfs_setup` and `vfs_mknod("/tty0", S_IFCHR | 0600, makedev(4, 0))`
with the hash function `hash_zero`. -/
def vfs_tty : Vfs :=
  { heap := heap_tty,
    drivers := [{ ramfs_driver hash_zero with lst_prev := 1, lst_next := 1 }],
    mounts := [sb_root 0], theFileSystems := 1, theRootMnt := 1 }

/-- The call `vfs_mknod("/tty0", S_IFCHR | 0600, makedev(4, 0))` after `vfs_setup` with
the hash function `hash_zero`. -/
def run_tty_root : Option (Vfs × List Int) :=
  vfs_run hash_zero [fun s => vfs_mknod hash_zero s (some "/tty0".toList) (S_IFCHR ||| 384)
    (gnu_dev_makedev 4 0)]

theorem char_toNat_inj (a b : Char) (h : a.toNat = b.toNat) : a = b := by
  apply Char.ext
  apply UInt32.ext
  exact h

theorem NUL_toNat : NUL.toNat = 0 := by decide

theorem toNat_ne_zero (a : Char) (h : a ≠ NUL) : a.toNat ≠ 0 := by
  intro h0
  exact h (char_toNat_inj a NUL (by rw [h0, NUL_toNat]))

theorem strncmp_eq_zero_iff (n : Nat) : ∀ (s1 s2 : List Char), NUL ∉ s1 → NUL ∉ s2 →
    (strncmp s1 s2 n = 0 ↔ s1.take n = s2.take n) := by
  induction n with
  | zero => intro s1 s2 _ _; simp [strncmp]
  | succ n ih =>
    intro s1 s2 h1 h2
    cases s1 with
    | nil =>
      cases s2 with
      | nil => simp [strncmp]
      | cons b u =>
        have hb : b ≠ NUL := fun e => h2 (by simp [e])
        have := toNat_ne_zero b hb
        simp [strncmp, Ne.symm hb, NUL_toNat]
        omega
    | cons a t =>
      cases s2 with
      | nil =>
        have ha : a ≠ NUL := fun e => h1 (by simp [e])
        have := toNat_ne_zero a ha
        simp [strncmp, ha, NUL_toNat]
        omega
      | cons b u =>
        have ha : a ≠ NUL := fun e => h1 (by simp [e])
        by_cases hab : a = b
        · subst hab
          have h1t : NUL ∉ t := fun m => h1 (List.mem_cons_of_mem _ m)
          have h2u : NUL ∉ u := fun m => h2 (List.mem_cons_of_mem _ m)
          simp [strncmp, ha, ih t u h1t h2u]
        · have : a.toNat ≠ b.toNat := fun e => hab (char_toNat_inj a b e)
          simp [strncmp, hab]
          omega

/-! ## The directory table -/

theorem chain_insert_none_iff (de : ramfs_direntry) (chain : List ramfs_direntry) :
    chain_insert de chain = none ↔
      ∃ b ∈ chain, b.de_hash = de.de_hash ∧ strcmp b.de_name de.de_name = 0 := by
  induction chain with
  | nil => simp [chain_insert]
  | cons b rest ih =>
    by_cases hb : b.de_hash = de.de_hash ∧ strcmp b.de_name de.de_name = 0
    · simp [chain_insert, hb]
    · simp only [chain_insert, hb, if_false, Option.map_eq_none', ih, List.mem_cons,
        exists_eq_or_imp, false_or]

theorem chain_insert_some (de : ramfs_direntry) (chain c1 : List ramfs_direntry)
    (h : chain_insert de chain = some c1) : c1 = chain ++ [de] := by
  induction chain generalizing c1 with
  | nil => simp [chain_insert] at h; simp [h]
  | cons b rest ih =>
    by_cases hb : b.de_hash = de.de_hash ∧ strcmp b.de_name de.de_name = 0
    · simp [chain_insert, hb] at h
    · simp only [chain_insert, hb, if_false, Option.map_eq_some'] at h
      obtain ⟨r, hr, rfl⟩ := h
      simp [ih r hr]

/-- C18: `ramfs_directory_insert` on a table with `htcap` chains returns `EEXIST` exactly
when the chain of bucket `de_hash % htcap` holds an entry with the same hash and an equal
name, and then leaves the table as it was; otherwise it returns 0, the size grows by one,
the new entry is the last one of that chain and every other chain is unchanged. -/
theorem C18_directory_insert (dir : ramfs_directory) (de : ramfs_direntry)
    (hcap : 0 < dir.htcap) (hlen : dir.ht.length = dir.htcap)
    (hsize : dir.size + 1 < SIZE_MOD) :
    ∃ dir1 ret, ramfs_directory_insert dir de = some (dir1, ret) ∧
      (ret = EEXIST ∨ ret = 0) ∧
      (ret = EEXIST ↔ ∃ b ∈ dir.ht.getD (de.de_hash % dir.htcap) [],
          b.de_hash = de.de_hash ∧ strcmp b.de_name de.de_name = 0) ∧
      (ret = EEXIST → dir1 = dir) ∧
      (ret = 0 → dir1.size = dir.size + 1 ∧ dir1.htcap = dir.htcap ∧
          dir1.ht.length = dir.ht.length ∧
          dir1.ht.getD (de.de_hash % dir.htcap) [] =
            dir.ht.getD (de.de_hash % dir.htcap) [] ++ [de] ∧
          ∀ j, j ≠ de.de_hash % dir.htcap → dir1.ht.getD j [] = dir.ht.getD j []) := by
  have hidx : de.de_hash % dir.htcap < dir.ht.length := by
    rw [hlen]; exact Nat.mod_lt _ hcap
  have hget : dir.ht.get? (de.de_hash % dir.htcap) = some (dir.ht.getD (de.de_hash % dir.htcap) []) := by
    simp [List.getD, hidx]
  have hne : dir.htcap ≠ 0 := by omega
  cases hci : chain_insert de (dir.ht.getD (de.de_hash % dir.htcap) []) with
  | none =>
    refine ⟨dir, EEXIST, ?_, Or.inl rfl, ?_, fun _ => rfl, ?_⟩
    · simp only [ramfs_directory_insert, hne, if_false, hget, hci]
    · simp only [true_iff]
      exact (chain_insert_none_iff _ _).1 hci
    · intro h; exact absurd h (by decide)
  | some c1 =>
    have hc1 := chain_insert_some _ _ _ hci
    refine ⟨{ dir with ht := dir.ht.set (de.de_hash % dir.htcap) c1,
                        size := wrap (dir.size + 1) }, 0, ?_, Or.inr rfl, ?_, ?_, ?_⟩
    · simp only [ramfs_directory_insert, hne, if_false, hget, hci]
    · constructor
      · intro h; exact absurd h (by decide)
      · intro h
        have := (chain_insert_none_iff _ _).2 h
        rw [hci] at this
        exact absurd this (by simp)
    · intro h; exact absurd h (by decide)
    · intro _
      refine ⟨?_, rfl, by simp, ?_, ?_⟩
      · simp only [wrap]; exact Nat.mod_eq_of_lt hsize
      · simp [List.getD, hidx, hc1]
      · intro j hj
        simp [List.getD, List.getElem?_set, Ne.symm hj]

theorem C18_directory_insert_witness :
    ∃ dir1 ret, ramfs_directory_insert dir_fresh ⟨djb2 ['.'], ['.'], 1⟩ = some (dir1, ret) ∧
      (ret = EEXIST ∨ ret = 0) ∧
      (ret = EEXIST ↔ ∃ b ∈ dir_fresh.ht.getD (djb2 ['.'] % dir_fresh.htcap) [],
          b.de_hash = djb2 ['.'] ∧ strcmp b.de_name ['.'] = 0) ∧
      (ret = EEXIST → dir1 = dir_fresh) ∧
      (ret = 0 → dir1.size = dir_fresh.size + 1 ∧ dir1.htcap = dir_fresh.htcap ∧
          dir1.ht.length = dir_fresh.ht.length ∧
          dir1.ht.getD (djb2 ['.'] % dir_fresh.htcap) [] =
            dir_fresh.ht.getD (djb2 ['.'] % dir_fresh.htcap) [] ++ [⟨djb2 ['.'], ['.'], 1⟩] ∧
          ∀ j, j ≠ djb2 ['.'] % dir_fresh.htcap → dir1.ht.getD j [] = dir_fresh.ht.getD j []) :=
  C18_directory_insert dir_fresh ⟨djb2 ['.'], ['.'], 1⟩ (by decide) (by decide) (by decide)

/-! ## Path lookup -/

theorem strncmp_take (n : Nat) : ∀ (s1 s2 : List Char),
    strncmp (s1.take n) s2 n = strncmp s1 s2 n := by
  induction n with
  | zero => intro s1 s2; simp [strncmp]
  | succ n ih =>
    intro s1 s2
    cases s1 with
    | nil => simp [strncmp]
    | cons a t => simp [strncmp, ih t s2.tail]

theorem strncmp_congr (n : Nat) (b1 b2 s : List Char) (hb : b1.take n = b2.take n) :
    strncmp b1 s n = strncmp b2 s n := by
  rw [← strncmp_take n b1, ← strncmp_take n b2, hb]

theorem chain_find_congr (hash n : Nat) (b1 b2 : List Char) (hb : b1.take n = b2.take n)
    (chain : List ramfs_direntry) :
    chain_find hash b1 n chain = chain_find hash b2 n chain := by
  induction chain with
  | nil => simp [chain_find]
  | cons de rest ih => simp [chain_find, ih, strncmp_congr n b1 b2 _ hb]

theorem get_inode_by_basename_congr (strhash : List Char → Nat) (d : ramfs_directory)
    (n : Nat) (b1 b2 : List Char) (hb : b1.take n = b2.take n) :
    ramfs_get_inode_by_basename strhash d b1 n = ramfs_get_inode_by_basename strhash d b2 n := by
  simp only [ramfs_get_inode_by_basename, hash32, hb, chain_find_congr _ n b1 b2 hb]

theorem take_drop_append (p q : List Char) (boff e : Nat) (he : e ≤ p.length) :
    ((p ++ q).drop boff).take (e - boff) = (p.drop boff).take (e - boff) := by
  by_cases hb : boff ≤ p.length
  · rw [List.drop_append_of_le_length hb]
    apply List.take_append_of_le_length
    simp; omega
  · have : e - boff = 0 := by omega
    simp [this]

theorem lookup_last_congr (strhash : List Char → Nat) (h : Heap) (p q : List Char)
    (dir boff e : Nat) (he : e ≤ p.length) :
    ramfs_lookup_last strhash h (p ++ q) dir boff e = ramfs_lookup_last strhash h p dir boff e := by
  simp only [ramfs_lookup_last,
    get_inode_by_basename_congr strhash _ (e - boff) _ _ (take_drop_append p q boff e he)]

theorem walk_trailing_sep (strhash : List Char → Nat) (h : Heap) (sb : superblock)
    (pathlen : Nat) (cs : List Char) :
    ∀ (pre : List Char) (boff dir : Nat) (skipping : Bool),
      NUL ∉ cs → (cs = [] → skipping = false) →
      (∀ hne : cs ≠ [], cs.getLast hne ≠ FS_SEP) →
      pre.length + cs.length < pathlen →
      ramfs_lookup_walk strhash h sb (pre ++ cs ++ [FS_SEP]) pathlen (cs ++ [FS_SEP])
          pre.length boff dir skipping
        = ramfs_lookup_walk strhash h sb (pre ++ cs) pathlen cs pre.length boff dir skipping := by
  induction cs with
  | nil =>
    intro pre boff dir skipping _ hsk _ hlen
    have hs : skipping = false := hsk rfl
    subst hs
    have hlen1 : ¬ pathlen ≤ pre.length := by simp at hlen; omega
    have hsep : FS_SEP ≠ NUL := by decide
    simp only [List.append_nil, List.nil_append, ramfs_lookup_walk, Bool.false_eq_true,
      false_and, if_false, hlen1, hsep, false_or, List.headD_nil, if_true]
    have hc := get_inode_by_basename_congr strhash
    simp only [ramfs_lookup_last]
    cases hd : h.directory dir with
    | none => simp
    | some d =>
      have := get_inode_by_basename_congr strhash d (pre.length - boff) _ _
        (take_drop_append pre [FS_SEP] boff pre.length (le_refl _))
      simp only [Option.bind_eq_bind, Option.some_bind, this]
      cases hg : ramfs_get_inode_by_basename strhash d (List.drop boff pre) (pre.length - boff) with
      | none => simp
      | some r =>
        obtain ⟨ret, ino⟩ := r
        by_cases hr : ret = 0
        · simp [hr]
        · simp [hr]
  | cons c cs ih =>
    intro pre boff dir skipping hnul hsk hlast hlen
    have hcn : c ≠ NUL := fun e => hnul (by simp [e])
    have hnul1 : NUL ∉ cs := fun m => hnul (List.mem_cons_of_mem _ m)
    have hlen0 : ¬ pathlen ≤ pre.length := by simp at hlen; omega
    have hlen1 : (pre ++ [c]).length + cs.length < pathlen := by simp at hlen ⊢; omega
    have hp1 : pre ++ c :: cs ++ [FS_SEP] = (pre ++ [c]) ++ cs ++ [FS_SEP] := by simp
    have hp2 : pre ++ c :: cs = (pre ++ [c]) ++ cs := by simp
    have hl1 : pre.length + 1 = (pre ++ [c]).length := by simp
    have hlast1 : ∀ hne : cs ≠ [], cs.getLast hne ≠ FS_SEP := by
      intro hne
      have := hlast (by simp)
      rwa [List.getLast_cons hne] at this
    have hcs_of_sep : c = FS_SEP → cs ≠ [] := by
      intro hc hnil
      subst hnil
      exact hlast (by simp) (by simp [hc])
    rw [List.cons_append]
    simp only [ramfs_lookup_walk]
    by_cases hc : c = FS_SEP
    · subst hc
      have hne := hcs_of_sep rfl
      cases skipping with
      | true =>
        simp only [and_self, if_true]
        rw [hp1, hp2, hl1]
        exact ih (pre ++ [FS_SEP]) boff dir true hnul1 (fun e => absurd e hne) hlast1 hlen1
      | false =>
        have hhd1 : (cs ++ [FS_SEP]).headD NUL ≠ NUL := by
          cases cs with
          | nil => exact absurd rfl hne
          | cons x xs => simp; exact fun e => hnul1 (by simp [e])
        have hhd2 : cs.headD NUL ≠ NUL := by
          cases cs with
          | nil => exact absurd rfl hne
          | cons x xs => simp; exact fun e => hnul1 (by simp [e])
        simp only [Bool.false_eq_true, false_and, if_false, hlen0, hcn, false_or, if_true,
          hhd1, hhd2]
        have hsub : pre ++ FS_SEP :: cs ++ [FS_SEP] = (pre ++ FS_SEP :: cs) ++ [FS_SEP] := by simp
        have hle : pre.length ≤ (pre ++ FS_SEP :: cs).length := by simp
        cases hd : h.directory dir with
        | none => simp
        | some d =>
          have hg := get_inode_by_basename_congr strhash d (pre.length - boff) _ _
            (take_drop_append (pre ++ FS_SEP :: cs) [FS_SEP] boff pre.length hle)
          rw [← hsub] at hg
          simp only [Option.bind_eq_bind, Option.some_bind, hg]
          cases hr : ramfs_get_inode_by_basename strhash d
              (List.drop boff (pre ++ FS_SEP :: cs)) (pre.length - boff) with
          | none => simp
          | some r =>
            obtain ⟨ret, ino⟩ := r
            simp only [Option.some_bind]
            by_cases hret : ret = 0
            · simp only [hret, ne_eq, not_true_eq_false, if_false]
              cases hi : ramfs_idata_by_inode h sb ino with
              | none => simp
              | some idata =>
                simp only [Option.some_bind]
                by_cases hz : idata = 0
                · simp [hz]
                · simp only [hz, if_false]
                  cases hin : h.inode idata with
                  | none => simp
                  | some i =>
                    simp only [Option.some_bind]
                    by_cases hdirm : S_ISDIR i.i_mode = true
                    · simp only [hdirm, not_true_eq_false, if_false]
                      rw [hp1, hp2, hl1]
                      exact ih (pre ++ [FS_SEP]) boff i.i_data true hnul1
                        (fun e => absurd e hne) hlast1 hlen1
                    · simp [hdirm]
            · simp [hret]
    · simp only [hc, and_false, if_false, hlen0, hcn, false_or]
      rw [hp1, hp2, hl1]
      exact ih (pre ++ [c]) _ dir false hnul1 (fun _ => rfl) hlast1 hlen1

/-- C16: for every heap and superblock and every non-empty path `p` without a NUL byte that
does not end in the separator, `ramfs_lookup_inode` on `p` followed by a separator returns
what it returns on `p`: the same code and the same inode number. -/
theorem C16_trailing_separator (strhash : List Char → Nat) (h : Heap) (sb : superblock)
    (p : List Char) (hp : p ≠ []) (hnul : NUL ∉ p) (hlast : p.getLast hp ≠ FS_SEP)
    (hlen : p.length < SIZE_MAX) :
    ramfs_lookup_inode strhash h sb (p ++ [FS_SEP]) SIZE_MAX
      = ramfs_lookup_inode strhash h sb p SIZE_MAX := by
  have h0 : cget p 0 ≠ NUL := by
    cases p with
    | nil => exact absurd rfl hp
    | cons c cs => simp [cget]; exact fun e => hnul (by simp [e])
  have h1 : cget (p ++ [FS_SEP]) 0 ≠ NUL := by
    cases p with
    | nil => exact absurd rfl hp
    | cons c cs => simp [cget]; exact fun e => hnul (by simp [e])
  have hmax : SIZE_MAX ≠ 0 := by decide
  have hw := fun dir => walk_trailing_sep strhash h sb SIZE_MAX p [] 0 dir false hnul
    (fun e => absurd e hp) (fun hne => hlast) (by simpa using hlen)
  simp only [List.nil_append, List.length_nil] at hw
  simp only [ramfs_lookup_inode, h0, h1, hmax, or_self, if_false, hw]

theorem C16_trailing_separator_witness :
    ramfs_lookup_inode djb2 heap_ab sb_ab "a/b".toList SIZE_MAX = some (0, some 3) ∧
    ramfs_lookup_inode djb2 heap_ab sb_ab ("a/b".toList ++ [FS_SEP]) SIZE_MAX
      = ramfs_lookup_inode djb2 heap_ab sb_ab "a/b".toList SIZE_MAX :=
  ⟨by decide!, C16_trailing_separator djb2 heap_ab sb_ab "a/b".toList (by decide) (by decide)
    (by decide) (by decide)⟩

/-! ## Mounting -/

/-- C11: `vfs_mount` with a root mounted returns `ETODO`, with a target other than `/` it
returns -1, with an identifier that no registered driver has it returns -2, and it leaves
the memory as it was in these cases; whenever it returns, the code is 0 exactly when no root
was mounted, the target is `/`, a registered driver has the identifier and its
`read_superblock` returns 0; with code 0 the new superblock is the root, with any other code
`theRootMnt` is unchanged. -/
theorem C11_vfs_mount (s : Vfs) (source fs_id : Nat) (target : List Char) :
    (s.theRootMnt ≠ 0 → vfs_mount s source target fs_id = some (s, ETODO)) ∧
    (s.theRootMnt = 0 → (cget target 0 ≠ FS_SEP ∨ cget target 1 ≠ NUL) →
      vfs_mount s source target fs_id = some (s, -1)) ∧
    (s.theRootMnt = 0 → cget target 0 = FS_SEP → cget target 1 = NUL →
      vfs_fs_by_id s fs_id = some 0 → vfs_mount s source target fs_id = some (s, -2)) ∧
    (∀ s1 ret, vfs_mount s source target fs_id = some (s1, ret) →
      (ret = 0 ↔ s.theRootMnt = 0 ∧ cget target 0 = FS_SEP ∧ cget target 1 = NUL ∧
        ∃ fs d rs h1 sb1, fs ≠ 0 ∧ vfs_fs_by_id s fs_id = some fs ∧ s.driver fs = some d ∧
          d.ops.read_superblock = some rs ∧
          rs s.heap (vfs_mount_sb source fs) = some (h1, sb1, 0)) ∧
      (ret = 0 → s1.theRootMnt ≠ 0 ∧ s1.theRootMnt = s.mounts.length + 1 ∧
        (s1.mount s1.theRootMnt).isSome = true) ∧
      (ret ≠ 0 → s1.theRootMnt = s.theRootMnt)) := by
  have hE : ETODO ≠ 0 := by decide
  refine ⟨?_, ?_, ?_, ?_⟩
  · intro h
    simp [vfs_mount, h]
  · intro h ht
    simp only [vfs_mount, h, if_true, ht]
  · intro h h0 h1 hfs
    simp [vfs_mount, h, h0, h1, hfs]
  · intro s1 ret hm
    by_cases hroot : s.theRootMnt = 0
    · by_cases ht : cget target 0 ≠ FS_SEP ∨ cget target 1 ≠ NUL
      · simp only [vfs_mount, hroot, if_true, ht] at hm
        have h1 : s1 = s := by
          have := congrArg (fun o => o.map Prod.fst) hm
          simpa using this.symm
        have h2 : ret = -1 := by
          have := congrArg (fun o => o.map Prod.snd) hm
          simpa using this.symm
        subst h1; subst h2
        refine ⟨⟨fun h => absurd h (by decide), ?_⟩, fun h => absurd h (by decide), fun _ => rfl⟩
        rintro ⟨-, h0, h1, -⟩
        cases ht with
        | inl a => exact absurd h0 a
        | inr a => exact absurd h1 a
      · have ht0 : cget target 0 = FS_SEP := by
          by_contra hc; exact ht (Or.inl hc)
        have ht1 : cget target 1 = NUL := by
          by_contra hc; exact ht (Or.inr hc)
        simp only [vfs_mount, hroot, if_true, ht, if_false] at hm
        cases hfs : vfs_fs_by_id s fs_id with
        | none => simp [hfs] at hm
        | some fs =>
          simp only [hfs, Option.bind_eq_bind, Option.some_bind] at hm
          by_cases hz : fs = 0
          · simp only [hz, if_true] at hm
            have h1 : s1 = s := by
              have := congrArg (fun o => o.map Prod.fst) hm
              simpa using this.symm
            have h2 : ret = -2 := by
              have := congrArg (fun o => o.map Prod.snd) hm
              simpa using this.symm
            subst h1; subst h2
            refine ⟨⟨fun h => absurd h (by decide), ?_⟩, fun h => absurd h (by decide),
              fun _ => rfl⟩
            rintro ⟨-, -, -, fs1, d, rs, h1, sb1, hne, hfs1, -⟩
            have e1 : fs1 = fs := (Option.some.inj hfs1).symm
            exact absurd (e1.trans hz) hne
          · simp only [hz, if_false] at hm
            cases hd : s.driver fs with
            | none => simp [hd] at hm
            | some d =>
              simp only [hd, Option.some_bind] at hm
              cases hrs : d.ops.read_superblock with
              | none => simp [hrs] at hm
              | some rs =>
                simp only [hrs, Option.some_bind] at hm
                cases hr : rs s.heap (vfs_mount_sb source fs) with
                | none => simp [hr] at hm
                | some r =>
                  obtain ⟨h1, sb1, r0⟩ := r
                  simp only [hr, Option.some_bind] at hm
                  by_cases hr0 : r0 = 0
                  · subst hr0
                    simp only [ne_eq, not_true_eq_false, if_false, Option.some.injEq,
                      Prod.mk.injEq] at hm
                    obtain ⟨hs1, hret⟩ := hm
                    subst hs1; subst hret
                    refine ⟨⟨fun _ => ⟨hroot, ht0, ht1, fs, d, rs, h1, sb1, hz, rfl, hd, hrs, hr⟩,
                      fun _ => rfl⟩, fun _ => ⟨by simp, rfl, by simp [Vfs.mount]⟩,
                      fun h => absurd rfl h⟩
                  · simp only [ne_eq, hr0, not_false_eq_true, if_true, Option.some.injEq,
                      Prod.mk.injEq] at hm
                    obtain ⟨hs1, hret⟩ := hm
                    subst hs1; subst hret
                    refine ⟨⟨fun h => absurd h (by decide), ?_⟩, fun h => absurd h (by decide),
                      fun _ => by simp [hroot]⟩
                    rintro ⟨-, -, -, fs1, d1, rs1, h11, sb11, -, hfs1, hd1, hrs1, hr1⟩
                    have e1 : fs1 = fs := (Option.some.inj hfs1).symm
                    subst e1
                    rw [hd] at hd1
                    have e2 : d1 = d := (Option.some.inj hd1).symm
                    subst e2
                    rw [hrs] at hrs1
                    have e3 : rs1 = rs := (Option.some.inj hrs1).symm
                    subst e3
                    rw [hr] at hr1
                    have := (Prod.mk.inj (Prod.mk.inj (Option.some.inj hr1)).2).2
                    exact absurd this hr0
    · simp only [vfs_mount, hroot, if_false] at hm
      have h1 : s1 = s := by
        have := congrArg (fun o => o.map Prod.fst) hm
        simpa using this.symm
      have h2 : ret = ETODO := by
        have := congrArg (fun o => o.map Prod.snd) hm
        simpa using this.symm
      subst h1; subst h2
      exact ⟨⟨fun h => absurd h hE, fun h => absurd h.1 hroot⟩, fun h => absurd h hE, fun _ => rfl⟩

theorem C11_vfs_mount_witness :
    vfs_mount vfs_registered 0 "/x".toList RAMFS_ID = some (vfs_registered, -1) ∧
    vfs_mount vfs_registered 0 "/".toList 7 = some (vfs_registered, -2) ∧
    vfs_mount vfs_a 0 "/".toList RAMFS_ID = some (vfs_a, ETODO) ∧
    ((vfs_mount vfs_registered 0 "/".toList RAMFS_ID).map (fun r => (r.2, r.1.theRootMnt))
      = some (0, 1)) :=
  ⟨(C11_vfs_mount vfs_registered 0 RAMFS_ID "/x".toList).2.1 (by decide!) (by decide),
   (C11_vfs_mount vfs_registered 0 7 "/".toList).2.2.1 (by decide!) (by decide) (by decide)
     (by decide!),
   (C11_vfs_mount vfs_a 0 RAMFS_ID "/".toList).1 (by decide!),
   by decide!⟩


/-! ## The heap -/

theorem cell_store (h : Heap) (p q : Nat) (o : Obj) :
    (h.store p o).cell q = if q = p ∧ (h.cell p).isSome then some o else h.cell q := by
  cases p with
  | zero => simp [Heap.store, Heap.cell]
  | succ a =>
    cases q with
    | zero => simp [Heap.store, Heap.cell]
    | succ b =>
      simp only [Heap.store, Heap.cell, List.get?_eq_getElem?, List.getElem?_set,
        Nat.succ.injEq]
      by_cases hab : a = b
      · subst hab
        by_cases hlt : a < h.length
        · simp [hlt]
        · simp [hlt, List.getElem?_eq_none (Nat.le_of_not_lt hlt)]
      · have hba : ¬ b = a := fun e => hab e.symm
        simp [hab, hba]

theorem cell_store_ne (h : Heap) (p q : Nat) (o : Obj) (hq : q ≠ p) :
    (h.store p o).cell q = h.cell q := by
  simp [cell_store, hq]

theorem cell_store_same (h : Heap) (p : Nat) (o o1 : Obj) (hp : h.cell p = some o1) :
    (h.store p o).cell p = some o := by
  simp [cell_store, hp]

theorem length_store (h : Heap) (p : Nat) (o : Obj) : (h.store p o).length = h.length := by
  cases p with
  | zero => rfl
  | succ a => simp [Heap.store]

theorem cell_kmalloc_old (h : Heap) (o : Obj) (p : Nat) (hp : p ≤ h.length) :
    (kmalloc h o).1.cell p = h.cell p := by
  cases p with
  | zero => rfl
  | succ a =>
    simp only [kmalloc, Heap.cell, List.get?_eq_getElem?]
    exact List.getElem?_append_left (by omega)

theorem cell_kmalloc_new (h : Heap) (o : Obj) :
    (kmalloc h o).1.cell (kmalloc h o).2 = some o := by
  simp [kmalloc, Heap.cell]

theorem cell_lt (h : Heap) (p : Nat) (o : Obj) (hp : h.cell p = some o) :
    0 < p ∧ p ≤ h.length := by
  cases p with
  | zero => simp [Heap.cell] at hp
  | succ a =>
    simp only [Heap.cell, List.get?_eq_getElem?] at hp
    have := (List.getElem?_eq_some_iff.1 hp).1
    omega

theorem node_eq (h : Heap) (p : Nat) (b : btree_node) :
    h.node p = some b ↔ h.cell p = some (Obj.bnode b) := by
  unfold Heap.node
  cases hc : h.cell p with
  | none => simp
  | some o => cases o <;> simp

theorem inode_eq (h : Heap) (p : Nat) (i : inode) :
    h.inode p = some i ↔ h.cell p = some (Obj.ino i) := by
  unfold Heap.inode
  cases hc : h.cell p with
  | none => simp
  | some o => cases o <;> simp

theorem directory_eq (h : Heap) (p : Nat) (d : ramfs_directory) :
    h.directory p = some d ↔ h.cell p = some (Obj.dir d) := by
  unfold Heap.directory
  cases hc : h.cell p with
  | none => simp
  | some o => cases o <;> simp

theorem ramfs_data_eq (h : Heap) (p r : Nat) :
    h.ramfs_data p = some r ↔ h.cell p = some (Obj.rdata r) := by
  unfold Heap.ramfs_data
  cases hc : h.cell p with
  | none => simp
  | some o => cases o <;> simp


/-! ## The inode index -/

theorem grows_refl (h : Heap) : h.grows h :=
  ⟨le_refl _, fun _ _ hc _ => hc, fun _ b hb => ⟨b, hb, rfl, rfl, rfl, fun _ _ hk _ => hk⟩⟩

theorem grows_trans (h h1 h2 : Heap) (a : h.grows h1) (b : h1.grows h2) : h.grows h2 := by
  refine ⟨le_trans a.1 b.1, ?_, ?_⟩
  · intro p o hc ho
    exact b.2.1 p o (a.2.1 p o hc ho) ho
  · intro p n hn
    obtain ⟨n1, hn1, l1, f1, c1, k1⟩ := a.2.2 p n hn
    obtain ⟨n2, hn2, l2, f2, c2, k2⟩ := b.2.2 p n1 hn1
    exact ⟨n2, hn2, l2.trans l1, f2.trans f1, c2.trans c1,
      fun k c hk hc => k2 k c (k1 k c hk hc) hc⟩

theorem grows_store_node (h : Heap) (p : Nat) (b b1 : btree_node) (hb : h.node p = some b)
    (hl : b1.bt_level = b.bt_level) (hf : b1.bt_fanout = b.bt_fanout)
    (hc : b1.bt_children.length = b.bt_children.length)
    (hk : ∀ (k c : Nat), b.bt_children[k]? = some c → c ≠ 0 → b1.bt_children[k]? = some c) :
    h.grows (h.store p (Obj.bnode b1)) := by
  have hbc := (node_eq h p b).1 hb
  refine ⟨by rw [length_store], ?_, ?_⟩
  · intro q o hq ho
    by_cases hqp : q = p
    · subst hqp
      rw [hbc] at hq
      exact absurd (Option.some.inj hq).symm (ho b)
    · rw [cell_store_ne h p q _ hqp]; exact hq
  · intro q n hn
    by_cases hqp : q = p
    · subst hqp
      rw [hb] at hn
      have e : n = b := (Option.some.inj hn).symm
      subst e
      exact ⟨b1, (node_eq _ _ _).2 (cell_store_same h q _ _ hbc), hl, hf, hc, hk⟩
    · refine ⟨n, ?_, rfl, rfl, rfl, fun _ _ hk _ => hk⟩
      rw [node_eq] at hn ⊢
      rw [cell_store_ne h p q _ hqp]; exact hn

theorem first_null_spec (children : List Nat) (n : Nat) :
    ∀ (j i : Nat), first_null children n j = some (some i) → children[i]? = some 0 := by
  induction n with
  | zero => intro j i h; simp [first_null] at h
  | succ n ih =>
    intro j i h
    simp only [first_null, List.get?_eq_getElem?] at h
    cases hc : children[j]? with
    | none => simp [hc] at h
    | some c =>
      simp only [hc] at h
      by_cases hz : c = 0
      · simp only [hz, if_true, Option.some.injEq] at h
        subst h; rw [hc, hz]
      · simp only [hz, if_false] at h
        exact ih (j + 1) i h

theorem grows_set_slot (h : Heap) (p : Nat) (b : btree_node) (i v u : Nat)
    (hb : h.node p = some b) (hi : b.bt_children[i]? = some 0) :
    h.grows (h.store p (Obj.bnode { b with bt_used := u, bt_children := b.bt_children.set i v })) := by
  apply grows_store_node h p b
    { b with bt_used := u, bt_children := b.bt_children.set i v } hb rfl rfl (by simp)
  intro k c hk hc
  by_cases hki : k = i
  · subst hki
    rw [hi] at hk
    exact absurd (Option.some.inj hk).symm hc
  · rw [List.getElem?_set_ne (fun e => hki e.symm)]
    exact hk

theorem grows_set_leaf_loop (call : Heap → Nat → Option (Heap × Nat)) (bnode fanout : Nat)
    (hcall : ∀ h c h1 r, call h c = some (h1, r) → h.grows h1) (n : Nat) :
    ∀ (i : Nat) (h h1 : Heap) (res : Nat),
      btree_set_leaf_loop call bnode fanout n i h = some (h1, res) → h.grows h1 := by
  induction n with
  | zero =>
    intro i h h1 res hs
    simp only [btree_set_leaf_loop, Option.some.injEq, Prod.mk.injEq] at hs
    rw [← hs.1]; exact grows_refl h
  | succ n ih =>
    intro i h h1 res hs
    simp only [btree_set_leaf_loop, Option.bind_eq_bind, List.get?_eq_getElem?] at hs
    cases hb : h.node bnode with
    | none => simp [hb] at hs
    | some b =>
      simp only [hb, Option.some_bind] at hs
      cases hc : b.bt_children[i]? with
      | none => simp [hc] at hs
      | some bchild =>
        simp only [hc, Option.some_bind] at hs
        by_cases hz : bchild = 0
        · simp only [hz, if_true] at hs
          exact ih (i + 1) h h1 res hs
        · simp only [hz, if_false] at hs
          cases hcl : call h bchild with
          | none => simp [hcl] at hs
          | some r =>
            obtain ⟨h2, r2⟩ := r
            simp only [hcl, Option.some_bind] at hs
            have g1 := hcall h bchild h2 r2 hcl
            by_cases hpos : 0 < toInt r2
            · simp only [hpos, if_true] at hs
              cases hb1 : h2.node bnode with
              | none => simp [hb1] at hs
              | some b1 =>
                simp only [hb1, Option.some_bind, Option.some.injEq, Prod.mk.injEq] at hs
                rw [← hs.1]; exact g1
            · simp only [hpos, if_false] at hs
              exact grows_trans _ _ _ g1 (ih (i + 1) h2 h1 res hs)

theorem grows_set_leaf_aux (idata : Nat) (fuel : Nat) :
    ∀ (h : Heap) (bnode : Nat) (h1 : Heap) (res : Nat),
      btree_set_leaf_aux idata fuel h bnode = some (h1, res) → h.grows h1 := by
  induction fuel with
  | zero => intro h bnode h1 res hs; simp [btree_set_leaf_aux] at hs
  | succ fuel ih =>
    intro h bnode h1 res hs
    simp only [btree_set_leaf_aux, Option.bind_eq_bind] at hs
    cases hb : h.node bnode with
    | none => simp [hb] at hs
    | some b =>
      simp only [hb, Option.some_bind] at hs
      by_cases hl : b.bt_level = 0
      · rw [if_pos hl] at hs
        by_cases hu : b.bt_used < b.bt_fanout
        · simp only [hu, if_true] at hs
          cases hf : first_null b.bt_children b.bt_fanout 0 with
          | none => simp [hf] at hs
          | some r =>
            simp only [hf, Option.some_bind] at hs
            cases r with
            | none =>
              simp only [Option.some.injEq, Prod.mk.injEq] at hs
              rw [← hs.1]; exact grows_refl h
            | some i =>
              simp only [Option.some.injEq, Prod.mk.injEq] at hs
              rw [← hs.1]
              exact grows_set_slot h bnode b i idata _ hb (first_null_spec _ _ 0 i hf)
        · simp only [hu, if_false, Option.some.injEq, Prod.mk.injEq] at hs
          rw [← hs.1]; exact grows_refl h
      · simp only [hl, if_false] at hs
        exact grows_set_leaf_loop _ bnode b.bt_fanout (fun h c h1 r => ih h c h1 r)
          b.bt_fanout 0 h h1 res hs

theorem grows_set_leaf (h : Heap) (bnode idata : Nat) (h1 : Heap) (res : Nat)
    (hs : btree_set_leaf h bnode idata = some (h1, res)) : h.grows h1 :=
  grows_set_leaf_aux idata _ h bnode h1 res hs


theorem grows_of_agree (h h1 : Heap) (hl : h.length ≤ h1.length)
    (ha : ∀ p, p ≤ h.length → h1.cell p = h.cell p) : h.grows h1 := by
  refine ⟨hl, ?_, ?_⟩
  · intro p o hc _
    rw [ha p (cell_lt h p o hc).2]; exact hc
  · intro p b hb
    refine ⟨b, ?_, rfl, rfl, rfl, fun _ _ hk _ => hk⟩
    rw [node_eq] at hb ⊢
    rw [ha p (cell_lt h p _ hb).2]; exact hb

theorem grow_down_spec (fanout nr : Nat) (lvl : Nat) :
    ∀ (h : Heap) (old_root res : Nat) (h1 : Heap) (res1 : Nat),
      btree_grow_down fanout nr lvl h old_root res = some (h1, res1) →
      nr ≤ h.length → (old_root ≠ 0 → nr < old_root) →
      h.length ≤ h1.length ∧ (∀ p, p < nr → h1.cell p = h.cell p) ∧
      (∀ b, h.node nr = some b → ∃ b1, h1.node nr = some b1 ∧ b1.bt_level = b.bt_level ∧
        b1.bt_fanout = b.bt_fanout ∧ b1.bt_children[0]? = b.bt_children[0]?) := by
  induction lvl with
  | zero =>
    intro h old_root res h1 res1 hg _ _
    simp only [btree_grow_down, Option.some.injEq, Prod.mk.injEq] at hg
    rw [← hg.1]
    exact ⟨le_refl _, fun _ _ => rfl, fun b hb => ⟨b, hb, rfl, rfl, rfl⟩⟩
  | succ lvl ih =>
    intro h old_root res h1 res1 hg hnr hold
    simp only [btree_grow_down, btree_new, Option.bind_eq_bind] at hg
    have hkl : (kmalloc h (Obj.bnode ⟨0, fanout, 0, List.replicate fanout 0⟩)).1.length
        = h.length + 1 := by simp [kmalloc]
    have hk2 : (kmalloc h (Obj.bnode ⟨0, fanout, 0, List.replicate fanout 0⟩)).2
        = h.length + 1 := rfl
    have hkc : ∀ p, p ≤ h.length →
        (kmalloc h (Obj.bnode ⟨0, fanout, 0, List.replicate fanout 0⟩)).1.cell p = h.cell p :=
      fun p hp => cell_kmalloc_old h _ p hp
    by_cases ho : old_root = 0
    · simp only [ho, ne_eq, not_true_eq_false, if_false] at hg
      cases hr : (kmalloc h (Obj.bnode ⟨0, fanout, 0, List.replicate fanout 0⟩)).1.node nr with
      | none => simp [hr] at hg
      | some r =>
        simp only [hr, Option.some_bind] at hg
        by_cases hlen : r.bt_children.length < 2
        · simp [hlen] at hg
        · simp only [hlen, if_false] at hg
          obtain ⟨i1, i2, i3⟩ := ih _ _ _ h1 res1 hg (by rw [length_store, hkl]; omega)
            (fun _ => by rw [hk2]; omega)
          rw [length_store, hkl] at i1
          have hrc := (node_eq _ _ _).1 hr
          refine ⟨by omega, ?_, ?_⟩
          · intro p hp
            rw [i2 p hp, cell_store_ne _ _ _ _ (by omega), hkc p (by omega)]
          · intro b hb
            have hb1 : r = b := by
              rw [node_eq, hkc nr hnr] at hr
              rw [node_eq, hr] at hb
              exact Obj.bnode.inj (Option.some.inj hb)
            subst hb1
            obtain ⟨b1, hb1, l1, f1, c1⟩ := i3 _ ((node_eq _ _ _).2 (cell_store_same _ nr _ _ hrc))
            refine ⟨b1, hb1, l1, f1, ?_⟩
            rw [c1]
            simp
    · simp only [ho, ne_eq, not_false_eq_true, if_true] at hg
      have hlt := hold ho
      cases hr : (kmalloc h (Obj.bnode ⟨0, fanout, 0, List.replicate fanout 0⟩)).1.node old_root with
      | none => simp [hr] at hg
      | some r =>
        simp only [hr, Option.some_bind] at hg
        by_cases hlen : r.bt_children.length < 1
        · simp [hlen] at hg
        · simp only [hlen, if_false] at hg
          obtain ⟨i1, i2, i3⟩ := ih _ _ _ h1 res1 hg (by rw [length_store, hkl]; omega)
            (fun _ => by rw [hk2]; omega)
          rw [length_store, hkl] at i1
          refine ⟨by omega, ?_, ?_⟩
          · intro p hp
            rw [i2 p hp, cell_store_ne _ _ _ _ (by omega), hkc p (by omega)]
          · intro b hb
            apply i3 b
            rw [node_eq] at hb ⊢
            rw [cell_store_ne _ _ _ _ (by omega), hkc nr hnr]
            exact hb

theorem toInt_pos_ne_zero (res : Nat) (h : 0 < toInt res) : res ≠ 0 := by
  intro e
  subst e
  simp [toInt, wrap, SIZE_MOD] at h

theorem new_leaf_cases (h : Heap) (root idata : Nat) (h1 : Heap) (root1 res : Nat)
    (hn : btree_new_leaf h root idata = some (h1, root1, res)) :
    h.grows h1 ∧
    ((root1 = root ∧ 0 < toInt res ∧ btree_set_leaf h root idata = some (h1, res)) ∨
     (∃ b nb, h.node root = some b ∧ h.length < root1 ∧ h1.node root1 = some nb ∧
        nb.bt_level = b.bt_level + 1 ∧ nb.bt_fanout = b.bt_fanout ∧
        nb.bt_children[0]? = some root ∧ 0 < b.bt_fanout)) := by
  simp only [btree_new_leaf, Option.bind_eq_bind] at hn
  cases hs : btree_set_leaf h root idata with
  | none => simp [hs] at hn
  | some sr =>
    obtain ⟨h2, res2⟩ := sr
    simp only [hs, Option.some_bind] at hn
    have g1 := grows_set_leaf h root idata h2 res2 hs
    by_cases hpos : 0 < toInt res2
    · simp only [hpos, if_true, Option.some.injEq, Prod.mk.injEq] at hn
      obtain ⟨e1, e2, e3⟩ := hn
      subst e1; subst e2; subst e3
      exact ⟨g1, Or.inl ⟨rfl, hpos, rfl⟩⟩
    · simp only [hpos, if_false] at hn
      cases hb2 : h2.node root with
      | none => simp [hb2] at hn
      | some b2 =>
        have hb : ∃ b, h.node root = some b ∧ b2.bt_level = b.bt_level ∧
            b2.bt_fanout = b.bt_fanout := by
          have hlen := g1.1
          cases hbo : h.node root with
          | some b =>
            obtain ⟨b3, hb3, l3, f3, -, -⟩ := g1.2.2 root b hbo
            rw [hb2] at hb3
            have e : b2 = b3 := Option.some.inj hb3
            subst e
            exact ⟨b, rfl, l3, f3⟩
          | none =>
            exfalso
            simp only [btree_set_leaf] at hs
            cases hfu : h.length + 1 with
            | zero => omega
            | succ k =>
              rw [hfu] at hs
              simp [btree_set_leaf_aux, hbo] at hs
        obtain ⟨b, hbo, hl2, hf2⟩ := hb
        simp only [hb2, Option.some_bind, btree_new] at hn
        have hnew : (kmalloc h2 (Obj.bnode ⟨0, b2.bt_fanout, 0, List.replicate b2.bt_fanout 0⟩)).1.node
            (kmalloc h2 (Obj.bnode ⟨0, b2.bt_fanout, 0, List.replicate b2.bt_fanout 0⟩)).2
            = some ⟨0, b2.bt_fanout, 0, List.replicate b2.bt_fanout 0⟩ :=
          (node_eq _ _ _).2 (cell_kmalloc_new _ _)
        simp only [hnew, Option.some_bind] at hn
        by_cases hlen : (List.replicate b2.bt_fanout 0).length < 1
        · rw [if_pos hlen] at hn
          exact absurd hn (by simp)
        · rw [if_neg hlen] at hn
          obtain ⟨gr, hgd, hn⟩ := Option.bind_eq_some.1 hn
          obtain ⟨h4, res4⟩ := gr
          simp only [Option.some.injEq, Prod.mk.injEq] at hn
          obtain ⟨e1, e2, -⟩ := hn
          subst e1; subst e2
          have hnr : (kmalloc h2 (Obj.bnode ⟨0, b2.bt_fanout, 0, List.replicate b2.bt_fanout 0⟩)).2
              = h2.length + 1 := rfl
          rw [hnr] at hgd ⊢
          obtain ⟨s1, s2, s3⟩ := grow_down_spec _ _ _ _ _ _ _ _ hgd
            (by rw [length_store]; simp [kmalloc]) (fun e => absurd rfl e)
          rw [length_store] at s1
          have hk1 : (kmalloc h2 (Obj.bnode ⟨0, b2.bt_fanout, 0,
              List.replicate b2.bt_fanout 0⟩)).1.length = h2.length + 1 := by simp [kmalloc]
          rw [hk1] at s1
          have g2 : h2.grows h4 := by
            apply grows_of_agree _ _ (by omega)
            intro p hp
            rw [s2 p (by omega), cell_store_ne _ _ _ _ (by omega), cell_kmalloc_old _ _ p hp]
          have g : h.grows h4 := grows_trans _ _ _ g1 g2
          obtain ⟨nb, hnb, nl, nf, nc⟩ := s3 _
            ((node_eq _ _ _).2 (cell_store_same _ _ _ _ (cell_kmalloc_new _ _)))
          simp only at nl nf nc
          have hfpos : 0 < b.bt_fanout := by
            rw [hf2] at hlen
            simp at hlen
            omega
          have hc0 : nb.bt_children[0]? = some root := by
            rw [nc]
            simp [List.getElem?_set, hf2, hfpos]
          have := g1.1
          exact ⟨g, Or.inr ⟨b, nb, hbo, by omega, hnb, by rw [nl, hl2], by rw [nf, hf2], hc0, hfpos⟩⟩

/-- C2: with fanout 4, the fourth `btree_new_leaf` after the sentinel grows the tree and
returns index 4, and `btree_get_index` at index 4 then returns `NULL` instead of the record
(the record at address 6); the three earlier records are found. -/
theorem C2_grown_record_lost :
    btree_lookups 4 4 = some [(6, some 0), (5, some 5), (4, some 4), (3, some 3)] := by
  decide!

/-- C3: in a tree of fanout 2 and level 30 whose one leaf is full, index 1 holds the record
at address 2; `btree_new_leaf` grows the root to level 31, and `btree_get_index` then returns
`NULL` at index 1. -/
theorem C3_lookup_lost_at_overflow : btree_path_lookups = (some 2, some (some 0)) := by
  decide!

/-- C5: after 63 calls of `ramfs_make_node`, `ramfs_make_directory` on `x` returns 0 with
inode number 4096, and `ramfs_make_directory` on `x/y` returns 0 with inode number 0. -/
theorem C5_mkdir_reports_zero : run_mkdir_grown = some ((0, 4096), (0, 0)) := by
  decide!

/-- C6: `vfs_mkdir("/x", 0755)` twice returns 0 both times, not `EEXIST` the second time;
the lookup of `x` still gives inode 2. -/
theorem C6_mkdir_twice :
    run_mkdir_twice.map (fun x => x.2) = some [0, 0] ∧
    lookup_after djb2 run_mkdir_twice "x".toList = some (0, some 2) := by
  constructor <;> decide!

/-- C7: after `vfs_mkdir("/x", 0755)` the table of `x` has the entry `.` for inode 2 and no
entry `..`; and the walk over `/dev` after `mknod("/dev/tty0")` lists `.` and `tty0` only. -/
theorem C7_no_dotdot :
    lookup_after djb2 run_mkdir_twice "x/.".toList = some (0, some 2) ∧
    lookup_after djb2 run_mkdir_twice "x/..".toList = some (ENOENT, some 0) ∧
    walk_after (run_tty djb2) 2 = some [(['.'], 2), ("tty0".toList, 3)] := by
  refine ⟨?_, ?_, ?_⟩ <;> decide!

/-- C8: after `vfs_mknod("/f", 0, 0)` one directory entry refers to inode 2 and its
`i_nlinks` is 2. -/
theorem C8_nlinks_twice :
    run_mknod.map (fun x => count_links x.1.heap 2) = some 1 ∧
    (stat_after run_mknod "/f".toList).map (fun r => r.2.map (fun s => s.st_nlink))
      = some (some 2) := by
  constructor <;> decide!

/-- C9: after `vfs_mknod("/x", S_IFCHR | 0600, 7)`, `vfs_mkdir("/x", 0755)` returns 0, and
`vfs_stat("/x")` gives the mode of the device node, which is not a directory. -/
theorem C9_mkdir_over_node :
    run_mknod_mkdir.map (fun x => x.2) = some [0, 0] ∧
    (stat_after run_mknod_mkdir "/x".toList).map
      (fun r => (r.1, r.2.map (fun s => (s.st_mode, S_ISDIR s.st_mode))))
      = some (0, some (S_IFCHR ||| 384, false)) := by
  constructor <;> decide!

/-- C13: under a hash function for which `tty0x` and `tty0` collide, after
`vfs_mknod("/tty0x", 0, 0)` the call `vfs_mknod("/tty0", S_IFCHR | 0600, makedev(4, 0))`
returns 0, and `vfs_stat("/tty0")` gives inode 2, the regular file, with `st_rdev` 0. -/
theorem C13_stat_finds_other_node :
    run_collide.map (fun x => x.2) = some [0, 0] ∧
    (stat_after run_collide "/tty0".toList).map
      (fun r => (r.1, r.2.map (fun s => (s.st_ino, s.st_rdev))))
      = some (0, some (2, 0)) ∧
    gnu_dev_makedev 4 0 ≠ 0 := by
  refine ⟨?_, ?_, ?_⟩ <;> decide!

/-- C15: with directories `a` and `a/b`, `vfs_stat` finds inode 3 at `/a/b` and at `/a//b`
and fails with `ENOENT` at `//a/b/`. -/
theorem C15_leading_separator :
    (stat_after run_ab "/a/b".toList).map (fun r => (r.1, r.2.map (fun s => s.st_ino)))
      = some (0, some 3) ∧
    (stat_after run_ab "/a//b".toList).map (fun r => (r.1, r.2.map (fun s => s.st_ino)))
      = some (0, some 3) ∧
    stat_after run_ab "//a/b/".toList = some (ENOENT, none) := by
  refine ⟨?_, ?_, ?_⟩ <;> decide!

/-- C17: with the device node `/dev/tty0`, `ramfs_lookup_inode` on `dev/tty0/` returns 0
and inode 3, whose mode is that of a character device. -/
theorem C17_trailing_slash_on_node :
    lookup_after djb2 (run_tty djb2) "dev/tty0/".toList = some (0, some 3) ∧
    (stat_after (run_tty djb2) "/dev/tty0".toList).map
      (fun r => r.2.map (fun s => (s.st_ino, S_ISDIR s.st_mode, S_ISCHR s.st_mode)))
      = some (some (3, false, true)) := by
  constructor <;> decide!

/-- C19: under a hash function for which the names collide, a table whose one entry is
`foobar` answers the lookup of `foo` with length 3 with that entry, and a table whose one
entry is `foo` answers the lookup of the buffer `foo\0bar` with length 7 with it. -/
theorem C19_prefix_match :
    (dir_single hash_zero "foobar".toList).bind
      (fun d => ramfs_get_inode_by_basename hash_zero d "foo".toList 3) = some (0, 5) ∧
    (dir_single hash_zero "foo".toList).bind
      (fun d => ramfs_get_inode_by_basename hash_zero d foo_nul_bar 7) = some (0, 5) := by
  constructor <;> decide!

/-- C20: under a hash function that maps every name to 0, the walk over the root directory,
which holds `..`, `.` and `dev`, ends after the entry `..`; under one that maps every name to
5, the walk does not end within 16 calls. -/
theorem C20_walk_cut_short :
    walk_after (run_tty hash_zero) 1 = some [("..".toList, 1)] ∧
    walk_after (run_tty (fun _ => 5)) 1 = none ∧
    walk_after (run_tty djb2) 1 = some [("..".toList, 1), (['.'], 1), ("dev".toList, 2)] := by
  refine ⟨?_, ?_, ?_⟩ <;> decide!


/-! ## Inode records across driver operations -/

theorem inode_store_other (h : Heap) (p q : Nat) (o : Obj) (i : inode)
    (hq : h.inode q = some i) (hne : q ≠ p) : (h.store p o).inode q = some i := by
  rw [inode_eq] at hq ⊢
  rw [cell_store_ne h p q o hne]; exact hq

theorem mode_kept_new_entry (strhash : List Char → Nat) (h : Heap) (dir : Nat)
    (name : List Char) (idata : Nat) (h1 : Heap) (ret : Int)
    (he : ramfs_directory_new_entry strhash h dir name idata = some (h1, ret)) :
    ∀ p i, h.inode p = some i → ∃ i1, h1.inode p = some i1 ∧ i1.i_mode = i.i_mode := by
  intro p i hp
  simp only [ramfs_directory_new_entry, Option.bind_eq_bind] at he
  obtain ⟨i0, hi0, he⟩ := Option.bind_eq_some.1 he
  obtain ⟨d, hd, he⟩ := Option.bind_eq_some.1 he
  obtain ⟨r, hr, he⟩ := Option.bind_eq_some.1 he
  obtain ⟨d1, ret1⟩ := r
  by_cases hret : ret1 ≠ 0
  · rw [if_pos hret] at he
    simp only [Option.some.injEq, Prod.mk.injEq] at he
    rw [← he.1]; exact ⟨i, hp, rfl⟩
  · rw [if_neg hret] at he
    obtain ⟨i1, hi1, he⟩ := Option.bind_eq_some.1 he
    simp only [Option.some.injEq, Prod.mk.injEq] at he
    rw [← he.1]
    have hdc := (directory_eq _ _ _).1 hd
    have hpd : p ≠ dir := by
      intro e
      rw [e, inode_eq, hdc] at hp
      simp at hp
    have hp1 : (h.store dir (Obj.dir d1)).inode p = some i := inode_store_other h dir p _ i hp hpd
    by_cases hpi : p = idata
    · subst hpi
      rw [hp1] at hi1
      have e : i1 = i := (Option.some.inj hi1).symm
      subst e
      refine ⟨_, (inode_eq _ _ _).2 (cell_store_same _ p _ _ ((inode_eq _ _ _).1 hp1)), rfl⟩
    · exact ⟨i, inode_store_other _ idata p _ i hp1 hpi, rfl⟩

theorem mode_kept_link_inode (strhash : List Char → Nat) (h : Heap) (sb : superblock)
    (ino dirino : Nat) (name : List Char) (namelen : Nat) (h1 : Heap) (ret : Int)
    (hl : ramfs_link_inode strhash h sb ino dirino name namelen = some (h1, ret)) :
    ∀ p i, h.inode p = some i → ∃ i1, h1.inode p = some i1 ∧ i1.i_mode = i.i_mode := by
  intro p i hp
  simp only [ramfs_link_inode, Option.bind_eq_bind] at hl
  by_cases hlen : UCHAR_MAX ≤ (strncpy name namelen).length
  · simp [hlen] at hl
  · rw [if_neg hlen] at hl
    obtain ⟨dir_idata, _, hl⟩ := Option.bind_eq_some.1 hl
    by_cases h1z : dir_idata = 0
    · rw [if_pos h1z] at hl
      simp only [Option.some.injEq, Prod.mk.injEq] at hl
      rw [← hl.1]; exact ⟨i, hp, rfl⟩
    · rw [if_neg h1z] at hl
      obtain ⟨di, _, hl⟩ := Option.bind_eq_some.1 hl
      by_cases hdm : ¬ S_ISDIR di.i_mode = true
      · rw [if_pos hdm] at hl
        simp only [Option.some.injEq, Prod.mk.injEq] at hl
        rw [← hl.1]; exact ⟨i, hp, rfl⟩
      · rw [if_neg hdm] at hl
        by_cases hdz : di.i_data = 0
        · rw [if_pos hdz] at hl
          simp only [Option.some.injEq, Prod.mk.injEq] at hl
          rw [← hl.1]; exact ⟨i, hp, rfl⟩
        · rw [if_neg hdz] at hl
          obtain ⟨idata, _, hl⟩ := Option.bind_eq_some.1 hl
          by_cases hiz : idata = 0
          · rw [if_pos hiz] at hl
            simp only [Option.some.injEq, Prod.mk.injEq] at hl
            rw [← hl.1]; exact ⟨i, hp, rfl⟩
          · rw [if_neg hiz] at hl
            obtain ⟨r, hr, hl⟩ := Option.bind_eq_some.1 hl
            obtain ⟨h2, ret2⟩ := r
            obtain ⟨i2, hi2, hm2⟩ := mode_kept_new_entry strhash h _ _ _ h2 ret2 hr p i hp
            by_cases hret : ret2 ≠ 0
            · rw [if_pos hret] at hl
              simp only [Option.some.injEq, Prod.mk.injEq] at hl
              rw [← hl.1]; exact ⟨i2, hi2, hm2⟩
            · rw [if_neg hret] at hl
              obtain ⟨i3, hi3, hl⟩ := Option.bind_eq_some.1 hl
              simp only [Option.some.injEq, Prod.mk.injEq] at hl
              rw [← hl.1]
              by_cases hpi : p = idata
              · subst hpi
                rw [hi2] at hi3
                have e : i3 = i2 := (Option.some.inj hi3).symm
                subst e
                exact ⟨_, (inode_eq _ _ _).2
                  (cell_store_same _ p _ _ ((inode_eq _ _ _).1 hi2)), hm2⟩
              · exact ⟨i2, inode_store_other _ idata p _ i2 hi2 hpi, hm2⟩

theorem inode_new_spec (h : Heap) (sb : superblock) (mode : Nat) (h1 : Heap) (idata : Nat)
    (hn : ramfs_inode_new h sb mode = some (h1, idata)) :
    idata = h.length + 1 ∧ ∃ i, h1.inode idata = some i ∧ i.i_mode = mode ∧
      i.i_nlinks = 0 ∧ i.i_data = 0 := by
  simp only [ramfs_inode_new, Option.bind_eq_bind] at hn
  obtain ⟨root, hroot, hn⟩ := Option.bind_eq_some.1 hn
  obtain ⟨r, hr, hn⟩ := Option.bind_eq_some.1 hn
  obtain ⟨h2, root1, res⟩ := r
  obtain ⟨rd, hrd, hn⟩ := Option.bind_eq_some.1 hn
  obtain ⟨i, hi, hn⟩ := Option.bind_eq_some.1 hn
  simp only [Option.some.injEq, Prod.mk.injEq] at hn
  obtain ⟨e1, e2⟩ := hn
  have hk : (kmalloc h (Obj.ino inode_zero)).2 = h.length + 1 := rfl
  rw [hk] at hr hi e1 e2
  subst e2
  refine ⟨rfl, ?_⟩
  have g := (new_leaf_cases _ _ _ _ _ _ hr).1
  have hc0 : (kmalloc h (Obj.ino inode_zero)).1.cell (h.length + 1) = some (Obj.ino inode_zero) :=
    cell_kmalloc_new h _
  have hc2 : h2.cell (h.length + 1) = some (Obj.ino inode_zero) :=
    g.2.1 _ _ hc0 (fun b => by simp)
  have hne : h.length + 1 ≠ sb.sb_data := by
    intro e
    rw [ramfs_data_eq, ← e, hc2] at hrd
    simp at hrd
  have hi3 : (h2.store sb.sb_data (Obj.rdata root1)).inode (h.length + 1) = some inode_zero :=
    inode_store_other h2 _ _ _ _ ((inode_eq _ _ _).2 hc2) hne
  rw [hi3] at hi
  have e : i = inode_zero := (Option.some.inj hi).symm
  subst e
  rw [← e1]
  exact ⟨_, (inode_eq _ _ _).2 (cell_store_same _ _ _ _ ((inode_eq _ _ _).1 hi3)), rfl, rfl, rfl⟩


theorem make_node_spec (h : Heap) (sb : superblock) (mode info : Nat) (h1 : Heap) (ret : Int)
    (ino : Nat) (hm : ramfs_make_node h sb mode info = some (h1, ret, ino)) :
    ret = 0 ∧ ∃ i, h1.inode (h.length + 1) = some i ∧ i.i_mode = mode := by
  simp only [ramfs_make_node, Option.bind_eq_bind] at hm
  obtain ⟨r, hr, hm⟩ := Option.bind_eq_some.1 hm
  obtain ⟨h2, idata⟩ := r
  obtain ⟨e, i, hi, hmode, -, -⟩ := inode_new_spec h sb mode h2 idata hr
  subst e
  obtain ⟨i0, hi0, hm⟩ := Option.bind_eq_some.1 hm
  rw [hi] at hi0
  have e : i0 = i := (Option.some.inj hi0).symm
  subst e
  by_cases hc : S_ISCHR mode = true ∨ S_ISBLK mode = true
  · rw [if_pos hc] at hm
    simp only [Option.some.injEq, Prod.mk.injEq] at hm
    obtain ⟨e1, e2, -⟩ := hm
    rw [← e1, ← e2]
    exact ⟨rfl, _, (inode_eq _ _ _).2 (cell_store_same _ _ _ _ ((inode_eq _ _ _).1 hi)), hmode⟩
  · rw [if_neg hc] at hm
    simp only [Option.some.injEq, Prod.mk.injEq] at hm
    obtain ⟨e1, e2, -⟩ := hm
    rw [← e1, ← e2]
    exact ⟨rfl, i0, hi, hmode⟩

theorem mknod_insert_spec (strhash : List Char → Nat) (s : Vfs) (d : fsdriver)
    (sb : superblock) (buf : List Char) (off : Nat) (dirnamelen : Int) (dirino ino : Nat)
    (s1 : Vfs)
    (hi : vfs_mknod_insert s d sb buf off dirnamelen dirino ino (ramfs_link_inode strhash)
      = some (s1, 0)) :
    ∀ p i, s.heap.inode p = some i → ∃ i1, s1.heap.inode p = some i1 ∧ i1.i_mode = i.i_mode := by
  simp only [vfs_mknod_insert] at hi
  by_cases hneg : (off : Int) + dirnamelen < 0
  · rw [if_pos hneg] at hi
    exact absurd hi (by simp)
  · rw [if_neg hneg] at hi
    cases hl : ramfs_link_inode strhash s.heap sb ino dirino
        (skip_sep (List.drop ((off : Int) + dirnamelen).toNat buf)) SIZE_MAX with
    | none => simp [hl] at hi
    | some r =>
      obtain ⟨h2, ret3⟩ := r
      simp only [hl] at hi
      have hk := mode_kept_link_inode strhash _ _ _ _ _ _ h2 ret3 hl
      by_cases hret : ret3 ≠ 0
      · rw [if_pos hret] at hi
        cases hf : d.ops.free_inode with
        | none =>
          simp only [hf, Option.some.injEq, Prod.mk.injEq] at hi
          exact absurd hi.2 hret
        | some fi =>
          simp only [hf] at hi
          cases hfi : fi h2 sb ino with
          | none => simp [hfi] at hi
          | some r2 =>
            simp only [hfi, Option.some.injEq, Prod.mk.injEq] at hi
            exact absurd hi.2 hret
      · rw [if_neg hret] at hi
        simp only [Option.some.injEq, Prod.mk.injEq] at hi
        rw [← hi.1]
        exact hk

/-- C12: `vfs_mknod` with a mode of type `S_IFDIR` or `S_IFLNK` returns `EINVAL` and leaves
the memory as it was, for every path and device; and with a mode whose type field is 0, on
drivers whose `make_inode` and `link_inode` are those of ramfs, a call that returns 0 has
created the inode, at the next free heap address, with the mode `mode | S_IFREG`. -/
theorem C12_mknod_type (strhash : List Char → Nat) (s : Vfs) (path : Option (List Char))
    (mode dev : Nat) :
    ((S_ISDIR mode = true ∨ S_ISLNK mode = true) →
      vfs_mknod strhash s path mode dev = some (s, EINVAL)) ∧
    (S_IFMT &&& mode = 0 →
      (∀ p d, s.driver p = some d → d.ops.make_inode = some ramfs_make_node ∧
        d.ops.link_inode = some (ramfs_link_inode strhash)) →
      ∀ s1, vfs_mknod strhash s path mode dev = some (s1, 0) →
        ∃ i, s1.heap.inode (s.heap.length + 1) = some i ∧ i.i_mode = mode ||| S_IFREG ∧
          i.i_mode &&& S_IFMT = S_IFREG) := by
  constructor
  · intro h
    cases h with
    | inl h => simp [vfs_mknod, h]
    | inr h =>
      by_cases hd : S_ISDIR mode = true
      · simp [vfs_mknod, hd]
      · simp [vfs_mknod, hd, h]
  · intro hm hops s1 hk
    have hm1 : mode &&& S_IFMT = 0 := by rw [Nat.and_comm]; exact hm
    have hd : S_ISDIR mode = false := by simp [S_ISDIR, hm1, S_IFDIR]
    have hl : S_ISLNK mode = false := by simp [S_ISLNK, hm1, S_IFLNK]
    have hty : (mode ||| S_IFREG) &&& S_IFMT = S_IFREG := by
      rw [Nat.and_distrib_right, hm1]
      decide
    simp only [vfs_mknod, hd, hl, Bool.false_eq_true, if_false, Option.bind_eq_bind] at hk
    obtain ⟨r, hr, hk⟩ := Option.bind_eq_some.1 hk
    obtain ⟨ret, r1⟩ := r
    by_cases hret : ret ≠ 0
    · rw [if_pos hret] at hk
      simp only [Option.some.injEq, Prod.mk.injEq] at hk
      exact absurd hk.2 hret
    · rw [if_neg hret] at hk
      obtain ⟨r2, hr2, hk⟩ := Option.bind_eq_some.1 hk
      obtain ⟨sbp, off⟩ := r2
      obtain ⟨buf, hbuf, hk⟩ := Option.bind_eq_some.1 hk
      obtain ⟨sb, hsb, hk⟩ := Option.bind_eq_some.1 hk
      obtain ⟨d, hdrv, hk⟩ := Option.bind_eq_some.1 hk
      obtain ⟨o1, o2⟩ := hops _ d hdrv
      simp only [o1, o2, hm, if_true, vfs_mknod_create, Option.bind_eq_bind] at hk
      obtain ⟨dl, hdl, hk⟩ := Option.bind_eq_some.1 hk
      obtain ⟨r3, hr3, hk⟩ := Option.bind_eq_some.1 hk
      obtain ⟨ret1, dirino⟩ := r3
      by_cases hret1 : ret1 ≠ 0
      · rw [if_pos hret1] at hk
        simp only [Option.some.injEq, Prod.mk.injEq] at hk
        exact absurd hk.2 hret1
      · rw [if_neg hret1] at hk
        obtain ⟨r4, hr4, hk⟩ := Option.bind_eq_some.1 hk
        obtain ⟨i4, hi4, hk⟩ := Option.bind_eq_some.1 hk
        by_cases hnd : ¬ S_ISDIR i4.i_mode = true
        · rw [if_pos hnd] at hk
          simp only [Option.some.injEq, Prod.mk.injEq] at hk
          exact absurd hk.2 (by decide)
        · rw [if_neg hnd] at hk
          obtain ⟨r5, hr5, hk⟩ := Option.bind_eq_some.1 hk
          obtain ⟨h1, ret2, ino⟩ := r5
          obtain ⟨e0, i, hi, hmode⟩ := make_node_spec _ _ _ _ _ _ _ hr5
          subst e0
          simp only [ne_eq, not_true_eq_false, if_false] at hk
          obtain ⟨i1, hi1, hm1⟩ := mknod_insert_spec strhash _ d sb buf off dl _ ino s1 hk _ i hi
          exact ⟨i1, hi1, hm1.trans hmode, by rw [hm1.trans hmode]; exact hty⟩


theorem vfs_a_drivers :
    vfs_a.drivers = [{ ramfs_driver djb2 with lst_prev := 1, lst_next := 1 }] := by
  rfl

theorem C12_mknod_type_witness :
    vfs_mknod djb2 vfs_a (some "/x".toList) (S_IFDIR ||| 420) 0 = some (vfs_a, EINVAL) ∧
    ((vfs_mknod djb2 vfs_a (some "/f".toList) 420 0).map (fun r => r.2) = some 0 ∧
      ∀ s1, vfs_mknod djb2 vfs_a (some "/f".toList) 420 0 = some (s1, 0) →
        ∃ i, s1.heap.inode (vfs_a.heap.length + 1) = some i ∧ i.i_mode = 420 ||| S_IFREG ∧
          i.i_mode &&& S_IFMT = S_IFREG) :=
  ⟨(C12_mknod_type djb2 vfs_a (some "/x".toList) (S_IFDIR ||| 420) 0).1 (Or.inl (by decide)),
   by decide!,
   (C12_mknod_type djb2 vfs_a (some "/f".toList) 420 0).2 (by decide)
     (by
       intro p d hd
       cases p with
       | zero => simp [Vfs.driver] at hd
       | succ a =>
         simp only [Vfs.driver, vfs_a_drivers] at hd
         cases a with
         | zero =>
           simp only [List.get?_cons_zero, Option.some.injEq] at hd
           rw [← hd]
           exact ⟨rfl, rfl⟩
         | succ b => simp at hd)⟩

/-! ## More defects shown on concrete inputs -/

/-- C21: on a driver that has no `make_directory`, `vfs_mkdir` returns `EBADF`, not
`ENOSYS`; `vfs_mknod`, `vfs_stat` and `vfs_inode_read` on a driver without the operations
they need return `ENOSYS`, and so do `vfs_inode_read` and `vfs_inode_write` on ramfs. -/
theorem C21_mkdir_ebadf :
    vfs_bare.bind (fun s => (vfs_mkdir s (some "/x".toList) 493).map (fun r => r.2))
      = some EBADF ∧
    vfs_bare.bind (fun s => (vfs_mknod djb2 s (some "/x".toList) 0 0).map (fun r => r.2))
      = some ENOSYS ∧
    vfs_bare.bind (fun s => vfs_stat s (some "/x".toList)) = some (ENOSYS, none) ∧
    vfs_inode_read vfs_a vfs_a.theRootMnt 1 0 (some ()) 10 = some (ENOSYS, []) ∧
    (vfs_inode_write vfs_a vfs_a.theRootMnt 1 0 (some [])).map (fun r => r.2)
      = some (ENOSYS, 0) := by
  refine ⟨?_, ?_, ?_, ?_, ?_⟩ <;> decide!

/-- C22: with a root mounted, `vfs_mountnode_by_path`, `vfs_mknod` and `vfs_stat` return
`EINVAL` for a null, an empty and a relative path, and `vfs_mkdir` returns `ENOENT` for
each of them. -/
theorem C22_mkdir_enoent :
    vfs_mountnode_by_path vfs_a none = some (EINVAL, none) ∧
    vfs_mountnode_by_path vfs_a (some []) = some (EINVAL, none) ∧
    vfs_mountnode_by_path vfs_a (some "x".toList) = some (EINVAL, none) ∧
    (vfs_mknod djb2 vfs_a (some "x".toList) 0 0).map (fun r => r.2) = some EINVAL ∧
    vfs_stat vfs_a (some "x".toList) = some (EINVAL, none) ∧
    (vfs_mkdir vfs_a none 493).map (fun r => r.2) = some ENOENT ∧
    (vfs_mkdir vfs_a (some []) 493).map (fun r => r.2) = some ENOENT ∧
    (vfs_mkdir vfs_a (some "x".toList) 493).map (fun r => r.2) = some ENOENT := by
  refine ⟨?_, ?_, ?_, ?_, ?_, ?_, ?_, ?_⟩ <;> decide!

/-- C24: `btree_free_leaf` is a stub that returns `ETODO`; after `ramfs_make_node` gave
inode 2, `ramfs_free_inode` returns 0, the index still holds the pointer (address 6) for
inode 2, the record at that address is freed, and `ramfs_inode_data` reads it: its result
is not defined, it is not `ENOENT`. -/
theorem C24_free_leaves_index :
    btree_free_leaf heap_init 1 1 = ETODO ∧
    run_free_inode.map (fun x => (x.1, x.2.1, x.2.2.1, x.2.2.2.1))
      = some (2, 0, some 6, some 6) ∧
    run_free_inode.map (fun x => x.2.2.2.2.1) = some (some Obj.freed) ∧
    run_free_inode.map (fun x => x.2.2.2.2.2) = some none := by
  refine ⟨?_, ?_, ?_, ?_⟩ <;> decide!

/-- C25: for fanout 3 and level 20 the capacity computed in a `size_t` is 1870418611, and
for the index 1870418610, which is below the capacity `3 ^ 21`, the first subscript
computed is 3: `btree_get_index` reads past the three child slots of the root. -/
theorem C25_subscript_past_array :
    btree_size 3 20 3 = 1870418611 ∧ 1870418610 < 3 ^ 21 ∧
    (btree_subscripts 3 20 (btree_size 3 20 3) 1870418610).head? = some 3 ∧
    btree_get_index heap_level20 1 1870418610 = none ∧
    btree_get_index heap_level20 1 5 = some 0 := by
  refine ⟨?_, ?_, ?_, ?_, ?_⟩ <;> decide!

/-- C26: with fanout 4, after four inserts the root has level 1 and index 4, which is
inside the range of the tree, is absent; the fifth insert grows the tree to level 2 and
returns 16.  With fanout 64, the fanout of ramfs, the first 63 inserts return 1 to 63 in
order; after 64 inserts index 64 is absent at level 1, and the 65th insert grows the tree
to level 2 and returns 4096. -/
theorem C26_grows_with_free_slot :
    btree_indices 4 4 4 = some ([4, 3, 2, 1], some 1, some 0) ∧
    (btree_indices 4 5 4).map (fun r => (r.1, r.2.1)) = some ([16, 4, 3, 2, 1], some 2) ∧
    (btree_indices 64 63 0).map (fun r => (r.1.reverse, r.2.1))
      = some (List.range' 1 63, some 0) ∧
    (btree_indices 64 64 64).map (fun r => (r.1.head?, r.2)) = some (some 64, some 1, some 0) ∧
    (btree_indices 64 65 64).map (fun r => (r.1.head?, r.2.1)) = some (some 4096, some 2) := by
  refine ⟨?_, ?_, ?_, ?_, ?_⟩ <;> decide!

/-- C27: with the directory `/a`, `vfs_mkdir("/a/n/", 0755)` fails with `ENOENT` and the
lookup of `a/n` fails afterwards; `vfs_mkdir("/a/", 0755)` returns 0 and puts an entry with
the empty name, for the new inode 4, into the table of `a`. -/
theorem C27_trailing_slash_mkdir :
    run_trailing.map (fun x => x.2) = some [0, ENOENT, 0] ∧
    lookup_after djb2 run_trailing "a/n".toList = some (ENOENT, some 0) ∧
    walk_after run_trailing 2 = some [(['.'], 2), ([], 4)] := by
  refine ⟨?_, ?_, ?_⟩ <;> decide!

/-- C29: with the directories `a` and `a/b`, `ramfs_lookup_inode` on `a/b` with length 2
fails with `ENOENT`, and on the 2-byte prefix `a/` it returns 0 and inode 2: the byte at
offset 2 decides. -/
theorem C29_byte_past_pathlen :
    run_ab.bind (fun x => lookup_root djb2 x.1 "a/b".toList 2) = some (ENOENT, some 0) ∧
    run_ab.bind (fun x => lookup_root djb2 x.1 "a/".toList SIZE_MAX) = some (0, some 2) := by
  constructor <;> decide!

/-! ## Lookup in a directory table -/

theorem strncmp_self (n : Nat) : ∀ (s : List Char), strncmp s s n = 0 := by
  induction n with
  | zero => intro s; simp [strncmp]
  | succ n ih =>
    intro s
    simp only [strncmp, ne_eq, not_true_eq_false, if_false]
    split
    · rfl
    · exact ih s.tail

theorem strncmp_strdup (n : List Char) : strncmp n (strdup n) (strlen n) = 0 := by
  rw [← strncmp_take (strlen n) n (strdup n)]
  exact strncmp_self _ _

theorem chain_find_none (hash : Nat) (basename : List Char) (len : Nat) :
    ∀ (chain : List ramfs_direntry), (∀ e ∈ chain, e.de_hash ≠ hash) →
      chain_find hash basename len chain = none := by
  intro chain
  induction chain with
  | nil => intro _; rfl
  | cons e rest ih =>
    intro hall
    have he : e.de_hash ≠ hash := hall e (List.mem_cons_self _ _)
    have hr := ih (fun x hx => hall x (List.mem_cons_of_mem _ hx))
    simp only [chain_find, he, false_and, if_false, hr]

theorem chain_find_unique (de : ramfs_direntry) (basename : List Char) (len : Nat)
    (hcmp : strncmp basename de.de_name len = 0) :
    ∀ (chain : List ramfs_direntry), de ∈ chain →
      (∀ e ∈ chain, e.de_hash = de.de_hash → e = de) →
      chain_find de.de_hash basename len chain = some de := by
  intro chain
  induction chain with
  | nil => intro hmem; exact absurd hmem (List.not_mem_nil _)
  | cons e rest ih =>
    intro hmem huniq
    by_cases hh : e.de_hash = de.de_hash
    · have hed : e = de := huniq e (List.mem_cons_self _ _) hh
      subst hed
      simp only [chain_find, hcmp, and_self, if_true]
    · have hne : de ≠ e := fun x => hh (by rw [x])
      have hmem1 : de ∈ rest := by
        rcases List.mem_cons.1 hmem with x | x
        · exact absurd x hne
        · exact x
      have hr := ih hmem1 (fun x hx => huniq x (List.mem_cons_of_mem _ hx))
      simp only [chain_find, hh, false_and, if_false, hr]

/-- C30: for every hash function and every directory table with `htcap` chains: when the
chain of the bucket of `n` holds the entry made for the name `n` and the inode number `k`
and no other entry of the table has the hash of `n`, `ramfs_get_inode_by_basename` on `n`
and `strlen(n)` returns 0 and reports `k`; when no entry of the table has the hash of
`(name, len)`, it returns `ENOENT` and reports 0. -/
theorem C30_lookup_by_basename (strhash : List Char → Nat) (dir : ramfs_directory)
    (hcap : 0 < dir.htcap) (hlen : dir.ht.length = dir.htcap) :
    (∀ (n : List Char) (k : Nat),
      ({ de_hash := hash32 strhash n (strlen n), de_name := strdup n, de_ino := k }
          : ramfs_direntry) ∈ dir.ht.getD (hash32 strhash n (strlen n) % dir.htcap) [] →
      (∀ chain ∈ dir.ht, ∀ e ∈ chain, e.de_hash = hash32 strhash n (strlen n) →
        e = { de_hash := hash32 strhash n (strlen n), de_name := strdup n, de_ino := k }) →
      ramfs_get_inode_by_basename strhash dir n (strlen n) = some (0, k)) ∧
    (∀ (name : List Char) (len : Nat),
      (∀ chain ∈ dir.ht, ∀ e ∈ chain, e.de_hash ≠ hash32 strhash name len) →
      ramfs_get_inode_by_basename strhash dir name len = some (ENOENT, 0)) := by
  have hne : dir.htcap ≠ 0 := by omega
  have hget : ∀ x : Nat, dir.ht.get? (x % dir.htcap) = some (dir.ht.getD (x % dir.htcap) []) ∧
      dir.ht.getD (x % dir.htcap) [] ∈ dir.ht := by
    intro x
    have hidx : x % dir.htcap < dir.ht.length := by rw [hlen]; exact Nat.mod_lt _ hcap
    constructor
    · simp [List.getD, hidx]
    · have : dir.ht.getD (x % dir.htcap) [] = dir.ht[x % dir.htcap] := by
        simp [List.getD, hidx]
      rw [this]
      exact List.getElem_mem _
  constructor
  · intro n k hmem huniq
    have hg := hget (hash32 strhash n (strlen n))
    have hf := chain_find_unique
      { de_hash := hash32 strhash n (strlen n), de_name := strdup n, de_ino := k } n (strlen n)
      (strncmp_strdup n) _ hmem (huniq _ hg.2)
    simp only [ramfs_get_inode_by_basename, hne, if_false, hg.1]
    simp only at hf
    rw [hf]
  · intro name len hall
    have hg := hget (hash32 strhash name len)
    have hf := chain_find_none (hash32 strhash name len) name len _ (hall _ hg.2)
    simp only [ramfs_get_inode_by_basename, hne, if_false, hg.1, hf]

theorem C30_lookup_by_basename_witness :
    ramfs_get_inode_by_basename djb2 dir_ab "ab".toList (strlen "ab".toList) = some (0, 5) ∧
    ramfs_get_inode_by_basename djb2 dir_ab "zz".toList 2 = some (ENOENT, 0) :=
  ⟨(C30_lookup_by_basename djb2 dir_ab (by decide!) (by decide!)).1 "ab".toList 5
      (by decide!) (by decide!),
   (C30_lookup_by_basename djb2 dir_ab (by decide!) (by decide!)).2 "zz".toList 2
      (by decide!)⟩

/-! ## The mode of a new directory -/

theorem error_exit_ino (h : Heap) (dir idata : Nat) (ret : Int) (h1 : Heap) (ret1 : Int)
    (ino : Nat) (he : ramfs_make_directory_error_exit h dir idata ret = some (h1, ret1, ino)) :
    ino = 0 := by
  simp only [ramfs_make_directory_error_exit, Option.bind_eq_bind] at he
  split_ifs at he
  all_goals
    simp only [Option.bind_eq_some, Option.some_bind, Option.some.injEq, Prod.mk.injEq] at he
    first
    | exact he.2.2.symm
    | (obtain ⟨_, _, he⟩ := he
       first
       | exact he.2.2.symm
       | (obtain ⟨_, _, he⟩ := he
          exact he.2.2.symm))

theorem inode_kmalloc_old (h : Heap) (o : Obj) (p : Nat) (i : inode)
    (hp : h.inode p = some i) : (kmalloc h o).1.inode p = some i := by
  rw [inode_eq] at hp ⊢
  rw [cell_kmalloc_old h o p (cell_lt h p _ hp).2]; exact hp

theorem set_i_data_spec (h4 : Heap) (idata dir : Nat) (i4 : inode) (h1 : Heap) (ret : Int)
    (ino : Nat) (hi4 : h4.inode idata = some i4)
    (he : (h4.inode idata).bind (fun i =>
        ((h4.store idata (Obj.ino { i with i_data := dir })).inode idata).bind (fun i5 =>
          some (h4.store idata (Obj.ino { i with i_data := dir }), (0 : Int), i5.i_no)))
      = some (h1, ret, ino)) :
    ∃ i, h1.inode idata = some i ∧ i.i_no = ino ∧ i.i_mode = i4.i_mode := by
  obtain ⟨i, hi, he⟩ := Option.bind_eq_some.1 he
  rw [hi4] at hi
  have e : i = i4 := (Option.some.inj hi).symm
  subst e
  obtain ⟨i5, hi5, he⟩ := Option.bind_eq_some.1 he
  have hs : (h4.store idata (Obj.ino { i with i_data := dir })).inode idata
      = some { i with i_data := dir } :=
    (inode_eq _ _ _).2 (cell_store_same _ _ _ _ ((inode_eq _ _ _).1 hi4))
  rw [hs] at hi5
  have e5 : i5 = { i with i_data := dir } := (Option.some.inj hi5).symm
  subst e5
  simp only [Option.some.injEq, Prod.mk.injEq] at he
  rw [← he.1]
  exact ⟨_, hs, he.2.2, rfl⟩

theorem make_directory_spec (strhash : List Char → Nat) (h : Heap) (sb : superblock)
    (path : List Char) (mode : Nat) (h1 : Heap) (ret : Int) (ino : Nat)
    (hr : ramfs_make_directory strhash h sb path mode = some (h1, ret, ino))
    (hino : ino ≠ 0) :
    ∃ i, h1.inode (h.length + 1) = some i ∧ i.i_no = ino ∧ i.i_mode = S_IFDIR ||| mode := by
  simp only [ramfs_make_directory, Option.bind_eq_bind] at hr
  obtain ⟨r, hn, hr⟩ := Option.bind_eq_some.1 hr
  obtain ⟨h2, idata⟩ := r
  obtain ⟨e, i0, hi0, hmode, -, -⟩ := inode_new_spec h sb _ h2 idata hn
  subst e
  have hk : (ramfs_directory_new h2).1.inode (h.length + 1) = some i0 :=
    inode_kmalloc_old h2 _ _ _ hi0
  simp only at hr
  by_cases hp0 : cget path 0 = NUL
  · rw [if_pos hp0] at hr
    by_cases hpar : sb.sb_parent = 0
    · rw [if_pos hpar] at hr
      obtain ⟨r3, he3, hr⟩ := Option.bind_eq_some.1 hr
      obtain ⟨h3, ret3⟩ := r3
      obtain ⟨i3, hi3, hm3⟩ := mode_kept_new_entry strhash _ _ _ _ h3 ret3 he3 _ _ hk
      by_cases hret : ret3 ≠ 0
      · rw [if_pos hret] at hr
        exact absurd (error_exit_ino _ _ _ _ _ _ _ hr) hino
      · rw [if_neg hret] at hr
        obtain ⟨r4, he4, hr⟩ := Option.bind_eq_some.1 hr
        obtain ⟨h4, ret4⟩ := r4
        obtain ⟨i4, hi4, hm4⟩ := mode_kept_new_entry strhash _ _ _ _ h4 ret4 he4 _ _ hi3
        by_cases hret4 : ret4 ≠ 0
        · rw [if_pos hret4] at hr
          exact absurd (error_exit_ino _ _ _ _ _ _ _ hr) hino
        · rw [if_neg hret4] at hr
          obtain ⟨i, hi, hno, hm⟩ := set_i_data_spec h4 _ _ i4 h1 ret ino hi4 hr
          exact ⟨i, hi, hno, by rw [hm, hm4, hm3, hmode]⟩
    · rw [if_neg hpar] at hr
      obtain ⟨r4, he4, hr⟩ := Option.bind_eq_some.1 hr
      obtain ⟨h4, ret4⟩ := r4
      obtain ⟨i4, hi4, hm4⟩ := mode_kept_new_entry strhash _ _ _ _ h4 ret4 he4 _ _ hk
      by_cases hret4 : ret4 ≠ 0
      · rw [if_pos hret4] at hr
        exact absurd (error_exit_ino _ _ _ _ _ _ _ hr) hino
      · rw [if_neg hret4] at hr
        obtain ⟨i, hi, hno, hm⟩ := set_i_data_spec h4 _ _ i4 h1 ret ino hi4 hr
        exact ⟨i, hi, hno, by rw [hm, hm4, hmode]⟩
  · rw [if_neg hp0] at hr
    obtain ⟨rl, _, hr⟩ := Option.bind_eq_some.1 hr
    obtain ⟨retl, parino⟩ := rl
    by_cases hretl : retl ≠ 0
    · rw [if_pos hretl] at hr
      exact absurd (error_exit_ino _ _ _ _ _ _ _ hr) hino
    · rw [if_neg hretl] at hr
      obtain ⟨par_idata, _, hr⟩ := Option.bind_eq_some.1 hr
      by_cases hpz : par_idata = 0
      · rw [if_pos hpz] at hr
        exact absurd (error_exit_ino _ _ _ _ _ _ _ hr) hino
      · rw [if_neg hpz] at hr
        obtain ⟨pi, _, hr⟩ := Option.bind_eq_some.1 hr
        by_cases hpd : ¬ S_ISDIR pi.i_mode = true
        · rw [if_pos hpd] at hr
          exact absurd (error_exit_ino _ _ _ _ _ _ _ hr) hino
        · rw [if_neg hpd] at hr
          obtain ⟨r3, he3, hr⟩ := Option.bind_eq_some.1 hr
          obtain ⟨h3, ret3⟩ := r3
          obtain ⟨i3, hi3, hm3⟩ := mode_kept_new_entry strhash _ _ _ _ h3 ret3 he3 _ _ hk
          obtain ⟨r4, he4, hr⟩ := Option.bind_eq_some.1 hr
          obtain ⟨h4, ret4⟩ := r4
          obtain ⟨i4, hi4, hm4⟩ := mode_kept_new_entry strhash _ _ _ _ h4 ret4 he4 _ _ hi3
          by_cases hret4 : ret4 ≠ 0
          · rw [if_pos hret4] at hr
            exact absurd (error_exit_ino _ _ _ _ _ _ _ hr) hino
          · rw [if_neg hret4] at hr
            obtain ⟨i, hi, hno, hm⟩ := set_i_data_spec h4 _ _ i4 h1 ret ino hi4 hr
            exact ⟨i, hi, hno, by rw [hm, hm4, hm3, hmode]⟩

/-- C28 (amended): when `ramfs_make_directory` reports a non-zero inode number, the inode it
created, at the next free heap address, has that number and the mode `S_IFDIR | mode`; its
nine permission bits are those of `mode`, and `S_ISDIR` holds for it when the type field of
`mode` is 0 or `S_IFDIR`. -/
theorem C28_make_directory_mode (strhash : List Char → Nat) (h : Heap) (sb : superblock)
    (path : List Char) (mode : Nat) (h1 : Heap) (ret : Int) (ino : Nat)
    (hr : ramfs_make_directory strhash h sb path mode = some (h1, ret, ino))
    (hino : ino ≠ 0) :
    ∃ i, h1.inode (h.length + 1) = some i ∧ i.i_no = ino ∧ i.i_mode = S_IFDIR ||| mode ∧
      i.i_mode &&& 511 = mode &&& 511 ∧
      ((mode &&& S_IFMT = 0 ∨ mode &&& S_IFMT = S_IFDIR) → S_ISDIR i.i_mode = true) := by
  obtain ⟨i, hi, hno, hm⟩ := make_directory_spec strhash h sb path mode h1 ret ino hr hino
  refine ⟨i, hi, hno, hm, ?_, ?_⟩
  · rw [hm, Nat.and_distrib_right]
    have : S_IFDIR &&& 511 = 0 := by decide
    rw [this, Nat.zero_or]
  · intro hty
    have hd : S_IFDIR &&& S_IFMT = S_IFDIR := by decide
    have : (S_IFDIR ||| mode) &&& S_IFMT = S_IFDIR := by
      rw [Nat.and_distrib_right, hd]
      rcases hty with x | x
      · rw [x, Nat.or_zero]
      · rw [x, Nat.or_self]
    simp only [S_ISDIR, hm, this, beq_self_eq_true]

theorem C28_make_directory_mode_witness :
    (ramfs_make_directory djb2 heap_ab sb_ab "d".toList 493).map (fun r => r.2)
      = some (0, 4) ∧
    ∀ h1, ramfs_make_directory djb2 heap_ab sb_ab "d".toList 493 = some (h1, 0, 4) →
      ∃ i, h1.inode (heap_ab.length + 1) = some i ∧ i.i_no = 4 ∧ i.i_mode = S_IFDIR ||| 493 ∧
        i.i_mode &&& 511 = 493 &&& 511 ∧
        ((493 &&& S_IFMT = 0 ∨ 493 &&& S_IFMT = S_IFDIR) → S_ISDIR i.i_mode = true) :=
  ⟨by decide!, fun h1 hr =>
    C28_make_directory_mode djb2 heap_ab sb_ab "d".toList 493 h1 0 4 hr (by decide)⟩

/-- C28: `ramfs_make_directory` with the mode `S_IFCHR | 0755` returns 0 and inode 2, and
the mode of that inode is `S_IFDIR | S_IFCHR | 0755` = 25069, whose type is `S_IFBLK`:
`S_ISDIR` does not hold for it. -/
theorem C28_chr_mode_counterexample :
    run_mkdir_chr = some (0, 2, some 25069) ∧ S_ISDIR 25069 = false ∧
    S_ISBLK 25069 = true := by
  refine ⟨?_, ?_, ?_⟩ <;> decide!

/-! ## The driver registry -/

theorem driver_set_driver (s : Vfs) (p q : Nat) (d : fsdriver) :
    (s.set_driver p d).driver q =
      if q = p ∧ 0 < p ∧ p ≤ s.drivers.length then some d else s.driver q := by
  cases p with
  | zero => simp [Vfs.set_driver]
  | succ a =>
    cases q with
    | zero => simp [Vfs.set_driver, Vfs.driver]
    | succ b =>
      simp only [Vfs.set_driver, Vfs.driver, List.get?_eq_getElem?, List.getElem?_set]
      by_cases hab : a = b
      · subst hab
        by_cases hl : a < s.drivers.length
        · have hc : (a + 1 = a + 1 ∧ 0 < a + 1 ∧ a + 1 ≤ s.drivers.length) := ⟨rfl, by omega, by omega⟩
          rw [if_pos hc]
          simp [hl]
        · have hc : ¬ (a + 1 = a + 1 ∧ 0 < a + 1 ∧ a + 1 ≤ s.drivers.length) := by omega
          rw [if_neg hc]
          simp [hl]
          omega
      · have hc : ¬ (b + 1 = a + 1 ∧ 0 < a + 1 ∧ a + 1 ≤ s.drivers.length) := by omega
        rw [if_neg hc]
        simp [hab]

theorem driver_some_valid (s : Vfs) (p : Nat) (d : fsdriver) (h : s.driver p = some d) :
    0 < p ∧ p ≤ s.drivers.length := by
  cases p with
  | zero => simp [Vfs.driver] at h
  | succ a =>
    simp only [Vfs.driver, List.get?_eq_getElem?] at h
    have := (List.getElem?_eq_some_iff.1 h).1
    omega

theorem driver_of_valid (s : Vfs) (p : Nat) (h : 0 < p ∧ p ≤ s.drivers.length) :
    ∃ d, s.driver p = some d := by
  cases p with
  | zero => omega
  | succ a =>
    have hl : a < s.drivers.length := by omega
    exact ⟨s.drivers[a], by simp [Vfs.driver, hl]⟩

theorem set_driver_length (s : Vfs) (p : Nat) (d : fsdriver) :
    (s.set_driver p d).drivers.length = s.drivers.length := by
  cases p with
  | zero => rfl
  | succ a => simp [Vfs.set_driver]

theorem set_driver_head (s : Vfs) (p : Nat) (d : fsdriver) :
    (s.set_driver p d).theFileSystems = s.theFileSystems := by
  cases p <;> rfl

theorem driver_set_same (s : Vfs) (p : Nat) (d d0 : fsdriver) (h : s.driver p = some d0) :
    (s.set_driver p d).driver p = some d := by
  rw [driver_set_driver, if_pos ⟨rfl, driver_some_valid s p d0 h⟩]

theorem driver_set_ne (s : Vfs) (p q : Nat) (d : fsdriver) (h : q ≠ p) :
    (s.set_driver p d).driver q = s.driver q := by
  rw [driver_set_driver, if_neg (fun x => h x.1)]

theorem register_empty (s : Vfs) (fs : Nat) (dfs : fsdriver) (hz : s.theFileSystems = 0)
    (hF : s.driver fs = some dfs) :
    ∃ s1, vfs_register_filesystem s fs = some s1 ∧ s1.theFileSystems = fs ∧
      s1.drivers.length = s.drivers.length ∧
      ∀ q, s1.driver q =
        if q = fs then some { dfs with lst_next := fs, lst_prev := fs } else s.driver q := by
  refine ⟨{ (s.set_driver fs { dfs with lst_next := fs, lst_prev := fs }) with
            theFileSystems := fs }, ?_, rfl, ?_, ?_⟩
  · simp only [vfs_register_filesystem, hz, if_true, hF, Option.bind_eq_bind, Option.some_bind]
  · exact set_driver_length s fs _
  · intro q
    have e : ({ (s.set_driver fs { dfs with lst_next := fs, lst_prev := fs }) with
            theFileSystems := fs } : Vfs).driver q
        = (s.set_driver fs { dfs with lst_next := fs, lst_prev := fs }).driver q := by
      cases q <;> rfl
    rw [e]
    by_cases hq : q = fs
    · subst hq
      rw [if_pos rfl]
      exact driver_set_same s q _ dfs hF
    · rw [if_neg hq]
      exact driver_set_ne s fs q _ hq

theorem register_nonempty (s : Vfs) (fs : Nat) (hrec lrec dfs : fsdriver)
    (hne : s.theFileSystems ≠ 0) (hH : s.driver s.theFileSystems = some hrec)
    (hF : s.driver fs = some dfs) (hL : s.driver hrec.lst_prev = some lrec)
    (hfl : fs ≠ hrec.lst_prev) (hfh : fs ≠ s.theFileSystems) :
    ∃ s3, vfs_register_filesystem s fs = some s3 ∧ s3.theFileSystems = s.theFileSystems ∧
      s3.drivers.length = s.drivers.length ∧
      ∀ q, s3.driver q =
        if q = s.theFileSystems then
          some { (if hrec.lst_prev = s.theFileSystems then { lrec with lst_next := fs }
                  else hrec) with lst_prev := fs }
        else if q = hrec.lst_prev then some { lrec with lst_next := fs }
        else if q = fs then
          some { dfs with lst_next := s.theFileSystems, lst_prev := hrec.lst_prev }
        else s.driver q := by
  have h1L : (s.set_driver fs
      { dfs with lst_next := s.theFileSystems, lst_prev := hrec.lst_prev }).driver hrec.lst_prev = some lrec := by
    rw [driver_set_ne _ _ _ _ (Ne.symm hfl)]; exact hL
  have h1H : (s.set_driver fs
      { dfs with lst_next := s.theFileSystems, lst_prev := hrec.lst_prev }).driver s.theFileSystems = some hrec := by
    rw [driver_set_ne _ _ _ _ (Ne.symm hfh)]; exact hH
  have h2H : ∃ hd, ((s.set_driver fs
      { dfs with lst_next := s.theFileSystems, lst_prev := hrec.lst_prev }).set_driver hrec.lst_prev
        { lrec with lst_next := fs }).driver s.theFileSystems = some hd ∧
      hd = (if hrec.lst_prev = s.theFileSystems then { lrec with lst_next := fs }
                  else hrec) := by
    by_cases e : hrec.lst_prev = s.theFileSystems
    · refine ⟨_, ?_, rfl⟩
      rw [if_pos e]
      exact (congrArg (Vfs.driver _) e.symm).trans (driver_set_same _ _ _ _ h1L)
    · refine ⟨_, ?_, rfl⟩
      rw [if_neg e, driver_set_ne _ _ _ _ (Ne.symm e)]
      exact h1H
  obtain ⟨hd, hhd, hde⟩ := h2H
  refine ⟨((s.set_driver fs
      { dfs with lst_next := s.theFileSystems, lst_prev := hrec.lst_prev }).set_driver hrec.lst_prev
        { lrec with lst_next := fs }).set_driver s.theFileSystems { hd with lst_prev := fs },
    ?_, ?_, ?_, ?_⟩
  · simp only [vfs_register_filesystem, hne, if_false, hH, hF, Option.bind_eq_bind,
      Option.some_bind, h1L, set_driver_head, hhd]
  · simp only [set_driver_head]
  · simp only [set_driver_length]
  · intro q
    by_cases q1 : q = s.theFileSystems
    · rw [if_pos q1, q1, ← hde]
      exact driver_set_same _ _ _ _ hhd
    · rw [if_neg q1, driver_set_ne _ _ _ _ q1]
      by_cases q2 : q = hrec.lst_prev
      · rw [if_pos q2, q2]
        exact driver_set_same _ _ _ _ h1L
      · rw [if_neg q2, driver_set_ne _ _ _ _ q2]
        by_cases q3 : q = fs
        · rw [if_pos q3, q3]
          exact driver_set_same _ _ _ _ hF
        · rw [if_neg q3, driver_set_ne _ _ _ _ q3]

theorem getD_mem (l : List Nat) (i : Nat) (hi : i < l.length) : l.getD i 0 ∈ l := by
  rw [List.getD_eq_getElem l 0 hi]
  exact List.getElem_mem _

theorem nodup_getD_inj (l : List Nat) (hnd : l.Nodup) (i j : Nat) (hi : i < l.length)
    (hj : j < l.length) (h : l.getD i 0 = l.getD j 0) : i = j := by
  rw [List.getD_eq_getElem l 0 hi, List.getD_eq_getElem l 0 hj] at h
  exact (List.Nodup.getElem_inj_iff hnd).1 h

theorem headD_eq_getD (l : List Nat) : l.headD 0 = l.getD 0 0 := by
  cases l <;> rfl

theorem getD_snoc_lt (l : List Nat) (x i : Nat) (hi : i < l.length) :
    (l ++ [x]).getD i 0 = l.getD i 0 := List.getD_append l [x] 0 i hi

theorem getD_snoc_len (l : List Nat) (x : Nat) : (l ++ [x]).getD l.length 0 = x := by
  rw [List.getD_append_right l [x] 0 l.length (Nat.le_refl _)]
  simp

theorem ring_step (s0 s : Vfs) (l : List Nat) (fs : Nat) (hr : registry_ring s0 s l)
    (hnd : l.Nodup) (hfs : fs ∉ l) (hfv : 0 < fs ∧ fs ≤ s0.drivers.length) :
    ∃ s1, vfs_register_filesystem s fs = some s1 ∧ registry_ring s0 s1 (l ++ [fs]) := by
  obtain ⟨hlen, hhead, hout, hin⟩ := hr
  obtain ⟨dfs, hdfs0⟩ := driver_of_valid s0 fs hfv
  have hF : s.driver fs = some dfs := by rw [hout fs hfs]; exact hdfs0
  by_cases hn : l.length = 0
  · have hl : l = [] := List.length_eq_zero.1 hn
    subst hl
    obtain ⟨s1, h1, h2, h3, h4⟩ := register_empty s fs dfs hhead hF
    refine ⟨s1, h1, h3.trans hlen, by simp [h2], ?_, ?_⟩
    · intro a ha
      have hne : a ≠ fs := by simpa using ha
      rw [h4, if_neg hne]
      exact hout a (by simp)
    · intro i hi
      have hi0 : i = 0 := by simpa using hi
      subst hi0
      refine ⟨dfs, hdfs0, ?_⟩
      rw [h4]
      simp [ring_next, ring_prev]
  · have hpos : 0 < l.length := Nat.pos_of_ne_zero hn
    obtain ⟨d0a, ha0, has⟩ := hin 0 hpos
    obtain ⟨d0l, hl0, hls⟩ := hin (l.length - 1) (by omega)
    have hhead1 : s.theFileSystems = l.getD 0 0 := by rw [hhead, headD_eq_getD]
    have hp0 : ring_prev l.length 0 = l.length - 1 := by simp [ring_prev]
    have hnl : ring_next l.length (l.length - 1) = 0 := by
      simp only [ring_next]; rw [if_pos (by omega)]
    rw [hp0] at has
    rw [hnl] at hls
    have hne : s.theFileSystems ≠ 0 := by
      rw [hhead1]
      have := (driver_some_valid s _ _ has).1
      omega
    have hmem_last : l.getD (l.length - 1) 0 ∈ l := getD_mem l _ (by omega)
    have hmem_head : l.getD 0 0 ∈ l := getD_mem l _ hpos
    have hfl : fs ≠ l.getD (l.length - 1) 0 := fun e => hfs (e ▸ hmem_last)
    have hfh : fs ≠ l.getD 0 0 := fun e => hfs (e ▸ hmem_head)
    rw [← hhead1] at has
    obtain ⟨s3, h1, h2, h3, h4⟩ := register_nonempty s fs _ _ dfs hne has hF hls hfl
      (by rw [hhead1]; exact hfh)
    simp only at h4
    refine ⟨s3, h1, h3.trans hlen, ?_, ?_, ?_⟩
    · rw [h2, hhead, headD_eq_getD, headD_eq_getD, getD_snoc_lt l fs 0 hpos]
    · intro a ha
      have ha1 : a ∉ l := fun x => ha (List.mem_append_left _ x)
      have ha2 : a ≠ fs := fun x => ha (by simp [x])
      have ha3 : a ≠ s.theFileSystems := by
        rw [hhead1]; exact fun e => ha1 (e ▸ hmem_head)
      have ha4 : a ≠ l.getD (l.length - 1) 0 := fun e => ha1 (e ▸ hmem_last)
      rw [h4, if_neg ha3, if_neg ha4, if_neg ha2]
      exact hout a ha1
    · intro i hi
      rw [List.length_append, List.length_singleton] at hi ⊢
      by_cases hin1 : i = l.length
      · subst hin1
        rw [getD_snoc_len]
        refine ⟨dfs, hdfs0, ?_⟩
        rw [h4, if_neg (by rw [hhead1]; exact hfh), if_neg hfl, if_pos rfl]
        have e1 : ring_next (l.length + 1) l.length = 0 := by simp [ring_next]
        have e2 : ring_prev (l.length + 1) l.length = l.length - 1 := by
          simp only [ring_prev]; rw [if_neg hn]
        rw [e1, e2, getD_snoc_lt l fs 0 hpos, getD_snoc_lt l fs _ (by omega), hhead1]
      · have hil : i < l.length := by omega
        rw [getD_snoc_lt l fs i hil]
        obtain ⟨d0, hd0, hds⟩ := hin i hil
        refine ⟨d0, hd0, ?_⟩
        have hxfs : l.getD i 0 ≠ fs := fun e => hfs (e ▸ getD_mem l i hil)
        rw [h4]
        by_cases hi0 : i = 0
        · subst hi0
          rw [if_pos hhead1.symm]
          rw [ha0] at hd0
          have ed : d0 = d0a := (Option.some.inj hd0).symm
          subst ed
          have e2 : ring_prev (l.length + 1) 0 = l.length := by simp [ring_prev]
          rw [e2, getD_snoc_len]
          by_cases h1n : l.length = 1
          · have e1 : ring_next (l.length + 1) 0 = l.length := by
              simp only [ring_next]; rw [if_neg (by omega)]; omega
            rw [e1, getD_snoc_len]
            have e0 : l.length - 1 = 0 := by omega
            rw [e0] at hl0 hls ⊢
            rw [ha0] at hl0
            have ed : d0l = d0 := (Option.some.inj hl0).symm
            subst ed
            rw [if_pos hhead1.symm]
          · have e1 : ring_next (l.length + 1) 0 = 1 := by
              simp only [ring_next]; rw [if_neg (by omega)]
            have e3 : ring_next l.length 0 = 1 := by
              simp only [ring_next]; rw [if_neg (by omega)]
            rw [e1, getD_snoc_lt l fs 1 (by omega)]
            have hlh : ¬ (l.getD (l.length - 1) 0 = s.theFileSystems) := by
              rw [hhead1]
              intro e
              have := nodup_getD_inj l hnd _ _ (by omega) hpos e
              omega
            rw [if_neg hlh, e3]
        · have hxh : ¬ (l.getD i 0 = s.theFileSystems) := by
            rw [hhead1]
            intro e
            exact hi0 (nodup_getD_inj l hnd _ _ hil hpos e)
          rw [if_neg hxh]
          have e2 : ring_prev (l.length + 1) i = i - 1 := by
            simp only [ring_prev]; rw [if_neg hi0]
          have e4 : ring_prev l.length i = i - 1 := by
            simp only [ring_prev]; rw [if_neg hi0]
          rw [e2, getD_snoc_lt l fs (i - 1) (by omega)]
          by_cases hil1 : i = l.length - 1
          · subst hil1
            rw [if_pos rfl]
            rw [hl0] at hd0
            have ed : d0 = d0l := (Option.some.inj hd0).symm
            subst ed
            have e1 : ring_next (l.length + 1) (l.length - 1) = l.length := by
              simp only [ring_next]; rw [if_neg (by omega)]; omega
            rw [e1, getD_snoc_len, e4]
          · have hxl : ¬ (l.getD i 0 = l.getD (l.length - 1) 0) := by
              intro e
              exact hil1 (nodup_getD_inj l hnd _ _ hil (by omega) e)
            rw [if_neg hxl, if_neg hxfs, hds]
            have e1 : ring_next (l.length + 1) i = i + 1 := by
              simp only [ring_next]; rw [if_neg (by omega)]
            have e3 : ring_next l.length i = i + 1 := by
              simp only [ring_next]; rw [if_neg (by omega)]
            rw [e1, e3, e4, getD_snoc_lt l fs (i + 1) (by omega)]

theorem register_all_ring (s0 : Vfs) : ∀ (rest l : List Nat) (s : Vfs),
    registry_ring s0 s l → (l ++ rest).Nodup →
    (∀ a ∈ rest, 0 < a ∧ a ≤ s0.drivers.length) →
    ∃ s1, vfs_register_all rest s = some s1 ∧ registry_ring s0 s1 (l ++ rest) := by
  intro rest
  induction rest with
  | nil =>
    intro l s hr _ _
    exact ⟨s, rfl, by rw [List.append_nil]; exact hr⟩
  | cons fs rest ih =>
    intro l s hr hnd hv
    have hnd1 : (l ++ [fs] ++ rest).Nodup := by
      rw [List.append_assoc]; exact hnd
    have hnd2 : (l ++ [fs]).Nodup := (List.nodup_append.1 hnd1).1
    have hl : l.Nodup := (List.nodup_append.1 hnd2).1
    have hfs : fs ∉ l := by
      intro hx
      exact (List.nodup_append.1 hnd2).2.2 hx (List.mem_singleton_self fs)
    obtain ⟨s1, h1, hr1⟩ := ring_step s0 s l fs hr hl hfs (hv fs (List.mem_cons_self _ _))
    obtain ⟨s2, h2, hr2⟩ := ih (l ++ [fs]) s1 hr1 hnd1
      (fun a ha => hv a (List.mem_cons_of_mem _ ha))
    refine ⟨s2, ?_, ?_⟩
    · simp only [vfs_register_all, h1, Option.some_bind, h2]
    · have e : l ++ fs :: rest = l ++ [fs] ++ rest := by simp
      rw [e]; exact hr2

theorem earliest_cons (s : Vfs) (x : Nat) (t : List Nat) (fs_id : Nat) :
    earliest_with_id s (x :: t) fs_id =
      if (s.driver x).map (fun d => d.fs_id) = some fs_id then x
      else earliest_with_id s t fs_id := by
  simp only [earliest_with_id, List.find?_cons]
  by_cases h : (s.driver x).map (fun d => d.fs_id) = some fs_id
  · simp [h]
  · simp [h]

theorem fs_by_id_loop_spec (s0 s : Vfs) (l : List Nat) (hr : registry_ring s0 s l)
    (hnd : l.Nodup) (fs_id : Nat) : ∀ (fuel i : Nat), i < l.length → l.length - i ≤ fuel →
    vfs_fs_by_id_loop s fs_id fuel (l.getD i 0) = some (earliest_with_id s0 (l.drop i) fs_id) := by
  obtain ⟨hlen, hhead, hout, hin⟩ := hr
  intro fuel
  induction fuel with
  | zero => intro i hi hf; omega
  | succ fuel ih =>
    intro i hi hf
    obtain ⟨d0, hd0, hds⟩ := hin i hi
    have hdrop : l.drop i = l.getD i 0 :: l.drop (i + 1) := by
      rw [List.getD_eq_getElem l 0 hi]
      exact List.drop_eq_getElem_cons hi
    rw [hdrop, earliest_cons, hd0]
    simp only [vfs_fs_by_id_loop, hds, Option.bind_eq_bind, Option.some_bind, Option.map_some',
      Option.some.injEq]
    by_cases hid : d0.fs_id = fs_id
    · rw [if_pos hid, if_pos hid]
    · rw [if_neg hid, if_neg hid]
      have hpos : 0 < l.length := by omega
      have hh : s.theFileSystems = l.getD 0 0 := by rw [hhead, headD_eq_getD]
      by_cases hlast : i + 1 = l.length
      · have e : ring_next l.length i = 0 := by simp only [ring_next]; rw [if_pos hlast]
        rw [e, if_pos hh.symm]
        have : l.drop (i + 1) = [] := List.drop_eq_nil_of_le (by omega)
        rw [this]; rfl
      · have e : ring_next l.length i = i + 1 := by simp only [ring_next]; rw [if_neg hlast]
        have hne : ¬ (l.getD (i + 1) 0 = s.theFileSystems) := by
          rw [hh]
          intro x
          have := nodup_getD_inj l hnd _ _ (by omega) hpos x
          omega
        rw [e, if_neg hne]
        exact ih (i + 1) (by omega) (by omega)

theorem ring_length_le (s0 s : Vfs) (l : List Nat) (hr : registry_ring s0 s l)
    (hnd : l.Nodup) : l.length ≤ s0.drivers.length + 1 := by
  have hsub : l ⊆ List.range (s0.drivers.length + 1) := by
    intro a ha
    obtain ⟨i, hi, he⟩ := List.getElem_of_mem ha
    obtain ⟨d0, hd0, _⟩ := hr.2.2.2 i hi
    rw [List.getD_eq_getElem l 0 hi, he] at hd0
    have := driver_some_valid s0 a d0 hd0
    exact List.mem_range.2 (by omega)
  have := (List.subperm_of_subset hnd hsub).length_le
  simpa using this

theorem fs_by_id_spec (s0 s : Vfs) (l : List Nat) (hr : registry_ring s0 s l)
    (hnd : l.Nodup) (fs_id : Nat) :
    vfs_fs_by_id s fs_id = some (earliest_with_id s0 l fs_id) := by
  have hle := ring_length_le s0 s l hr hnd
  have hhead : s.theFileSystems = l.headD 0 := hr.2.1
  by_cases hn : l.length = 0
  · have hl : l = [] := List.length_eq_zero.1 hn
    subst hl
    simp only [vfs_fs_by_id, hhead, List.headD_nil, if_true]
    rfl
  · have hpos : 0 < l.length := Nat.pos_of_ne_zero hn
    obtain ⟨d0, hd0, _⟩ := hr.2.2.2 0 hpos
    have hh : s.theFileSystems = l.getD 0 0 := by rw [hhead, headD_eq_getD]
    have hne : s.theFileSystems ≠ 0 := by
      rw [hh]
      have := (driver_some_valid s0 _ _ hd0).1
      omega
    simp only [vfs_fs_by_id, hne, if_false]
    rw [hh]
    have := fs_by_id_loop_spec s0 s l hr hnd fs_id (s.drivers.length + 1) 0 hpos
      (by rw [hr.1]; omega)
    rw [this, List.drop_zero]

theorem ring_prev_next (n i : Nat) (hi : i < n) :
    ring_next n i < n ∧ ring_prev n i < n ∧ ring_prev n (ring_next n i) = i ∧
      ring_next n (ring_prev n i) = i := by
  have a1 : ring_next n i < n := by
    simp only [ring_next]; split <;> omega
  have a2 : ring_prev n i < n := by
    simp only [ring_prev]; split <;> omega
  refine ⟨a1, a2, ?_, ?_⟩
  · by_cases h : i + 1 = n
    · have e : ring_next n i = 0 := by simp only [ring_next]; rw [if_pos h]
      rw [e]; simp only [ring_prev, if_true]; omega
    · have e : ring_next n i = i + 1 := by simp only [ring_next]; rw [if_neg h]
      rw [e]; simp only [ring_prev]; rw [if_neg (by omega)]; omega
  · by_cases h : i = 0
    · have e : ring_prev n i = n - 1 := by simp only [ring_prev]; rw [if_pos h]
      rw [e]; simp only [ring_next]; rw [if_pos (by omega)]; omega
    · have e : ring_prev n i = i - 1 := by simp only [ring_prev]; rw [if_neg h]
      rw [e]; simp only [ring_next]; rw [if_neg (by omega)]; omega

theorem ring_inverse (s0 s : Vfs) (l : List Nat) (hr : registry_ring s0 s l) :
    ∀ a ∈ l, ∃ d dn dp, s.driver a = some d ∧
      d.lst_next ∈ l ∧ s.driver d.lst_next = some dn ∧ dn.lst_prev = a ∧
      d.lst_prev ∈ l ∧ s.driver d.lst_prev = some dp ∧ dp.lst_next = a := by
  intro a ha
  obtain ⟨i, hi, he⟩ := List.getElem_of_mem ha
  have hg : l.getD i 0 = a := by rw [List.getD_eq_getElem l 0 hi, he]
  obtain ⟨hn1, hp1, hpn, hnp⟩ := ring_prev_next l.length i hi
  obtain ⟨d0, _, hds⟩ := hr.2.2.2 i hi
  obtain ⟨dn0, _, hdn⟩ := hr.2.2.2 _ hn1
  obtain ⟨dp0, _, hdp⟩ := hr.2.2.2 _ hp1
  rw [hpn] at hdn
  rw [hnp] at hdp
  rw [hg] at hds hdn hdp
  exact ⟨_, _, _, hds, getD_mem l _ hn1, hdn, rfl, getD_mem l _ hp1, hdp, rfl⟩

/-- C23: from an empty registry, the calls `vfs_register_filesystem` on pairwise distinct
driver records `fss` all return and leave the ring of `fss` in this order: the head is the
first record, every record keeps its fields but the links, the links of the record at
position `i` point to the records at the next and the previous position of the ring, and
they are mutually inverse; `vfs_fs_by_id` returns the earliest record of `fss` with the
identifier asked for, and `NULL` when there is none. -/
theorem C23_registry (s0 : Vfs) (fss : List Nat) (hz : s0.theFileSystems = 0)
    (hnd : fss.Nodup) (hv : ∀ a ∈ fss, 0 < a ∧ a ≤ s0.drivers.length) :
    ∃ s, vfs_register_all fss s0 = some s ∧ registry_ring s0 s fss ∧
      (∀ a ∈ fss, ∃ d dn dp, s.driver a = some d ∧
        d.lst_next ∈ fss ∧ s.driver d.lst_next = some dn ∧ dn.lst_prev = a ∧
        d.lst_prev ∈ fss ∧ s.driver d.lst_prev = some dp ∧ dp.lst_next = a) ∧
      ∀ fs_id, vfs_fs_by_id s fs_id = some (earliest_with_id s0 fss fs_id) := by
  have h0 : registry_ring s0 s0 [] :=
    ⟨rfl, by simp [hz], fun _ _ => rfl, fun i hi => absurd hi (by simp)⟩
  obtain ⟨s, h1, hr⟩ := register_all_ring s0 fss [] s0 h0 (by simpa using hnd) hv
  rw [List.nil_append] at hr
  exact ⟨s, h1, hr, ring_inverse s0 s fss hr, fun fs_id => fs_by_id_spec s0 s fss hr hnd fs_id⟩

theorem C23_registry_witness :
    (∃ s, vfs_register_all [2, 1, 3] vfs_three = some s ∧ registry_ring vfs_three s [2, 1, 3] ∧
      (∀ a ∈ [2, 1, 3], ∃ d dn dp, s.driver a = some d ∧
        d.lst_next ∈ [2, 1, 3] ∧ s.driver d.lst_next = some dn ∧ dn.lst_prev = a ∧
        d.lst_prev ∈ [2, 1, 3] ∧ s.driver d.lst_prev = some dp ∧ dp.lst_next = a) ∧
      ∀ fs_id, vfs_fs_by_id s fs_id = some (earliest_with_id vfs_three [2, 1, 3] fs_id)) ∧
    earliest_with_id vfs_three [2, 1, 3] 7 = 1 ∧
    earliest_with_id vfs_three [2, 1, 3] RAMFS_ID = 2 ∧
    earliest_with_id vfs_three [2, 1, 3] 8 = 0 :=
  ⟨C23_registry vfs_three [2, 1, 3] rfl (by decide) (by decide), by decide, by decide,
    by decide⟩

/-! ## String comparison -/

theorem cget_zero (s : List Char) : cget s 0 = s.headD NUL := by
  cases s <;> rfl

theorem cget_succ (s : List Char) (i : Nat) : cget s (i + 1) = cget s.tail i := by
  cases s <;> rfl

theorem strlen_unfold (s : List Char) :
    strlen s = if s.headD NUL = NUL then 0 else strlen s.tail + 1 := by
  cases s with
  | nil => rfl
  | cons a t => simp [strlen]

theorem strncmp_spec (n : Nat) : ∀ (s1 s2 : List Char),
    (∃ k, k < n ∧ k ≤ min (strlen s1) (strlen s2) ∧ (∀ j, j < k → cget s1 j = cget s2 j) ∧
      cget s1 k ≠ cget s2 k ∧
      strncmp s1 s2 n = ((cget s2 k).toNat : Int) - ((cget s1 k).toNat : Int)) ∨
    ((∀ i, i < n → i ≤ min (strlen s1) (strlen s2) → cget s1 i = cget s2 i) ∧
      strncmp s1 s2 n = 0) := by
  induction n with
  | zero =>
    intro s1 s2
    exact Or.inr ⟨fun i hi => absurd hi (Nat.not_lt_zero i), by simp [strncmp]⟩
  | succ n ih =>
    intro s1 s2
    by_cases hd : s1.headD NUL ≠ s2.headD NUL
    · refine Or.inl ⟨0, Nat.succ_pos n, Nat.zero_le _, fun j hj => absurd hj (Nat.not_lt_zero j),
        ?_, ?_⟩
      · rw [cget_zero, cget_zero]; exact hd
      · rw [cget_zero, cget_zero]
        simp only [strncmp]
        rw [if_pos hd]
    · have hd1 : s1.headD NUL = s2.headD NUL := not_not.1 hd
      by_cases hz : s1.headD NUL = NUL
      · refine Or.inr ⟨?_, ?_⟩
        · intro i _ hi
          have h0 : strlen s1 = 0 := by rw [strlen_unfold, if_pos hz]
          have hi0 : i = 0 := by
            rw [h0] at hi
            have := Nat.le_trans hi (Nat.min_le_left _ _)
            omega
          rw [hi0, cget_zero, cget_zero]; exact hd1
        · simp only [strncmp]
          rw [if_neg hd, if_pos hz]
      · have hz2 : ¬ s2.headD NUL = NUL := by rw [← hd1]; exact hz
        have hl1 : strlen s1 = strlen s1.tail + 1 := by rw [strlen_unfold, if_neg hz]
        have hl2 : strlen s2 = strlen s2.tail + 1 := by rw [strlen_unfold, if_neg hz2]
        have hrec : strncmp s1 s2 (n + 1) = strncmp s1.tail s2.tail n := by
          simp only [strncmp]
          rw [if_neg hd, if_neg hz]
        rcases ih s1.tail s2.tail with ⟨k, hk, hkl, hagree, hdiff, hval⟩ | ⟨hagree, hval⟩
        · refine Or.inl ⟨k + 1, by omega, ?_, ?_, ?_, ?_⟩
          · rw [hl1, hl2]
            have := Nat.le_min.1 hkl
            exact Nat.le_min.2 ⟨by omega, by omega⟩
          · intro j hj
            cases j with
            | zero => rw [cget_zero, cget_zero]; exact hd1
            | succ j => rw [cget_succ, cget_succ]; exact hagree j (by omega)
          · rw [cget_succ, cget_succ]; exact hdiff
          · rw [cget_succ, cget_succ, hrec]; exact hval
        · refine Or.inr ⟨?_, by rw [hrec]; exact hval⟩
          intro i hi hil
          cases i with
          | zero => rw [cget_zero, cget_zero]; exact hd1
          | succ i =>
            rw [cget_succ, cget_succ]
            rw [hl1, hl2] at hil
            have := Nat.le_min.1 hil
            exact hagree i (by omega) (Nat.le_min.2 ⟨by omega, by omega⟩)

theorem strncmp_bound_irrelevant (n : Nat) : ∀ (m : Nat) (s1 s2 : List Char),
    min (strlen s1) (strlen s2) < n → min (strlen s1) (strlen s2) < m →
    strncmp s1 s2 n = strncmp s1 s2 m := by
  induction n with
  | zero => intro m s1 s2 h; omega
  | succ n ih =>
    intro m s1 s2 hn hm
    cases m with
    | zero => omega
    | succ m =>
      simp only [strncmp]
      by_cases hd : s1.headD NUL ≠ s2.headD NUL
      · rw [if_pos hd, if_pos hd]
      · rw [if_neg hd, if_neg hd]
        have hd1 : s1.headD NUL = s2.headD NUL := not_not.1 hd
        by_cases hz : s1.headD NUL = NUL
        · rw [if_pos hz, if_pos hz]
        · rw [if_neg hz, if_neg hz]
          have hz2 : ¬ s2.headD NUL = NUL := by rw [← hd1]; exact hz
          have hl1 : strlen s1 = strlen s1.tail + 1 := by rw [strlen_unfold, if_neg hz]
          have hl2 : strlen s2 = strlen s2.tail + 1 := by rw [strlen_unfold, if_neg hz2]
          rw [hl1, hl2] at hn hm
          have e : min (strlen s1.tail + 1) (strlen s2.tail + 1)
              = min (strlen s1.tail) (strlen s2.tail) + 1 := by
            simp only [Nat.min_def]; split <;> split <;> omega
          rw [e] at hn hm
          exact ih m s1.tail s2.tail (by omega) (by omega)

/-- C35: for all byte strings `s1`, `s2` and every `n`, `strncmp(s1, s2, n)` is 0 exactly
when the strings agree at every offset below `n` up to their first NUL; when `k` is the
first offset in that range at which they differ, the result is the byte of `s2` minus the
byte of `s1` at `k`, which is positive exactly when the byte of `s1` is the smaller one;
`strcmp` is `strncmp` with the bound `MAX_UINT`, and every bound past the first NUL gives
the same result. -/
theorem C35_strncmp (s1 s2 : List Char) (n : Nat) :
    (strncmp s1 s2 n = 0 ↔
      ∀ i, i < n → i ≤ min (strlen s1) (strlen s2) → cget s1 i = cget s2 i) ∧
    (∀ k, k < n → k ≤ min (strlen s1) (strlen s2) → (∀ j, j < k → cget s1 j = cget s2 j) →
      cget s1 k ≠ cget s2 k →
      strncmp s1 s2 n = ((cget s2 k).toNat : Int) - ((cget s1 k).toNat : Int) ∧
      (0 < strncmp s1 s2 n ↔ (cget s1 k).toNat < (cget s2 k).toNat)) ∧
    strcmp s1 s2 = strncmp s1 s2 MAX_UINT ∧
    (∀ m, min (strlen s1) (strlen s2) < m → min (strlen s1) (strlen s2) < MAX_UINT →
      strcmp s1 s2 = strncmp s1 s2 m) := by
  have hfirst : ∀ k, k < n → k ≤ min (strlen s1) (strlen s2) →
      (∀ j, j < k → cget s1 j = cget s2 j) → cget s1 k ≠ cget s2 k →
      strncmp s1 s2 n = ((cget s2 k).toNat : Int) - ((cget s1 k).toNat : Int) := by
    intro k hk hkl hagree hdiff
    rcases strncmp_spec n s1 s2 with ⟨k1, hk1, hkl1, hagree1, hdiff1, hval⟩ | ⟨hall, _⟩
    · have e : k1 = k := by
        rcases Nat.lt_trichotomy k1 k with x | x | x
        · exact absurd (hagree k1 x) hdiff1
        · exact x
        · exact absurd (hagree1 k x) hdiff
      rw [← e]; exact hval
    · exact absurd (hall k hk hkl) hdiff
  refine ⟨?_, ?_, rfl, ?_⟩
  · constructor
    · intro hz
      rcases strncmp_spec n s1 s2 with ⟨k, _, _, _, hdiff, hval⟩ | ⟨hall, _⟩
      · rw [hz] at hval
        have : (cget s2 k).toNat = (cget s1 k).toNat := by omega
        exact absurd (char_toNat_inj _ _ this).symm hdiff
      · exact hall
    · intro hall
      rcases strncmp_spec n s1 s2 with ⟨k, hk, hkl, _, hdiff, _⟩ | ⟨_, hval⟩
      · exact absurd (hall k hk hkl) hdiff
      · exact hval
  · intro k hk hkl hagree hdiff
    have hv := hfirst k hk hkl hagree hdiff
    refine ⟨hv, ?_⟩
    rw [hv]
    omega
  · intro m hm hmax
    exact strncmp_bound_irrelevant MAX_UINT m s1 s2 hmax hm

theorem C35_strncmp_witness :
    (strncmp "abc".toList "abd".toList 3 = 0 ↔ ∀ i, i < 3 →
      i ≤ min (strlen "abc".toList) (strlen "abd".toList) →
      cget "abc".toList i = cget "abd".toList i) ∧
    strncmp "abc".toList "abd".toList 3 = 1 ∧
    strncmp "abc".toList "abd".toList 2 = 0 ∧
    strcmp "abc".toList "abd".toList = strncmp "abc".toList "abd".toList 4 :=
  ⟨(C35_strncmp "abc".toList "abd".toList 3).1,
   ((C35_strncmp "abc".toList "abd".toList 3).2.1 2 (by decide) (by decide)
      (by intro j hj; interval_cases j <;> rfl) (by decide)).1,
   (C35_strncmp "abc".toList "abd".toList 2).1.2
      (by intro i hi _; interval_cases i <;> rfl),
   (C35_strncmp "abc".toList "abd".toList 3).2.2.2 4 (by decide) (by decide)⟩

/-! ## Failure of a directory creation -/

/-- C34: after `vfs_setup`, `ramfs_make_directory` on `nodir/x` fails with `ENOENT` and
reports inode 0, but `btree_get_index` of the index 2, which was `NULL` before the call,
is the address 6 after it, the cell at that address is freed memory, and the next
`ramfs_make_node` gets the inode number 3: the number 2 was consumed. -/
theorem C34_failed_mkdir_keeps_index :
    run_mkdir_fail.map (fun x => (x.1, x.2.1, x.2.2.2))
      = some ((ENOENT, 0), (some 0, some 6), 3) ∧
    run_mkdir_fail.map (fun x => x.2.2.1) = some (some Obj.freed) := by
  constructor <;> decide!

/-! ## Well-formedness of a directory table -/

theorem mem_of_getElem_some {α : Type} {l : List α} {i : Nat} {a : α}
    (h : l[i]? = some a) : a ∈ l := by
  obtain ⟨hl, e⟩ := List.getElem?_eq_some_iff.1 h
  rw [← e]
  exact List.getElem_mem _

theorem sum_length_set (de : ramfs_direntry) : ∀ (l : List (List ramfs_direntry)) (i : Nat)
    (c : List ramfs_direntry), l[i]? = some c →
    ((l.set i (c ++ [de])).map List.length).sum = (l.map List.length).sum + 1 := by
  intro l
  induction l with
  | nil => intro i c h; simp at h
  | cons x xs ih =>
    intro i c h
    cases i with
    | zero =>
      simp only [List.getElem?_cons_zero, Option.some.injEq] at h
      subst h
      simp only [List.set_cons_zero, List.map_cons, List.sum_cons, List.length_append,
        List.length_singleton]
      omega
    | succ i =>
      simp only [List.getElem?_cons_succ] at h
      simp only [List.set_cons_succ, List.map_cons, List.sum_cons, ih i c h]
      omega

theorem dir_wf_fresh : dir_wf { size := 0, htcap := 8, ht := List.replicate 8 [] } := by
  refine ⟨rfl, rfl, rfl, ?_, ?_⟩
  · intro i chain hi b hb
    have hm : chain ∈ List.replicate 8 ([] : List ramfs_direntry) := mem_of_getElem_some hi
    rw [List.eq_of_mem_replicate hm] at hb
    exact absurd hb (List.not_mem_nil b)
  · intro chain hm
    rw [List.eq_of_mem_replicate hm]
    exact List.Pairwise.nil

theorem dir_wf_insert (dir : ramfs_directory) (de : ramfs_direntry) (hwf : dir_wf dir)
    (hsize : dir.size + 1 < SIZE_MOD) :
    ∃ dir1 ret, ramfs_directory_insert dir de = some (dir1, ret) ∧ dir_wf dir1 := by
  obtain ⟨hcap, hlen, hsz, hbk, hpw⟩ := hwf
  have hne : dir.htcap ≠ 0 := by omega
  have hidx : de.de_hash % dir.htcap < dir.ht.length := by
    rw [hlen, hcap]; exact Nat.mod_lt _ (by decide)
  have hget : dir.ht[de.de_hash % dir.htcap]? = some (dir.ht[de.de_hash % dir.htcap]) :=
    List.getElem?_eq_getElem hidx
  have hget1 : dir.ht.get? (de.de_hash % dir.htcap) = some (dir.ht[de.de_hash % dir.htcap]) := by
    rw [List.get?_eq_getElem?]; exact hget
  have hmem : dir.ht[de.de_hash % dir.htcap] ∈ dir.ht := List.getElem_mem _
  cases hci : chain_insert de (dir.ht[de.de_hash % dir.htcap]) with
  | none =>
    refine ⟨dir, EEXIST, ?_, hcap, hlen, hsz, hbk, hpw⟩
    simp only [ramfs_directory_insert, hne, if_false, hget1, hci]
  | some c1 =>
    have hc1 := chain_insert_some _ _ _ hci
    have hnone : ¬ ∃ b ∈ dir.ht[de.de_hash % dir.htcap],
        b.de_hash = de.de_hash ∧ strcmp b.de_name de.de_name = 0 := by
      intro hx
      have := (chain_insert_none_iff _ _).2 hx
      rw [hci] at this
      exact absurd this (by simp)
    refine ⟨{ dir with ht := dir.ht.set (de.de_hash % dir.htcap) c1,
                       size := wrap (dir.size + 1) }, 0, ?_, hcap, ?_, ?_, ?_, ?_⟩
    · simp only [ramfs_directory_insert, hne, if_false, hget1, hci]
    · simp only [List.length_set]; exact hlen
    · simp only [wrap]
      rw [Nat.mod_eq_of_lt hsize, hc1, sum_length_set de dir.ht _ _ hget, hsz]
    · intro i chain hi b hb
      simp only at hi ⊢
      by_cases hii : de.de_hash % dir.htcap = i
      · subst hii
        rw [List.getElem?_set_self hidx] at hi
        have e : chain = c1 := (Option.some.inj hi).symm
        rw [e, hc1] at hb
        rcases List.mem_append.1 hb with y | y
        · exact hbk _ _ hget b y
        · rw [List.mem_singleton.1 y]
      · rw [List.getElem?_set_ne hii] at hi
        exact hbk i chain hi b hb
    · intro chain hm
      simp only at hm
      rcases List.mem_or_eq_of_mem_set hm with x | x
      · exact hpw chain x
      · rw [x, hc1]
        refine List.pairwise_append.2 ⟨hpw _ hmem, List.pairwise_singleton _ _, ?_⟩
        intro a ha b hb hab
        rw [List.mem_singleton.1 hb] at hab
        apply hnone
        refine ⟨a, ha, hab.1, ?_⟩
        rw [hab.2]
        exact strncmp_self _ _

theorem dir_wf_distinct (dir : ramfs_directory) (hwf : dir_wf dir) (i j p q : Nat)
    (ci cj : List ramfs_direntry) (a b : ramfs_direntry)
    (hi : dir.ht[i]? = some ci) (hj : dir.ht[j]? = some cj)
    (hp : ci[p]? = some a) (hq : cj[q]? = some b) (hne : i ≠ j ∨ p ≠ q) :
    ¬ (a.de_hash = b.de_hash ∧ a.de_name = b.de_name) := by
  obtain ⟨_, _, _, hbk, hpw⟩ := hwf
  intro hab
  have ha := hbk i ci hi a (mem_of_getElem_some hp)
  have hb := hbk j cj hj b (mem_of_getElem_some hq)
  have hij : i = j := by rw [← ha, ← hb, hab.1]
  subst hij
  rw [hi] at hj
  have e : cj = ci := (Option.some.inj hj).symm
  subst e
  have hpq : p ≠ q := by
    rcases hne with x | x
    · exact absurd rfl x
    · exact x
  have hP := hpw cj (mem_of_getElem_some hi)
  obtain ⟨hpl, hpe⟩ := List.getElem?_eq_some_iff.1 hp
  obtain ⟨hql, hqe⟩ := List.getElem?_eq_some_iff.1 hq
  rcases Nat.lt_or_gt_of_ne hpq with x | x
  · have := List.pairwise_iff_getElem.1 hP p q hpl hql x
    rw [hpe, hqe] at this
    exact this hab
  · have := List.pairwise_iff_getElem.1 hP q p hql hpl x
    rw [hpe, hqe] at this
    exact this ⟨hab.1.symm, hab.2.symm⟩

/-- C32: `ramfs_directory_new` makes a table with size 0, capacity 8 and eight empty
chains, which is well formed; `ramfs_directory_insert` on a well-formed table whose size
is below the largest `size_t` returns, with whatever code, a well-formed table: the
capacity is 8, `size` is the number of entries, every entry of chain `i` has
`de_hash % htcap = i` and no chain has two entries with equal hash and equal name; and in
a well-formed table no two entries, at different places of the table, have both equal
hash and equal name. -/
theorem C32_table_well_formed :
    (∀ h : Heap, (ramfs_directory_new h).1.directory (ramfs_directory_new h).2
        = some { size := 0, htcap := 8, ht := List.replicate 8 [] } ∧
      dir_wf { size := 0, htcap := 8, ht := List.replicate 8 [] }) ∧
    (∀ (dir : ramfs_directory) (de : ramfs_direntry), dir_wf dir → dir.size + 1 < SIZE_MOD →
      ∃ dir1 ret, ramfs_directory_insert dir de = some (dir1, ret) ∧ dir_wf dir1) ∧
    (∀ (dir : ramfs_directory), dir_wf dir →
      ∀ (i j p q : Nat) (ci cj : List ramfs_direntry) (a b : ramfs_direntry),
        dir.ht[i]? = some ci → dir.ht[j]? = some cj → ci[p]? = some a → cj[q]? = some b →
        (i ≠ j ∨ p ≠ q) → ¬ (a.de_hash = b.de_hash ∧ a.de_name = b.de_name)) := by
  refine ⟨?_, ?_, ?_⟩
  · intro h
    refine ⟨?_, dir_wf_fresh⟩
    rw [directory_eq]
    exact cell_kmalloc_new h _
  · intro dir de hwf hsize
    exact dir_wf_insert dir de hwf hsize
  · intro dir hwf i j p q ci cj a b hi hj hp hq hne
    exact dir_wf_distinct dir hwf i j p q ci cj a b hi hj hp hq hne

theorem C32_table_well_formed_witness :
    ∃ dir1 ret, ramfs_directory_insert { size := 0, htcap := 8, ht := List.replicate 8 [] }
        { de_hash := 11, de_name := ['a'], de_ino := 2 } = some (dir1, ret) ∧ dir_wf dir1 :=
  C32_table_well_formed.2.1 { size := 0, htcap := 8, ht := List.replicate 8 [] }
    { de_hash := 11, de_name := ['a'], de_ino := 2 }
    (C32_table_well_formed.1 []).2 (by decide)

/-! ## The root of the mount tree -/

theorem set_driver_mounts (s : Vfs) (p : Nat) (d : fsdriver) :
    (s.set_driver p d).mounts = s.mounts ∧ (s.set_driver p d).theRootMnt = s.theRootMnt := by
  cases p <;> exact ⟨rfl, rfl⟩

theorem read_superblock_links (strhash : List Char → Nat) (h : Heap) (sb : superblock)
    (h1 : Heap) (sb1 : superblock) (ret : Int)
    (hr : ramfs_read_superblock strhash h sb = some (h1, sb1, ret)) :
    sb1.sb_parent = sb.sb_parent ∧ sb1.sb_brother = sb.sb_brother ∧
      sb1.sb_children = sb.sb_children := by
  simp only [ramfs_read_superblock, Option.bind_eq_bind] at hr
  obtain ⟨r1, _, hr⟩ := Option.bind_eq_some.1 hr
  obtain ⟨r2, _, hr⟩ := Option.bind_eq_some.1 hr
  by_cases hret : r2.2.1 ≠ 0
  · rw [if_pos hret] at hr
    obtain ⟨r3, _, hr⟩ := Option.bind_eq_some.1 hr
    simp only [Option.some.injEq, Prod.mk.injEq] at hr
    rw [← hr.2.1]
    exact ⟨rfl, rfl, rfl⟩
  · rw [if_neg hret] at hr
    simp only [Option.some.injEq, Prod.mk.injEq] at hr
    rw [← hr.2.1]
    exact ⟨rfl, rfl, rfl⟩

theorem vfs_mount_cases (s : Vfs) (source fs_id : Nat) (target : List Char) (s1 : Vfs)
    (ret : Int) (hm : vfs_mount s source target fs_id = some (s1, ret)) :
    s1 = s ∨ (s.theRootMnt = 0 ∧ ∃ fs d rs h1 sb1 r0, s.driver fs = some d ∧
      d.ops.read_superblock = some rs ∧ rs s.heap (vfs_mount_sb source fs) = some (h1, sb1, r0) ∧
      s1.drivers = s.drivers ∧ s1.mounts = s.mounts ++ [sb1] ∧
      s1.theRootMnt = (if r0 = 0 then s.mounts.length + 1 else 0)) := by
  by_cases hroot : s.theRootMnt = 0
  · by_cases ht : cget target 0 ≠ FS_SEP ∨ cget target 1 ≠ NUL
    · simp only [vfs_mount, hroot, if_true, ht] at hm
      left
      have := congrArg (fun o => o.map Prod.fst) hm
      simpa using this.symm
    · simp only [vfs_mount, hroot, if_true, ht, if_false] at hm
      cases hfs : vfs_fs_by_id s fs_id with
      | none => simp [hfs] at hm
      | some fs =>
        simp only [hfs, Option.bind_eq_bind, Option.some_bind] at hm
        by_cases hz : fs = 0
        · simp only [hz, if_true] at hm
          left
          have := congrArg (fun o => o.map Prod.fst) hm
          simpa using this.symm
        · simp only [hz, if_false] at hm
          cases hd : s.driver fs with
          | none => simp [hd] at hm
          | some d =>
            simp only [hd, Option.some_bind] at hm
            cases hrs : d.ops.read_superblock with
            | none => simp [hrs] at hm
            | some rs =>
              simp only [hrs, Option.some_bind] at hm
              cases hr : rs s.heap (vfs_mount_sb source fs) with
              | none => simp [hr] at hm
              | some r =>
                obtain ⟨h1, sb1, r0⟩ := r
                simp only [hr, Option.some_bind] at hm
                right
                refine ⟨hroot, fs, d, rs, h1, sb1, r0, hd, hrs, hr, ?_⟩
                by_cases hr0 : r0 = 0
                · subst hr0
                  simp only [ne_eq, not_true_eq_false, if_false, Option.some.injEq,
                    Prod.mk.injEq] at hm
                  rw [← hm.1]
                  exact ⟨rfl, rfl, by simp⟩
                · simp only [ne_eq, hr0, not_false_eq_true, if_true, Option.some.injEq,
                    Prod.mk.injEq] at hm
                  rw [← hm.1]
                  exact ⟨rfl, rfl, by simp [hr0, hroot]⟩
  · simp only [vfs_mount, hroot, if_false] at hm
    left
    have := congrArg (fun o => o.map Prod.fst) hm
    simpa using this.symm

theorem driver_congr (s s1 : Vfs) (h : s1.drivers = s.drivers) (p : Nat) :
    s1.driver p = s.driver p := by
  cases p with
  | zero => rfl
  | succ a => simp only [Vfs.driver, h]

theorem mount_inv_mount (strhash : List Char → Nat) (s s1 : Vfs) (source fs_id : Nat)
    (target : List Char) (ret : Int) (hi : mount_inv strhash s)
    (hm : vfs_mount s source target fs_id = some (s1, ret)) : mount_inv strhash s1 := by
  rcases vfs_mount_cases s source fs_id target s1 ret hm with e |
    ⟨hroot, fs, d, rs, h1, sb1, r0, hd, hrs, hr, hdr, hmn, hrt⟩
  · rw [e]; exact hi
  · refine ⟨?_, ?_⟩
    · intro p d1 hp
      rw [driver_congr s s1 hdr p] at hp
      exact hi.1 p d1 hp
    · intro hne
      have hr0 : r0 = 0 := by
        by_contra hc
        rw [if_neg hc] at hrt
        exact hne hrt
      rw [if_pos hr0] at hrt
      have hrs1 := hi.1 fs d hd
      rw [hrs] at hrs1
      have e : rs = ramfs_read_superblock strhash := Option.some.inj hrs1
      rw [e] at hr
      obtain ⟨a, b, c⟩ := read_superblock_links strhash _ _ _ _ _ hr
      refine ⟨sb1, ?_, a, b, c⟩
      rw [hrt]
      simp only [Vfs.mount, hmn, List.get?_eq_getElem?]
      simp

theorem set_driver_ops (P : fs_ops → Prop) (s : Vfs) (p : Nat) (d0 : fsdriver)
    (hs : ∀ q d, s.driver q = some d → P d.ops) (h0 : P d0.ops) :
    ∀ q d, (s.set_driver p d0).driver q = some d → P d.ops := by
  intro q d hq
  rw [driver_set_driver] at hq
  by_cases hc : q = p ∧ 0 < p ∧ p ≤ s.drivers.length
  · rw [if_pos hc] at hq
    rw [← Option.some.inj hq]; exact h0
  · rw [if_neg hc] at hq
    exact hs q d hq

theorem mount_inv_register (strhash : List Char → Nat) (s s1 : Vfs) (fs : Nat)
    (hi : mount_inv strhash s) (hr : vfs_register_filesystem s fs = some s1) :
    mount_inv strhash s1 := by
  have key : (∀ q d, s1.driver q = some d →
      d.ops.read_superblock = some (ramfs_read_superblock strhash)) ∧
      s1.mounts = s.mounts ∧ s1.theRootMnt = s.theRootMnt := by
    simp only [vfs_register_filesystem, Option.bind_eq_bind] at hr
    by_cases hz : s.theFileSystems = 0
    · rw [if_pos hz] at hr
      obtain ⟨d, hd, hr⟩ := Option.bind_eq_some.1 hr
      have e := Option.some.inj hr
      rw [← e]
      refine ⟨?_, (set_driver_mounts s fs _).1, (set_driver_mounts s fs _).2⟩
      intro q d1 hq
      have hq1 : (s.set_driver fs { d with lst_next := fs, lst_prev := fs }).driver q
          = some d1 := by
        rw [← hq]; cases q <;> rfl
      exact set_driver_ops (fun o => o.read_superblock = some (ramfs_read_superblock strhash))
        s fs { d with lst_next := fs, lst_prev := fs } hi.1 (hi.1 fs d hd) q d1 hq1
    · rw [if_neg hz] at hr
      obtain ⟨hd0, hhd0, hr⟩ := Option.bind_eq_some.1 hr
      obtain ⟨d, hd, hr⟩ := Option.bind_eq_some.1 hr
      obtain ⟨l, hl, hr⟩ := Option.bind_eq_some.1 hr
      obtain ⟨hd2, hhd2, hr⟩ := Option.bind_eq_some.1 hr
      have e := Option.some.inj hr
      rw [← e]
      have p1 := set_driver_ops
        (fun o => o.read_superblock = some (ramfs_read_superblock strhash))
        s fs { d with lst_next := s.theFileSystems, lst_prev := hd0.lst_prev }
        hi.1 (hi.1 fs d hd)
      have p2 := set_driver_ops
        (fun o => o.read_superblock = some (ramfs_read_superblock strhash))
        _ hd0.lst_prev { l with lst_next := fs } p1 (p1 _ l hl)
      refine ⟨set_driver_ops
        (fun o => o.read_superblock = some (ramfs_read_superblock strhash))
        _ _ { hd2 with lst_prev := fs } p2 (p2 _ hd2 hhd2), ?_, ?_⟩
      · simp only [set_driver_mounts]
      · simp only [set_driver_mounts]
  refine ⟨key.1, ?_⟩
  rw [key.2.2]
  intro hne
  obtain ⟨sb, hsb, h3⟩ := hi.2 hne
  refine ⟨sb, ?_, h3⟩
  rw [← hsb]
  cases s.theRootMnt with
  | zero => rfl
  | succ a => simp only [Vfs.mount, key.2.1]

theorem mount_inv_reachable (strhash : List Char → Nat) (s : Vfs)
    (hr : vfs_reachable strhash s) : mount_inv strhash s := by
  induction hr with
  | boot =>
    refine ⟨?_, fun h => absurd rfl h⟩
    intro p d hp
    cases p with
    | zero => simp [Vfs.driver] at hp
    | succ a =>
      cases a with
      | zero =>
        simp only [Vfs.driver, vfs_boot, List.get?_cons_zero, Option.some.injEq] at hp
        rw [← hp]; rfl
      | succ b => simp [Vfs.driver, vfs_boot] at hp
  | register s s1 fs _ h ih => exact mount_inv_register strhash s s1 fs ih h
  | mount s s1 source target fs_id ret _ h ih =>
    exact mount_inv_mount strhash s s1 source fs_id target ret ih h

/-- C33: in every memory reachable from boot through `vfs_register_filesystem` and
`vfs_mount`, a root superblock, when there is one, has no parent, no brother and no
children; and for every path whose first byte is the separator, `vfs_mountnode_by_path`
returns 0, reports the root superblock and reports the path from offset 1 on: only the
first byte is removed. -/
theorem C33_root_has_no_children (strhash : List Char → Nat) (s : Vfs)
    (hr : vfs_reachable strhash s) (hroot : s.theRootMnt ≠ 0) :
    ∃ sb, s.mount s.theRootMnt = some sb ∧
      sb.sb_parent = 0 ∧ sb.sb_brother = 0 ∧ sb.sb_children = 0 ∧
      ∀ buf : List Char, cget buf 0 = FS_SEP →
        vfs_mountnode_by_path s (some buf) = some (0, some (s.theRootMnt, 1)) := by
  obtain ⟨sb, hsb, hp, hb, hc⟩ := (mount_inv_reachable strhash s hr).2 hroot
  refine ⟨sb, hsb, hp, hb, hc, ?_⟩
  intro buf h0
  have hn : ¬ cget buf 0 = NUL := by rw [h0]; decide
  have hm : vfs_match_mountpath s s.theRootMnt (buf.drop 1) = some (s.theRootMnt, none) := by
    simp only [vfs_match_mountpath, hsb, Option.bind_eq_bind, Option.some_bind, hc,
      vfs_match_mountpath_loop, if_true]
  have hsn : ¬ FS_SEP = NUL := by decide
  simp only [vfs_mountnode_by_path, hroot, if_false, hn, h0, ne_eq, not_true_eq_false,
    vfs_mountnode_by_path_loop, hm, Option.bind_eq_bind, Option.some_bind, Option.map_some',
    hsn]

theorem C33_root_has_no_children_witness :
    (vfs_ready djb2).isSome = true ∧
    ∀ s, vfs_ready djb2 = some s → ∃ sb, s.mount s.theRootMnt = some sb ∧
      sb.sb_parent = 0 ∧ sb.sb_brother = 0 ∧ sb.sb_children = 0 ∧
      ∀ buf : List Char, cget buf 0 = FS_SEP →
        vfs_mountnode_by_path s (some buf) = some (0, some (s.theRootMnt, 1)) := by
  refine ⟨by decide!, ?_⟩
  intro s hs
  have hrt : (vfs_ready djb2).map (fun x => x.theRootMnt) = some 1 := by decide!
  rw [hs] at hrt
  have hroot : s.theRootMnt ≠ 0 := by
    have : s.theRootMnt = 1 := Option.some.inj hrt
    rw [this]; decide
  simp only [vfs_ready, vfs_setup, Option.bind_eq_bind, Option.map_eq_some'] at hs
  obtain ⟨r, hr, hrs⟩ := hs
  obtain ⟨s0, hreg, hmnt⟩ := Option.bind_eq_some.1 hr
  have hreach : vfs_reachable djb2 s := by
    rw [← hrs]
    exact vfs_reachable.mount s0 r.1 _ _ _ r.2
      (vfs_reachable.register _ s0 _ vfs_reachable.boot hreg) hmnt
  exact C33_root_has_no_children djb2 s hreach hroot

/-! ## Directory iteration -/

theorem flatten_position {α : Type} : ∀ (ht : List (List α)) (k : Nat), k < ht.flatten.length →
    ∃ i pre e rest, ht[i]? = some (pre ++ e :: rest) ∧
      ht.flatten = (ht.take i).flatten ++ (pre ++ e :: rest) ++ (ht.drop (i + 1)).flatten ∧
      (ht.take i).flatten.length + pre.length = k := by
  intro ht
  induction ht with
  | nil => intro k hk; simp at hk
  | cons ch cs ih =>
    intro k hk
    by_cases hc : k < ch.length
    · refine ⟨0, ch.take k, ch[k], ch.drop (k + 1), ?_, ?_, ?_⟩
      · have : ch = ch.take k ++ ch[k] :: ch.drop (k + 1) := by
          rw [← List.drop_eq_getElem_cons hc, List.take_append_drop]
        simp only [List.getElem?_cons_zero, Option.some.injEq]
        exact this
      · have : ch = ch.take k ++ ch[k] :: ch.drop (k + 1) := by
          rw [← List.drop_eq_getElem_cons hc, List.take_append_drop]
        simp only [List.take_zero, List.flatten_nil, List.nil_append, List.drop_succ_cons,
          List.drop_zero, List.flatten_cons]
        rw [← this]
      · simp only [List.take_zero, List.flatten_nil, List.length_nil, Nat.zero_add,
          List.length_take]
        omega
    · have hk1 : k - ch.length < cs.flatten.length := by
        simp only [List.flatten_cons, List.length_append] at hk
        omega
      obtain ⟨i, pre, e, rest, h1, h2, h3⟩ := ih (k - ch.length) hk1
      refine ⟨i + 1, pre, e, rest, ?_, ?_, ?_⟩
      · simp only [List.getElem?_cons_succ]; exact h1
      · simp only [List.take_succ_cons, List.flatten_cons, List.drop_succ_cons, List.append_assoc]
        rw [h2]
        simp only [List.append_assoc]
      · simp only [List.take_succ_cons, List.flatten_cons, List.length_append]
        omega

theorem bucket_first_spec : ∀ (ht : List (List ramfs_direntry)) (j i : Nat)
    (e : ramfs_direntry) (rest : List ramfs_direntry),
    (ht.take i).flatten = [] → ht[i]? = some (e :: rest) →
    bucket_first ht j = some (j + i, e :: rest) := by
  intro ht
  induction ht with
  | nil => intro j i e rest _ h; simp at h
  | cons c cs ih =>
    intro j i e rest h0 hi
    cases i with
    | zero =>
      simp only [List.getElem?_cons_zero, Option.some.injEq] at hi
      rw [hi]; rfl
    | succ i =>
      simp only [List.take_succ_cons, List.flatten_cons, List.append_eq_nil] at h0
      simp only [List.getElem?_cons_succ] at hi
      rw [h0.1]
      simp only [bucket_first]
      rw [ih (j + 1) i e rest h0.2 hi]
      congr 2
      omega

theorem bucket_next_spec (htcap : Nat) : ∀ (l : List (List ramfs_direntry)) (j : Nat),
    j + l.length = htcap → bucket_next htcap l j = some l.flatten.head? := by
  intro l
  induction l with
  | nil =>
    intro j hj
    simp only [List.length_nil, Nat.add_zero] at hj
    simp only [bucket_next, hj, Nat.le_refl, if_true, List.flatten_nil, List.head?_nil]
  | cons c cs ih =>
    intro j hj
    simp only [List.length_cons] at hj
    have hlt : ¬ htcap ≤ j := by omega
    cases c with
    | nil =>
      simp only [bucket_next, hlt, if_false, List.flatten_cons, List.nil_append]
      exact ih (j + 1) (by omega)
    | cons de r =>
      simp only [bucket_next, hlt, if_false, List.flatten_cons, List.cons_append, List.head?_cons]

theorem chain_seek_spec (hash : Nat) (e : ramfs_direntry) (rest : List ramfs_direntry)
    (he : e.de_hash = hash) : ∀ (pre : List ramfs_direntry), (∀ a ∈ pre, a.de_hash ≠ hash) →
    chain_seek hash (pre ++ e :: rest) = some (some (e :: rest)) := by
  intro pre
  induction pre with
  | nil =>
    intro _
    rw [List.nil_append, chain_seek.eq_def]
    simp only [he, if_true]
  | cons a pre ih =>
    intro hall
    have ha : a.de_hash ≠ hash := hall a (List.mem_cons_self _ _)
    have hr := ih (fun x hx => hall x (List.mem_cons_of_mem _ hx))
    cases pre with
    | nil =>
      rw [List.nil_append] at hr
      rw [List.cons_append, List.nil_append, chain_seek.eq_def]
      simp only [ha, if_false]
      exact hr
    | cons b pre1 =>
      rw [List.cons_append] at hr
      rw [List.cons_append, List.cons_append, chain_seek.eq_def]
      simp only [ha, if_false]
      exact hr

theorem get_direntry_step (h : Heap) (sb : superblock) (dirnode iter : Nat) (out0 : dirent)
    (p : Nat) (di : inode) (dir : ramfs_directory) (i : Nat) (e : ramfs_direntry)
    (rest : List ramfs_direntry) (q : Nat) (ino : inode) (next : Option ramfs_direntry)
    (h1 : ramfs_idata_by_inode h sb dirnode = some p) (hp : p ≠ 0)
    (h2 : h.inode p = some di) (h3 : S_ISDIR di.i_mode = true)
    (h4 : h.directory di.i_data = some dir) (hcap : dir.htcap ≠ 0)
    (hlen : dir.ht.length = dir.htcap)
    (hseek : iter % 4294967296 ≠ 0 →
      ∃ chain, dir.ht.get? (iter % 4294967296 % dir.htcap) = some chain ∧
        chain_seek (iter % 4294967296) chain = some (some (e :: rest)) ∧
        i = iter % 4294967296 % dir.htcap)
    (hfirst : iter % 4294967296 = 0 → bucket_first dir.ht 0 = some (i, e :: rest))
    (hq : ramfs_idata_by_inode h sb e.de_ino = some q) (hq0 : q ≠ 0)
    (hino : h.inode q = some ino)
    (hnext : rest = [] → bucket_next dir.htcap (dir.ht.drop (i + 1)) (i + 1) = some next)
    (hnext2 : ∀ nx r, rest = nx :: r → next = some nx) :
    ramfs_get_direntry h sb dirnode iter out0
      = some (0, (next.map (fun x => x.de_hash)).getD 0,
          { d_ino := e.de_ino, d_namlen := strlen e.de_name,
            d_type := dirent_type ino.i_mode, d_name := strncpy e.de_name UCHAR_MAX }) := by
  have hfound : ∃ chain, dir.ht.get? (iter % 4294967296 % dir.htcap) = some chain ∧
      (if iter % 4294967296 ≠ 0 then
        match chain_seek (iter % 4294967296) chain with
        | none => none
        | some none => some none
        | some (some c) => some (some (iter % 4294967296 % dir.htcap, c))
      else (bucket_first dir.ht 0).map some) = some (some (i, e :: rest)) := by
    by_cases hz : iter % 4294967296 ≠ 0
    · obtain ⟨chain, hc, hs, hi⟩ := hseek hz
      refine ⟨chain, hc, ?_⟩
      rw [if_pos hz, hs, hi]
    · have hz0 : iter % 4294967296 = 0 := not_not.1 hz
      have hidx : iter % 4294967296 % dir.htcap < dir.ht.length := by
        rw [hlen]; exact Nat.mod_lt _ (Nat.pos_of_ne_zero hcap)
      refine ⟨dir.ht[iter % 4294967296 % dir.htcap], ?_, ?_⟩
      · rw [List.get?_eq_getElem?]; exact List.getElem?_eq_getElem hidx
      · rw [if_neg hz, hfirst hz0]; rfl
  obtain ⟨chain, hc, hf⟩ := hfound
  have hs3 : ¬ ¬ S_ISDIR di.i_mode = true := not_not.2 h3
  simp only [ramfs_get_direntry, h1, Option.bind_eq_bind, Option.some_bind, hp, if_false, h2,
    hs3, h4, hcap, hc, hf, hq, hq0, hino, Option.map_some']
  cases rest with
  | nil =>
    simp only [hnext rfl, Option.some_bind]
    cases next with
    | none => rfl
    | some nx => rfl
  | cons nx r =>
    rw [hnext2 nx r rfl]
    rfl

/-- C31: for a directory inode whose table has `htcap` chains, keeps every entry in the
chain of `de_hash % htcap`, is not empty and has entries with pairwise distinct, non-zero
32-bit hashes that refer to inodes of the index: for every `k` below `size`, the call of
`ramfs_get_direntry` with the iterator left by the call before it (`NULL` for `k = 0`, else
the hash of entry `k`) returns 0, writes `d_ino`, `d_namlen`, `d_type` and `d_name` of
entry `k` of the table in bucket-major, chain-minor order, and leaves as iterator the hash
of entry `k + 1`, which is not `NULL`, or `NULL` when entry `k` is the last one. -/
theorem C31_direntry_walk (h : Heap) (sb : superblock) (dirnode : Nat) (out0 : dirent)
    (p : Nat) (di : inode) (dir : ramfs_directory)
    (h1 : ramfs_idata_by_inode h sb dirnode = some p) (hp : p ≠ 0)
    (h2 : h.inode p = some di) (h3 : S_ISDIR di.i_mode = true)
    (h4 : h.directory di.i_data = some dir)
    (hlen : dir.ht.length = dir.htcap)
    (hbk : ∀ (i : Nat) (chain : List ramfs_direntry), dir.ht[i]? = some chain →
      ∀ b ∈ chain, b.de_hash % dir.htcap = i)
    (hsize : dir.size = dir.ht.flatten.length)
    (hh : ∀ e ∈ dir.ht.flatten, e.de_hash ≠ 0 ∧ e.de_hash < 4294967296)
    (hpw : dir.ht.flatten.Pairwise (fun a b => a.de_hash ≠ b.de_hash))
    (hino : ∀ e ∈ dir.ht.flatten, ∃ q ino, ramfs_idata_by_inode h sb e.de_ino = some q ∧
      q ≠ 0 ∧ h.inode q = some ino) :
    ∀ k, k < dir.size → ∃ e q ino, dir.ht.flatten[k]? = some e ∧
      ramfs_idata_by_inode h sb e.de_ino = some q ∧ h.inode q = some ino ∧
      ramfs_get_direntry h sb dirnode (if k = 0 then 0 else e.de_hash) out0
        = some (0, ((dir.ht.flatten[k + 1]?).map (fun x => x.de_hash)).getD 0,
            { d_ino := e.de_ino, d_namlen := strlen e.de_name,
              d_type := dirent_type ino.i_mode, d_name := strncpy e.de_name UCHAR_MAX }) ∧
      (k + 1 < dir.size → ((dir.ht.flatten[k + 1]?).map (fun x => x.de_hash)).getD 0 ≠ 0) ∧
      (k + 1 = dir.size → ((dir.ht.flatten[k + 1]?).map (fun x => x.de_hash)).getD 0 = 0) := by
  intro k hk
  rw [hsize] at hk
  obtain ⟨i, pre, e, rest, hi, hflat, hpos⟩ := flatten_position dir.ht k hk
  have hflat1 : dir.ht.flatten = ((dir.ht.take i).flatten ++ pre) ++
      (e :: (rest ++ (dir.ht.drop (i + 1)).flatten)) := by
    rw [hflat]; simp only [List.append_assoc, List.cons_append]
  have hAl : ((dir.ht.take i).flatten ++ pre).length = k := by
    rw [List.length_append]; exact hpos
  have hek : dir.ht.flatten[k]? = some e := by
    rw [hflat1, List.getElem?_append_right (by omega), hAl, Nat.sub_self,
      List.getElem?_cons_zero]
  have hnk : dir.ht.flatten[k + 1]? = (rest ++ (dir.ht.drop (i + 1)).flatten).head? := by
    rw [hflat1, List.getElem?_append_right (by omega), hAl]
    have : k + 1 - k = 1 := by omega
    rw [this, List.getElem?_cons_succ, List.head?_eq_getElem?]
  have hemem : e ∈ dir.ht.flatten := mem_of_getElem_some hek
  have hechain : e ∈ pre ++ e :: rest :=
    List.mem_append_right _ (List.mem_cons_self _ _)
  have hei : e.de_hash % dir.htcap = i := hbk i _ hi e hechain
  have hil : i < dir.ht.length := (List.getElem?_eq_some_iff.1 hi).1
  have hcap : dir.htcap ≠ 0 := by omega
  have hpre : ∀ a ∈ pre, a.de_hash ≠ e.de_hash := by
    intro a ha
    rw [hflat1] at hpw
    exact (List.pairwise_append.1 hpw).2.2 a (List.mem_append_right _ ha) e
      (List.mem_cons_self _ _)
  have hmod : e.de_hash % 4294967296 = e.de_hash := Nat.mod_eq_of_lt (hh e hemem).2
  obtain ⟨q, ino, hq, hq0, hqi⟩ := hino e hemem
  refine ⟨e, q, ino, hek, hq, hqi, ?_, ?_, ?_⟩
  · refine get_direntry_step h sb dirnode _ out0 p di dir i e rest q ino _ h1 hp h2 h3 h4 hcap
      hlen ?_ ?_ hq hq0 hqi ?_ ?_
    · intro hz
      by_cases hk0 : k = 0
      · rw [if_pos hk0] at hz
        exact absurd rfl hz
      · rw [if_neg hk0, hmod, hei]
        refine ⟨pre ++ e :: rest, ?_, chain_seek_spec _ e rest rfl pre hpre, rfl⟩
        rw [List.get?_eq_getElem?]; exact hi
    · intro hz
      have hk0 : k = 0 := by
        by_contra hc
        rw [if_neg hc, hmod] at hz
        exact (hh e hemem).1 hz
      rw [hk0] at hpos
      have hA : (dir.ht.take i).flatten = [] := List.length_eq_zero.1 (by omega)
      have hP : pre = [] := List.length_eq_zero.1 (by omega)
      rw [hP, List.nil_append] at hi
      have := bucket_first_spec dir.ht 0 i e rest hA hi
      rw [Nat.zero_add] at this
      exact this
    · intro hr
      have hb := bucket_next_spec dir.htcap (dir.ht.drop (i + 1)) (i + 1)
        (by rw [List.length_drop]; omega)
      rw [hb, hnk, hr, List.nil_append]
    · intro nx r hr
      rw [hnk, hr]
      rfl
  · intro hlt
    rw [hsize] at hlt
    have hx : dir.ht.flatten[k + 1]? = some (dir.ht.flatten[k + 1]) :=
      List.getElem?_eq_getElem hlt
    rw [hx]
    exact (hh _ (List.getElem_mem _)).1
  · intro heq
    rw [hsize] at heq
    have hx : dir.ht.flatten[k + 1]? = none := List.getElem?_eq_none (by omega)
    rw [hx]
    rfl

theorem bucket_inv_of_bounded (ht : List (List ramfs_direntry)) (htcap : Nat)
    (hb : ∀ i, i < ht.length → ∀ b ∈ (ht[i]?).getD [], b.de_hash % htcap = i) :
    ∀ (i : Nat) (chain : List ramfs_direntry), ht[i]? = some chain →
      ∀ b ∈ chain, b.de_hash % htcap = i := by
  intro i chain hi b hmem
  have hl : i < ht.length := (List.getElem?_eq_some_iff.1 hi).1
  have := hb i hl b
  rw [hi] at this
  exact this hmem

theorem inode_of_isSome (h : Heap) (sb : superblock) (l : List ramfs_direntry)
    (hs : ∀ e ∈ l, ((ramfs_idata_by_inode h sb e.de_ino).bind
      (fun q => if q = 0 then none else h.inode q)).isSome = true) :
    ∀ e ∈ l, ∃ q ino, ramfs_idata_by_inode h sb e.de_ino = some q ∧ q ≠ 0 ∧
      h.inode q = some ino := by
  intro e he
  have := hs e he
  obtain ⟨ino, hino⟩ := Option.isSome_iff_exists.1 this
  obtain ⟨q, hq, hr⟩ := Option.bind_eq_some.1 hino
  by_cases hz : q = 0
  · rw [if_pos hz] at hr
    exact absurd hr (by simp)
  · rw [if_neg hz] at hr
    exact ⟨q, ino, hq, hz, hr⟩

theorem C31_direntry_walk_witness :
    root_dir_a.size = 3 ∧
    ∀ k, k < root_dir_a.size → ∃ e q ino, root_dir_a.ht.flatten[k]? = some e ∧
      ramfs_idata_by_inode heap_a sb_a e.de_ino = some q ∧ heap_a.inode q = some ino ∧
      ramfs_get_direntry heap_a sb_a 1 (if k = 0 then 0 else e.de_hash)
          { d_ino := 0, d_namlen := 0, d_type := 0, d_name := [] }
        = some (0, ((root_dir_a.ht.flatten[k + 1]?).map (fun x => x.de_hash)).getD 0,
            { d_ino := e.de_ino, d_namlen := strlen e.de_name,
              d_type := dirent_type ino.i_mode, d_name := strncpy e.de_name UCHAR_MAX }) ∧
      (k + 1 < root_dir_a.size →
        ((root_dir_a.ht.flatten[k + 1]?).map (fun x => x.de_hash)).getD 0 ≠ 0) ∧
      (k + 1 = root_dir_a.size →
        ((root_dir_a.ht.flatten[k + 1]?).map (fun x => x.de_hash)).getD 0 = 0) :=
  ⟨by decide!,
   C31_direntry_walk heap_a sb_a 1 { d_ino := 0, d_namlen := 0, d_type := 0, d_name := [] }
    4 root_inode_a root_dir_a (by decide!) (by decide) (by decide!) (by decide!) (by decide!)
    (by decide!) (bucket_inv_of_bounded _ _ (by decide!)) (by decide!) (by decide!) (by decide!)
    (inode_of_isSome _ _ _ (by decide!))⟩

/-! ## The root mount -/

theorem new_entry_ok (strhash : List Char → Nat) (h : Heap) (dir idata : Nat)
    (name : List Char) (i : inode) (d : ramfs_directory)
    (hi : h.inode idata = some i) (hd : h.directory dir = some d) (hcap : 0 < d.htcap)
    (hlen : d.ht.length = d.htcap)
    (hnew : ∀ chain ∈ d.ht, ∀ b ∈ chain, strcmp b.de_name (strdup name) ≠ 0) :
    ∃ d1, ramfs_directory_new_entry strhash h dir name idata
        = some ((h.store dir (Obj.dir d1)).store idata
            (Obj.ino { i with i_nlinks := i.i_nlinks + 1 }), 0) ∧
      0 < d1.htcap ∧ d1.ht.length = d1.htcap ∧
      ∀ chain ∈ d1.ht, ∀ b ∈ chain, (∃ c ∈ d.ht, b ∈ c) ∨ b.de_name = strdup name := by
  have hne : d.htcap ≠ 0 := by omega
  have hidx : hash32 strhash name (strlen name) % d.htcap < d.ht.length := by
    rw [hlen]; exact Nat.mod_lt _ hcap
  have hget : d.ht.get? (hash32 strhash name (strlen name) % d.htcap)
      = some (d.ht.getD (hash32 strhash name (strlen name) % d.htcap) []) := by
    simp [List.getD, hidx]
  have hmem : d.ht.getD (hash32 strhash name (strlen name) % d.htcap) [] ∈ d.ht := by
    have : d.ht.getD (hash32 strhash name (strlen name) % d.htcap) []
        = d.ht[hash32 strhash name (strlen name) % d.htcap] := by
      simp [List.getD, hidx]
    rw [this]
    exact List.getElem_mem _
  have hdi : idata ≠ dir := by
    intro e
    rw [e, inode_eq, (directory_eq _ _ _).1 hd] at hi
    simp at hi
  cases hci : chain_insert
      { de_hash := hash32 strhash name (strlen name), de_name := strdup name, de_ino := i.i_no }
      (d.ht.getD (hash32 strhash name (strlen name) % d.htcap) []) with
  | none =>
    obtain ⟨b, hb, -, hs⟩ := (chain_insert_none_iff _ _).1 hci
    exact absurd hs (hnew _ hmem b hb)
  | some c1 =>
    have hc1 := chain_insert_some _ _ _ hci
    refine ⟨{ d with ht := d.ht.set (hash32 strhash name (strlen name) % d.htcap) c1,
                     size := wrap (d.size + 1) }, ?_, hcap, ?_, ?_⟩
    · have hins : ramfs_directory_insert d
          { de_hash := hash32 strhash name (strlen name), de_name := strdup name,
            de_ino := i.i_no }
          = some ({ d with ht := d.ht.set (hash32 strhash name (strlen name) % d.htcap) c1,
                           size := wrap (d.size + 1) }, 0) := by
        simp only [ramfs_directory_insert, hne, if_false, hget, hci]
      have hi1 : (h.store dir (Obj.dir { d with
          ht := d.ht.set (hash32 strhash name (strlen name) % d.htcap) c1,
          size := wrap (d.size + 1) })).inode idata = some i :=
        inode_store_other h dir idata _ i hi hdi
      simp only [ramfs_directory_new_entry, hi, hd, Option.bind_eq_bind, Option.some_bind, hins,
        ne_eq, not_true_eq_false, if_false, hi1]
    · simp only [List.length_set]; exact hlen
    · intro chain hch b hb
      simp only at hch
      rcases List.mem_or_eq_of_mem_set hch with x | x
      · exact Or.inl ⟨chain, x, hb⟩
      · rw [x, hc1] at hb
        rcases List.mem_append.1 hb with y | y
        · exact Or.inl ⟨_, hmem, y⟩
        · rw [List.mem_singleton.1 y]
          exact Or.inr rfl

theorem fresh_chain_empty (chain : List ramfs_direntry) (h : chain ∈ dir_fresh.ht)
    (b : ramfs_direntry) : b ∉ chain := by
  have : chain = [] := List.eq_of_mem_replicate h
  rw [this]; exact List.not_mem_nil b

theorem make_directory_root (strhash : List Char → Nat) (dev : Nat) :
    ∃ d, ramfs_make_directory strhash heap_seeded (sb_seeded dev) [] (S_IFDIR ||| 493)
      = some (heap_root d, 0, 1) := by
  have hn : ramfs_inode_new heap_seeded (sb_seeded dev) (S_IFDIR ||| (S_IFDIR ||| 493))
      = some (heap_mounting 0 0 [], 4) := rfl
  have hdn : ramfs_directory_new (heap_mounting 0 0 [])
      = (heap_mounting 0 0 [Obj.dir dir_fresh], 5) := rfl
  obtain ⟨d1, he1, hc1, hl1, hm1⟩ := new_entry_ok strhash (heap_mounting 0 0 [Obj.dir dir_fresh])
    5 4 ['.', '.'] _ dir_fresh rfl rfl (by decide) rfl
    (fun chain hch b hb => absurd hb (fresh_chain_empty chain hch b))
  have hs1 : ((heap_mounting 0 0 [Obj.dir dir_fresh]).store 5 (Obj.dir d1)).store 4
      (Obj.ino { ({ inode_zero with i_no := 1, i_mode := S_IFDIR ||| 493, i_nlinks := 0,
                                    i_data := 0 } : inode) with i_nlinks := 0 + 1 })
      = heap_mounting 1 0 [Obj.dir d1] := rfl
  rw [hs1] at he1
  obtain ⟨d2, he2, hc2, hl2, hm2⟩ := new_entry_ok strhash (heap_mounting 1 0 [Obj.dir d1])
    5 4 ['.'] _ d1 rfl rfl hc1 hl1
    (by
      intro chain hch b hb
      rcases hm1 chain hch b hb with ⟨c, hc, hbc⟩ | hname
      · exact absurd hbc (fresh_chain_empty c hc b)
      · rw [hname]; decide)
  have hs2 : ((heap_mounting 1 0 [Obj.dir d1]).store 5 (Obj.dir d2)).store 4
      (Obj.ino { ({ inode_zero with i_no := 1, i_mode := S_IFDIR ||| 493, i_nlinks := 1,
                                    i_data := 0 } : inode) with i_nlinks := 1 + 1 })
      = heap_mounting 2 0 [Obj.dir d2] := rfl
  rw [hs2] at he2
  refine ⟨d2, ?_⟩
  have hp : (sb_seeded dev).sb_parent = 0 := rfl
  have hc : cget [] 0 = NUL := rfl
  simp only [ramfs_make_directory, hn, Option.bind_eq_bind, Option.some_bind, hdn, hc, if_true,
    hp, he1, he2, ne_eq, not_true_eq_false, if_false]
  rfl

theorem read_superblock_boot (strhash : List Char → Nat) (dev : Nat) :
    ∃ d, ramfs_read_superblock strhash heap_init (vfs_mount_sb dev ramfs_driver_addr)
      = some (heap_root d, sb_root dev, 0) := by
  obtain ⟨d, hd⟩ := make_directory_root strhash dev
  refine ⟨d, ?_⟩
  have hdn : ramfs_data_new heap_init = some (heap_seeded, 2) := rfl
  simp only [ramfs_read_superblock, hdn, Option.bind_eq_bind, Option.some_bind]
  erw [hd]
  rfl

theorem register_boot (strhash : List Char → Nat) :
    vfs_register_filesystem (vfs_boot strhash) ramfs_driver_addr
      = some (vfs_registered_for strhash) := rfl

theorem fs_by_id_head (s : Vfs) (d : fsdriver) (hne : s.theFileSystems ≠ 0)
    (hd : s.driver s.theFileSystems = some d) :
    vfs_fs_by_id s d.fs_id = some s.theFileSystems := by
  simp only [vfs_fs_by_id, hne, if_false, vfs_fs_by_id_loop, hd, Option.bind_eq_bind,
    Option.some_bind, if_true]

theorem mount_registered (strhash : List Char → Nat) (dev : Nat) (d : ramfs_directory)
    (hd : ramfs_read_superblock strhash heap_init (vfs_mount_sb dev ramfs_driver_addr)
      = some (heap_root d, sb_root dev, 0)) :
    vfs_mount (vfs_registered_for strhash) dev ['/'] RAMFS_ID
      = some (vfs_mounted strhash dev d, 0) := by
  have hroot : (vfs_registered_for strhash).theRootMnt = 0 := rfl
  have ht : ¬ (cget ['/'] 0 ≠ FS_SEP ∨ cget ['/'] 1 ≠ NUL) := by decide
  have hdr : (vfs_registered_for strhash).driver 1
      = some { ramfs_driver strhash with lst_prev := 1, lst_next := 1 } := rfl
  have hfs : vfs_fs_by_id (vfs_registered_for strhash) RAMFS_ID = some 1 :=
    fs_by_id_head (vfs_registered_for strhash) _ (Nat.succ_ne_zero 0) hdr
  have hops : (ramfs_driver strhash).ops.read_superblock
      = some (ramfs_read_superblock strhash) := rfl
  have hd1 : ramfs_read_superblock strhash heap_init (vfs_mount_sb dev 1)
      = some (heap_root d, sb_root dev, 0) := hd
  have hheap : (vfs_registered_for strhash).heap = heap_init := rfl
  have h10 : ¬ ((1 : Nat) = 0) := by decide
  simp only [vfs_mount, hroot, if_true, ht, if_false, hfs, Option.bind_eq_bind, Option.some_bind,
    h10, hdr, hops, hheap, hd1, ne_eq, not_true_eq_false]
  rfl

theorem vfs_setup_spec (strhash : List Char → Nat) (chr_virt chr0 : Nat) :
    ∃ d, vfs_setup strhash chr_virt chr0
      = some (vfs_mounted strhash (gnu_dev_makedev chr_virt chr0) d, 0) := by
  obtain ⟨d, hd⟩ := read_superblock_boot strhash (gnu_dev_makedev chr_virt chr0)
  refine ⟨d, ?_⟩
  unfold vfs_setup
  rw [register_boot, Option.bind_eq_bind, Option.some_bind]
  exact mount_registered strhash (gnu_dev_makedev chr_virt chr0) d hd

theorem mountnode_by_path_root (s : Vfs) (sb : superblock) (hroot : s.theRootMnt ≠ 0)
    (hsb : s.mount s.theRootMnt = some sb) (hc : sb.sb_children = 0) (buf : List Char)
    (h0 : cget buf 0 = FS_SEP) :
    vfs_mountnode_by_path s (some buf) = some (0, some (s.theRootMnt, 1)) := by
  have hn : ¬ cget buf 0 = NUL := by rw [h0]; decide
  have hm : vfs_match_mountpath s s.theRootMnt (buf.drop 1) = some (s.theRootMnt, none) := by
    simp only [vfs_match_mountpath, hsb, Option.bind_eq_bind, Option.some_bind, hc,
      vfs_match_mountpath_loop, if_true]
  have hsn : ¬ FS_SEP = NUL := by decide
  simp only [vfs_mountnode_by_path, hroot, if_false, hn, h0, ne_eq, not_true_eq_false,
    vfs_mountnode_by_path_loop, hm, Option.bind_eq_bind, Option.some_bind, Option.map_some',
    hsn]

theorem inode_data_root (dev : Nat) (d : ramfs_directory) :
    ramfs_inode_data (heap_root d) (sb_root dev) 1
      = some (0, some { inode_zero with i_no := 1, i_mode := S_IFDIR ||| 493, i_nlinks := 2,
                                        i_data := 5 }) := rfl

theorem lookup_root_empty (strhash : List Char → Nat) (dev : Nat) (d : ramfs_directory) :
    ramfs_lookup_inode strhash (heap_root d) (sb_root dev) [] SIZE_MAX = some (0, some 1) := by
  simp [ramfs_lookup_inode, cget, sb_root]

theorem stat_root (strhash : List Char → Nat) (dev : Nat) (d : ramfs_directory) :
    vfs_stat (vfs_mounted strhash dev d) (some ['/'])
      = some (0, some { st_dev := dev, st_ino := 1, st_mode := S_IFDIR ||| 493, st_nlink := 2,
                        st_rdev := 0, st_size := 0 }) := by
  have hmn : vfs_mountnode_by_path (vfs_mounted strhash dev d) (some ['/'])
      = some (0, some (1, 1)) :=
    mountnode_by_path_root (vfs_mounted strhash dev d) (sb_root dev) (Nat.succ_ne_zero 0) rfl rfl
      ['/'] rfl
  have hm : (vfs_mounted strhash dev d).mount 1 = some (sb_root dev) := rfl
  have hdr : (vfs_mounted strhash dev d).driver (sb_root dev).sb_fs
      = some { ramfs_driver strhash with lst_prev := 1, lst_next := 1 } := rfl
  have hl : (ramfs_driver strhash).ops.lookup_inode = some (ramfs_lookup_inode strhash) := rfl
  have hi : (ramfs_driver strhash).ops.inode_data = some ramfs_inode_data := rfl
  have hheap : (vfs_mounted strhash dev d).heap = heap_root d := rfl
  have hdrop : List.drop 1 ['/'] = ([] : List Char) := rfl
  have hdev : (sb_root dev).sb_dev = dev := rfl
  have hty : ¬ (S_ISCHR (S_IFDIR ||| 493) = true ∨ S_ISBLK (S_IFDIR ||| 493) = true) := by
    decide
  have hst : vfs_inode_stat (vfs_mounted strhash dev d) 1 1
      = some (0, some { st_dev := dev, st_ino := 1, st_mode := S_IFDIR ||| 493, st_nlink := 2,
                        st_rdev := 0, st_size := 0 }) := by
    simp only [vfs_inode_stat, hm, Option.bind_eq_bind, Option.some_bind, hdr, hi, hheap,
      inode_data_root, ne_eq, not_true_eq_false, if_false, hty, hdev]
    rfl
  simp only [vfs_stat, hmn, Option.bind_eq_bind, Option.some_bind, ne_eq, not_true_eq_false,
    if_false, hm, hdr, hl, hheap, hdrop, lookup_root_empty, Option.getD_some, hst]

/-- C10: for every hash function and every device number, registering ramfs and mounting
it on `/` in the memory at boot returns 0; afterwards `vfs_mountnode_by_path("/")` returns
the root superblock and the offset 1, at which the path is empty; `sb_root_ino` is 1, not
zero, and `ramfs_inode_data` finds the record with that number; and `vfs_stat("/")` returns
0 with `st_mode = S_IFDIR | 0755` and `st_ino = sb_root_ino`. -/
theorem C10_root_mount (strhash : List Char → Nat) (chr_virt chr0 : Nat) :
    ∃ s sb, vfs_setup strhash chr_virt chr0 = some (s, 0) ∧
      s.theRootMnt ≠ 0 ∧ s.mount s.theRootMnt = some sb ∧
      vfs_mountnode_by_path s (some ['/']) = some (0, some (s.theRootMnt, 1)) ∧
      (['/'] : List Char).drop 1 = [] ∧
      sb.sb_root_ino ≠ 0 ∧
      (∃ i, ramfs_inode_data s.heap sb sb.sb_root_ino = some (0, some i) ∧
        i.i_no = sb.sb_root_ino ∧ i.i_mode = S_IFDIR ||| 493) ∧
      ∃ st, vfs_stat s (some ['/']) = some (0, some st) ∧
        st.st_mode = S_IFDIR ||| 493 ∧ st.st_ino = sb.sb_root_ino := by
  obtain ⟨d, hd⟩ := vfs_setup_spec strhash chr_virt chr0
  refine ⟨vfs_mounted strhash (gnu_dev_makedev chr_virt chr0) d,
    sb_root (gnu_dev_makedev chr_virt chr0), hd, Nat.succ_ne_zero 0, rfl, ?_, rfl,
    Nat.succ_ne_zero 0, ⟨_, inode_data_root _ d, rfl, rfl⟩, ⟨_, stat_root strhash _ d, rfl, rfl⟩⟩
  exact mountnode_by_path_root (vfs_mounted strhash (gnu_dev_makedev chr_virt chr0) d)
    (sb_root (gnu_dev_makedev chr_virt chr0)) (Nat.succ_ne_zero 0) rfl rfl ['/'] rfl

/-! ## Lookup of a linked node -/

/-- C1: with the directory `a` (inode 2), `ramfs_make_node` returns inode 3 and
`ramfs_link_inode` of it into `a` returns 0 for the empty name and for the name `x/y`, but
`ramfs_lookup_inode` on `a/` returns inode 2, the directory, and on `a/x/y` it fails with
`ENOENT`; and under a hash function for which `xy` and `x` collide, with an older node
(inode 3) linked as `xy`, the node linked as `x` is inode 4 and the lookup of `a/x` returns
inode 3.  With the name `x` alone the lookup of `a/x` returns the node. -/
theorem C1_link_then_lookup :
    run_link djb2 [] "a/".toList = some (3, 0, 0, some 2) ∧
    run_link djb2 "x/y".toList "a/x/y".toList = some (3, 0, ENOENT, some 0) ∧
    run_link_after hash_zero "xy".toList "x".toList "a/x".toList = some (4, 0, 0, some 3) ∧
    run_link djb2 "x".toList "a/x".toList = some (3, 0, 0, some 3) := by
  refine ⟨?_, ?_, ?_, ?_⟩ <;> decide!

/-! ## Repeated inserts into the inode index -/

theorem insert_same_acc (idata : Nat) : ∀ (n : Nat) (h : Heap) (r : Nat) (acc : List Nat),
    btree_insert_same idata n h r acc
      = (btree_insert_same idata n h r []).map (fun x => (x.1, x.2.1, x.2.2 ++ acc)) := by
  intro n
  induction n with
  | zero => intro h r acc; simp [btree_insert_same]
  | succ n ih =>
    intro h r acc
    simp only [btree_insert_same, Option.bind_eq_bind]
    cases hnl : btree_new_leaf h r idata with
    | none => simp
    | some x =>
      simp only [Option.some_bind]
      rw [ih x.1 x.2.1 (x.2.2 :: acc), ih x.1 x.2.1 [x.2.2]]
      cases btree_insert_same idata n x.1 x.2.1 [] with
      | none => rfl
      | some y => simp

theorem insert_same_add (idata : Nat) : ∀ (a b : Nat) (h : Heap) (r : Nat) (acc : List Nat),
    btree_insert_same idata (a + b) h r acc
      = (btree_insert_same idata a h r acc).bind
          (fun x => btree_insert_same idata b x.1 x.2.1 x.2.2) := by
  intro a
  induction a with
  | zero => intro b h r acc; simp [btree_insert_same]
  | succ a ih =>
    intro b h r acc
    have e : a + 1 + b = (a + b) + 1 := by omega
    rw [e]
    simp only [btree_insert_same, Option.bind_eq_bind]
    cases hnl : btree_new_leaf h r idata with
    | none => simp
    | some x =>
      simp only [Option.some_bind]
      exact ih b x.1 x.2.1 _

theorem insert_same_step (idata a b : Nat) (h : Heap) (r : Nat) (acc : List Nat) (h1 : Heap)
    (r1 : Nat) (c1 : List Nat)
    (hc : btree_insert_same idata a h r [] = some (h1, r1, c1)) :
    btree_insert_same idata (a + b) h r acc = btree_insert_same idata b h1 r1 (c1 ++ acc) := by
  rw [insert_same_add, insert_same_acc idata a h r acc, hc]
  rfl

theorem btree_seed_64 : btree_seed 64 = some (btree_heap_0, btree_root_0) := by
  decide!

theorem btree_same_chunk_64_spec :
    btree_insert_same invalid_inode 64 btree_heap_0 btree_root_0 []
      = some (btree_same_heap_64, btree_same_root_64, btree_same_chunk_64) := by
  decide!

theorem btree_same_chunk_128_spec :
    btree_insert_same invalid_inode 64 btree_same_heap_64 btree_same_root_64 []
      = some (btree_same_heap_128, btree_same_root_128, btree_same_chunk_128) := by
  decide!

theorem btree_same_chunk_192_spec :
    btree_insert_same invalid_inode 64 btree_same_heap_128 btree_same_root_128 []
      = some (btree_same_heap_192, btree_same_root_192, btree_same_chunk_192) := by
  decide!

theorem btree_same_chunk_256_spec :
    btree_insert_same invalid_inode 64 btree_same_heap_192 btree_same_root_192 []
      = some (btree_same_heap_256, btree_same_root_256, btree_same_chunk_256) := by
  decide!

theorem btree_same_chunk_319_spec :
    btree_insert_same invalid_inode 63 btree_same_heap_256 btree_same_root_256 []
      = some (btree_same_heap_319, btree_same_root_319, btree_same_chunk_319) := by
  decide!

theorem btree_same_chunk_320_spec :
    btree_insert_same invalid_inode 1 btree_same_heap_319 btree_same_root_319 []
      = some (btree_same_heap_320, btree_same_root_320, btree_same_chunk_320) := by
  decide!

theorem btree_same_chunk_384_spec :
    btree_insert_same invalid_inode 64 btree_same_heap_320 btree_same_root_320 []
      = some (btree_same_heap_384, btree_same_root_384, btree_same_chunk_384) := by
  decide!

theorem btree_same_chunk_385_spec :
    btree_insert_same invalid_inode 1 btree_same_heap_384 btree_same_root_384 []
      = some (btree_same_heap_385, btree_same_root_385, btree_same_chunk_385) := by
  decide!


theorem btree_filled_same_385 :
    btree_filled_same 64 385 = some (btree_same_heap_385, btree_same_root_385,
      btree_same_chunk_385 ++ btree_same_chunk_384 ++ btree_same_chunk_320 ++
      btree_same_chunk_319 ++ btree_same_chunk_256 ++ btree_same_chunk_192 ++ btree_same_chunk_128 ++
      btree_same_chunk_64) := by
  unfold btree_filled_same
  rw [btree_seed_64, Option.some_bind]
  rw [show (385 : Nat) = 64 + 321 from rfl,
    insert_same_step _ 64 321 _ _ _ _ _ _ btree_same_chunk_64_spec]
  rw [show (321 : Nat) = 64 + 257 from rfl,
    insert_same_step _ 64 257 _ _ _ _ _ _ btree_same_chunk_128_spec]
  rw [show (257 : Nat) = 64 + 193 from rfl,
    insert_same_step _ 64 193 _ _ _ _ _ _ btree_same_chunk_192_spec]
  rw [show (193 : Nat) = 64 + 129 from rfl,
    insert_same_step _ 64 129 _ _ _ _ _ _ btree_same_chunk_256_spec]
  rw [show (129 : Nat) = 63 + 66 from rfl,
    insert_same_step _ 63 66 _ _ _ _ _ _ btree_same_chunk_319_spec]
  rw [show (66 : Nat) = 1 + 65 from rfl,
    insert_same_step _ 1 65 _ _ _ _ _ _ btree_same_chunk_320_spec]
  rw [show (65 : Nat) = 64 + 1 from rfl,
    insert_same_step _ 64 1 _ _ _ _ _ _ btree_same_chunk_384_spec]
  rw [insert_same_acc, btree_same_chunk_385_spec]
  simp only [Option.map_some', List.append_nil, List.append_assoc]

/-- C4: of 385 calls of `btree_new_leaf` on the tree that `ramfs_data_new` seeds (fanout 64,
the sentinel in slot 0), the first returns the index 1, the 384th returns 0 where the tree
grows to level 6, and the 385th returns the index 1 again: two successful calls return the
same index.  Each call passes the record at address 1, which `btree_new_leaf` stores and
does not read. -/
theorem C4_index_repeats :
    (btree_filled_same 64 385).map (fun x => (x.2.2.getLast?, x.2.2.get? 1, x.2.2.head?))
      = some (some 1, some 0, some 1) ∧
    (btree_filled_same 64 385).bind (fun x => (x.1.node x.2.1).map (fun n => n.bt_level))
      = some 6 := by
  rw [btree_filled_same_385]
  constructor <;> decide!

/-! ## A path through an inode that is not a directory -/

theorem vfs_tty_spec :
    run_tty_root.map (fun r => (r.1.heap, r.1.mounts, r.1.theFileSystems, r.1.theRootMnt, r.2))
      = some (vfs_tty.heap, vfs_tty.mounts, vfs_tty.theFileSystems, vfs_tty.theRootMnt, [0]) := by
  decide!

end Cosec
